import Mathlib

/-!
# PDCurses `refresh.c`: a shallow embedding

The screen-update engine of PDCurses (`src/pdcurses/refresh.c`): `wnoutrefresh`
merges the changed cells of a window into the physical image `curscr`,
`doupdate` flushes the physical image to the terminal through the backend,
`wrefresh` composes the two, and `wredrawln` / `redrawwin` mark lines as changed.

Conventions of the embedding.

* A C `int` is an `Int`.  The sum `start + num` of the arguments of `wredrawln`
  is an `int` sum, undefined when it leaves the range of `int` (`add_int`); the
  sums of window coordinates and markers are taken in `Int` without a range
  check.
* A `WINDOW *` is an `Option Nat`: `none` is the null pointer, `some p` the
  address of the window object `mem p`.  Two pointers denote the same window iff
  the addresses are equal, so `win == curscr` is equality of addresses.
* The arrays `_y`, `_firstch`, `_lastch` are lists; their lengths are the
  allocated sizes.
* Every routine returns an `Option`: `none` means that the C execution has no
  defined outcome (dereference of a null `curscr`, array access outside the
  allocated size, `memcpy` of a negative length, overflow of `start + num`).  `some (rc, s)` is a completed
  call with return code `rc` and final state `s`.
* `SP` is taken to exist (the routines dereference it unconditionally).
-/

namespace PDCurses

/-- A screen cell (character plus attributes); only copied and compared here. -/
abbrev chtype := Nat

/-- Modelled from the spec: the success result of an operation, the macro `OK`
of `curses.h` (a header that `refresh.c` includes).  Only `OK ≠ ERR` is used. -/
def OK : Int := 0

/-- Modelled from the spec: the failure result of an operation, the macro `ERR`
of `curses.h`. -/
def ERR : Int := -1

/-- Modelled from the spec: the sentinel `NO_CHANGE` of a row without damage,
the macro `_NO_CHANGE` of `curses.h`; PDCurses defines it as `-1`, below every
column. -/
def _NO_CHANGE : Int := -1

/-- Modelled from the spec: the flag of the category "pad", the macro `_PAD` of
`curses.h`. -/
def _PAD : Nat := 0x10

/-- Modelled from the spec: the flag of the category "subpad", the macro
`_SUBPAD` of `curses.h`. -/
def _SUBPAD : Nat := 0x20

/-- The fields of `WINDOW` that `refresh.c` uses. -/
@[ext] structure WINDOW where
  _cury : Int
  _curx : Int
  _maxy : Int
  _maxx : Int
  _begy : Int
  _begx : Int
  _flags : Nat
  _clear : Bool
  _leaveit : Bool
  _y : List (List chtype)
  _firstch : List Int
  _lastch : List Int
deriving DecidableEq, Repr

/-- The fields of `SCREEN` (the object `SP` points to) that `refresh.c` uses. -/
structure SCREEN where
  alive : Bool
  shell : Bool
  lines : Int
  cols : Int
  cursrow : Int
  curscol : Int
deriving DecidableEq, Repr

/-- A call into the terminal backend, as recorded by the embedding.  A
`transform_line` entry also records the value the call returned. -/
inductive Call where
  | reset_prog_mode : Call
  | clr_update : Call
  | transform_line (i : Int) (ret : Bool) : Call
  | gotoxy (y x : Int) : Call
deriving DecidableEq, Repr

/-- Modelled from the spec: the backend and session routines that `refresh.c`
calls and other files define.  They are parameters of the embedding.  `T` is the backend's own state (the terminal).
`reset_prog_mode` may rewrite the `SCREEN` record; `PDC_clr_update` and
`PDC_transform_line` may rewrite the physical image (they consume its damage);
none of them reassigns the pointer `curscr` or touches another window. -/
structure Backend (T : Type) where
  isendwin : T → SCREEN → Bool
  reset_prog_mode : T → SCREEN → T × SCREEN
  PDC_clr_update : T → WINDOW → T × WINDOW
  PDC_transform_line : Int → T → WINDOW → Bool × T × WINDOW
  PDC_gotoxy : Int → Int → T → T

/-- The heap of window objects, by address. -/
abbrev Mem := Nat → WINDOW

/-- The global state: the heap, the globals `curscr`, `stdscr` and `*SP`, the
backend's state and the backend calls made so far (oldest first). -/
structure State (T : Type) where
  mem : Mem
  curscr : Option Nat
  stdscr : Option Nat
  SP : SCREEN
  term : T
  calls : List Call

/-- Array read `xs[i]`; undefined outside the allocation. -/
def rd {α : Type} (xs : List α) (i : Int) : Option α :=
  if 0 ≤ i then xs[i.toNat]? else none

/-- Array write `xs[i] = v`; undefined outside the allocation. -/
def wr {α : Type} (xs : List α) (i : Int) (v : α) : Option (List α) :=
  if 0 ≤ i ∧ i.toNat < xs.length then some (xs.set i.toNat v) else none

/-- The call `memcpy(&dst[d], &src[s], n * sizeof(chtype))`: the `n` cells
`src[s .. s+n-1]` are read and then stored at `dst[d .. d+n-1]`.  Undefined for a
negative `n` or when either range leaves its array.  Source and destination are
the same row only when the window is `curscr` itself; the copy then reads
before it stores. -/
def memcpy (dst : List chtype) (d : Int) (src : List chtype) (s : Int) (n : Int) :
    Option (List chtype) :=
  if 0 ≤ n ∧ 0 ≤ d ∧ d + n ≤ dst.length ∧ 0 ≤ s ∧ s + n ≤ src.length then
    some (dst.take d.toNat ++ ((src.drop s.toNat).take n.toNat ++ dst.drop (d.toNat + n.toNat)))
  else none

/-- Store of a whole window object at address `p`. -/
def store (m : Mem) (p : Nat) (w : WINDOW) : Mem := Function.update m p w

/-- The test `win->_flags & (_PAD|_SUBPAD)`. -/
def isPad (w : WINDOW) : Bool := (w._flags &&& (_PAD ||| _SUBPAD)) != 0

/-- The assignment `w->_y = y` of a whole array of rows (used with `wr`). -/
def WINDOW.set_y (w : WINDOW) (y : List (List chtype)) : WINDOW := { w with _y := y }

/-- The array `_firstch` of `w` replaced (used with `wr`). -/
def WINDOW.set_firstch (w : WINDOW) (fc : List Int) : WINDOW := { w with _firstch := fc }

/-- The array `_lastch` of `w` replaced (used with `wr`). -/
def WINDOW.set_lastch (w : WINDOW) (lc : List Int) : WINDOW := { w with _lastch := lc }

/-- The assignment `w->_clear = b`. -/
def WINDOW.set_clear (w : WINDOW) (b : Bool) : WINDOW := { w with _clear := b }

/-- The assignment `w->_cury = v`. -/
def WINDOW.set_cury (w : WINDOW) (v : Int) : WINDOW := { w with _cury := v }

/-- The assignment `w->_curx = v`. -/
def WINDOW.set_curx (w : WINDOW) (v : Int) : WINDOW := { w with _curx := v }

/-! ## `wredrawln` and `redrawwin` -/

/-- The loop `for (i = start; i < start + num; i++)` of `wredrawln`, entered at
row `i` with `n` iterations left. -/
def wredrawln_loop (p : Nat) : Nat → Int → Mem → Option Mem
  | 0, _, m => some m
  | n + 1, i, m => do
    let fc ← wr (m p)._firstch i 0
    let m := store m p ((m p).set_firstch fc)
    let lc ← wr (m p)._lastch i ((m p)._maxx - 1)
    let m := store m p ((m p).set_lastch lc)
    wredrawln_loop p n (i + 1) m

/-- The least value of the C type `int` (32 bits). -/
def INT_MIN : Int := -2147483648

/-- The greatest value of the C type `int` (32 bits). -/
def INT_MAX : Int := 2147483647

/-- The value `x` lies in the range of the C type `int`. -/
def isInt (x : Int) : Prop := INT_MIN ≤ x ∧ x ≤ INT_MAX

instance (x : Int) : Decidable (isInt x) := by
  unfold isInt; infer_instance

/-- The `int` sum `a + b` of C; undefined when the sum leaves the range of
`int` (signed overflow). -/
def add_int (a b : Int) : Option Int :=
  if isInt (a + b) then some (a + b) else none

/-- The routine `int wredrawln(WINDOW *win, int start, int num)`.  The tests
`win == NULL`, `start > win->_maxy` and `start + num > win->_maxy` are made in
this order, the later ones only when the earlier ones fail; the sum
`start + num` is an `int` sum, undefined on overflow. -/
def wredrawln {T : Type} (win : Option Nat) (start num : Int) (s : State T) :
    Option (Int × State T) :=
  match win with
  | none => some (ERR, s)
  | some p =>
    if start > (s.mem p)._maxy then some (ERR, s)
    else do
      let e ← add_int start num
      if e > (s.mem p)._maxy then pure (ERR, s)
      else do
        let m ← wredrawln_loop p (e - start).toNat start s.mem
        pure (OK, { s with mem := m })

/-- The routine `int redrawwin(WINDOW *win)`. -/
def redrawwin {T : Type} (win : Option Nat) (s : State T) : Option (Int × State T) :=
  match win with
  | none => some (ERR, s)
  | some p => wredrawln (some p) 0 (s.mem p)._maxy s

/-! ## `wnoutrefresh` -/

/-- The block of `wnoutrefresh` guarded by `if (win->_firstch[i] != _NO_CHANGE)`,
for window row `i` and physical row `j`: the copy of the changed cells, the
union of the translated span into the damage of `curscr`, and the reset of
`win->_firstch[i]`.  Every access goes through the heap, so the case
`win == curscr` is covered by the same text. -/
def wnoutrefresh_changed (win : Nat) (curscr : Option Nat) (begx : Int) (i j : Int) (m : Mem) :
    Option Mem := do
  let first ← rd (m win)._firstch i
  let last ← rd (m win)._lastch i
  let c ← curscr
  let dst ← rd (m c)._y j
  let src ← rd (m win)._y i
  let row ← memcpy dst (begx + first) src first (last - first + 1)
  let y ← wr (m c)._y j row
  let m := store m c ((m c).set_y y)
  let first := first + begx
  let last := last + begx
  let cf ← rd (m c)._firstch j
  let fc ← wr (m c)._firstch j (if cf ≠ _NO_CHANGE then min cf first else first)
  let m := store m c ((m c).set_firstch fc)
  let cl ← rd (m c)._lastch j
  let lc ← wr (m c)._lastch j (max cl last)
  let m := store m c ((m c).set_lastch lc)
  let wf ← wr (m win)._firstch i _NO_CHANGE
  pure (store m win ((m win).set_firstch wf))

/-- One pass through the body of the `for` loop of `wnoutrefresh`, for window
row `i` and physical row `j`. -/
def wnoutrefresh_row (win : Nat) (curscr : Option Nat) (begx : Int) (i j : Int) (m : Mem) :
    Option Mem := do
  let f ← rd (m win)._firstch i
  let m ← if f ≠ _NO_CHANGE then wnoutrefresh_changed win curscr begx i j m else pure m
  let wl ← wr (m win)._lastch i _NO_CHANGE
  pure (store m win ((m win).set_lastch wl))

/-- The loop `for (i = 0, j = begy; i < win->_maxy; i++, j++)` of
`wnoutrefresh`, entered at rows `i`, `j` with `n` iterations left. -/
def wnoutrefresh_loop (win : Nat) (curscr : Option Nat) (begx : Int) :
    Nat → Int → Int → Mem → Option Mem
  | 0, _, _, m => some m
  | n + 1, i, j, m => do
    let m ← wnoutrefresh_row win curscr begx i j m
    wnoutrefresh_loop win curscr begx n (i + 1) (j + 1) m

/-- The part of `wnoutrefresh` after the loop: the clear flag and the cursor. -/
def wnoutrefresh_tail (win : Nat) (curscr : Option Nat) (begy begx : Int) (m : Mem) :
    Option Mem := do
  let m := if (m win)._clear then store m win ((m win).set_clear false) else m
  if !(m win)._leaveit then do
    let c ← curscr
    let m := store m c ((m c).set_cury ((m win)._cury + begy))
    pure (store m c ((m c).set_curx ((m win)._curx + begx)))
  else pure m

/-- The routine `int wnoutrefresh(WINDOW *win)`. -/
def wnoutrefresh {T : Type} (win : Option Nat) (s : State T) : Option (Int × State T) :=
  match win with
  | none => some (ERR, s)
  | some p =>
    if isPad (s.mem p) then some (ERR, s)
    else do
      let begy := (s.mem p)._begy
      let begx := (s.mem p)._begx
      let m ← wnoutrefresh_loop p s.curscr begx ((s.mem p)._maxy - 0).toNat 0 begy s.mem
      let m ← wnoutrefresh_tail p s.curscr begy begx m
      pure (OK, { s with mem := m })

/-! ## `doupdate` -/

/-- A call of `reset_prog_mode()`. -/
def call_reset_prog_mode {T : Type} (be : Backend T) (s : State T) : State T :=
  { s with term := (be.reset_prog_mode s.term s.SP).1
           SP := (be.reset_prog_mode s.term s.SP).2
           calls := s.calls ++ [Call.reset_prog_mode] }

/-- A call of `PDC_clr_update()`, with `curscr` at address `c`. -/
def call_clr_update {T : Type} (be : Backend T) (c : Nat) (s : State T) : State T :=
  { s with term := (be.PDC_clr_update s.term (s.mem c)).1
           mem := store s.mem c (be.PDC_clr_update s.term (s.mem c)).2
           calls := s.calls ++ [Call.clr_update] }

/-- A call of `PDC_transform_line(i)`, with `curscr` at address `c`; the first
component is the value returned. -/
def call_transform_line {T : Type} (be : Backend T) (c : Nat) (i : Int) (s : State T) :
    Bool × State T :=
  ((be.PDC_transform_line i s.term (s.mem c)).1,
   { s with term := (be.PDC_transform_line i s.term (s.mem c)).2.1
            mem := store s.mem c (be.PDC_transform_line i s.term (s.mem c)).2.2
            calls := s.calls ++ [Call.transform_line i (be.PDC_transform_line i s.term (s.mem c)).1] })

/-- A call of `PDC_gotoxy(y, x)`. -/
def call_gotoxy {T : Type} (be : Backend T) (y x : Int) (s : State T) : State T :=
  { s with term := be.PDC_gotoxy y x s.term
           calls := s.calls ++ [Call.gotoxy y x] }

/-- The block of `doupdate` guarded by `if (isendwin())`: the return from
`endwin()`.  The store to `curscr->_clear` comes before the test of `curscr`. -/
def doupdate_wakeup {T : Type} (be : Backend T) (s : State T) : Option (State T) := do
  let s := call_reset_prog_mode be s
  let c ← s.curscr
  let s := { s with mem := store s.mem c ((s.mem c).set_clear true) }
  pure { s with SP := { s.SP with alive := true } }

/-- The start of `doupdate`, up to the test of `curscr`: the return from
`endwin()` and the shell mode. -/
def doupdate_prologue {T : Type} (be : Backend T) (s : State T) : Option (State T) := do
  let s ← (if be.isendwin s.term s.SP then doupdate_wakeup be s else pure s)
  pure (if s.SP.shell then call_reset_prog_mode be s else s)

/-- The loop `for (i = 0; i < SP->lines; i++)` of `doupdate`, entered at row
`i` with `n` iterations left; `c` is the address of `curscr`. -/
def doupdate_loop {T : Type} (be : Backend T) (c : Nat) : Nat → Int → State T → Option (State T)
  | 0, _, s => some s
  | n + 1, i, s => do
    let f ← rd (s.mem c)._firstch i
    if f ≠ _NO_CHANGE then
      if (call_transform_line be c i s).1 then pure (call_transform_line be c i s).2
      else doupdate_loop be c n (i + 1) (call_transform_line be c i s).2
    else doupdate_loop be c n (i + 1) s

/-- The content flush of `doupdate`: the full redraw or the scan of the rows. -/
def doupdate_flush {T : Type} (be : Backend T) (c : Nat) (s : State T) : Option (State T) :=
  if (s.mem c)._clear then some (call_clr_update be c s)
  else doupdate_loop be c (s.SP.lines - 0).toNat 0 s

/-- The end of `doupdate`: the cursor. -/
def doupdate_cursor {T : Type} (be : Backend T) (c : Nat) (s : State T) : State T :=
  if s.SP.cursrow ≠ (s.mem c)._cury ∨ s.SP.curscol ≠ (s.mem c)._curx then
    let s1 := call_gotoxy be (s.mem c)._cury (s.mem c)._curx s
    let s2 := { s1 with SP := { s1.SP with cursrow := (s1.mem c)._cury } }
    { s2 with SP := { s2.SP with curscol := (s2.mem c)._curx } }
  else s

/-- The routine `int doupdate(void)`. -/
def doupdate {T : Type} (be : Backend T) (s : State T) : Option (Int × State T) := do
  let s ← doupdate_prologue be s
  match s.curscr with
  | none => pure (ERR, s)
  | some c => do
    let s ← doupdate_flush be c s
    pure (OK, doupdate_cursor be c s)

/-! ## `wrefresh` and `refresh` -/

/-- The routine `int wrefresh(WINDOW *win)`.  The values returned by
`wnoutrefresh` and `doupdate` are dropped, as in the source. -/
def wrefresh {T : Type} (be : Backend T) (win : Option Nat) (s : State T) :
    Option (Int × State T) :=
  match win with
  | none => some (ERR, s)
  | some p =>
    if isPad (s.mem p) then some (ERR, s)
    else do
      let save_clear := (s.mem p)._clear
      let s ← (if some p = s.curscr then
          pure { s with mem := store s.mem p ((s.mem p).set_clear true) }
        else do
          let r ← wnoutrefresh (some p) s
          pure r.2)
      let s ← (if save_clear ∧ (s.mem p)._maxy = s.SP.lines ∧ (s.mem p)._maxx = s.SP.cols then do
          let c ← s.curscr
          pure { s with mem := store s.mem c ((s.mem c).set_clear true) }
        else pure s)
      let r ← doupdate be s
      pure (OK, r.2)

/-- The routine `int refresh(void)`. -/
def refresh {T : Type} (be : Backend T) (s : State T) : Option (Int × State T) :=
  wrefresh be s.stdscr s

/-! ## Well-formedness and fixtures -/

/-- The line arrays of a window hold at least its `_maxy` lines. -/
def WINDOW.linesAllocated (w : WINDOW) : Prop :=
  w._maxy ≤ w._firstch.length ∧ w._maxy ≤ w._lastch.length

instance (w : WINDOW) : Decidable w.linesAllocated := by
  unfold WINDOW.linesAllocated; infer_instance

/-- A window of `rows` by `cols` blank cells at origin `(begy, begx)` without
pending changes. -/
def blankWindow (rows cols : Nat) (begy begx : Int) : WINDOW :=
  { _cury := 0, _curx := 0, _maxy := rows, _maxx := cols, _begy := begy, _begx := begx,
    _flags := 0, _clear := false, _leaveit := false,
    _y := List.replicate rows (List.replicate cols 0),
    _firstch := List.replicate rows _NO_CHANGE,
    _lastch := List.replicate rows _NO_CHANGE }

/-- A backend for the examples: `isendwin` reads `SP->alive`, the redraw
routines consume the damage they flush, no call reports an early stop. -/
def demoBackend : Backend Unit :=
  { isendwin := fun _ sp => !sp.alive
    reset_prog_mode := fun t sp => (t, sp)
    PDC_clr_update := fun t w =>
      (t, { w with _clear := false
                   _firstch := w._firstch.map (fun _ => _NO_CHANGE)
                   _lastch := w._lastch.map (fun _ => _NO_CHANGE) })
    PDC_transform_line := fun i t w =>
      (false, t, if 0 ≤ i then { w with _firstch := w._firstch.set i.toNat _NO_CHANGE
                                        _lastch := w._lastch.set i.toNat _NO_CHANGE } else w)
    PDC_gotoxy := fun _ _ t => t }

/-- The 5 by 10 window of the examples, at origin `(2, 3)`, whose row 0 holds
the cells `10 .. 19` and has the pending span `(1, 4)`. -/
def demoWindow : WINDOW :=
  { blankWindow 5 10 2 3 with
    _cury := 1, _curx := 2,
    _y := [10, 11, 12, 13, 14, 15, 16, 17, 18, 19] :: List.replicate 4 (List.replicate 10 0),
    _firstch := [1, _NO_CHANGE, _NO_CHANGE, _NO_CHANGE, _NO_CHANGE],
    _lastch := [4, _NO_CHANGE, _NO_CHANGE, _NO_CHANGE, _NO_CHANGE] }

/-- The session of the examples: a clean 24 by 80 physical image at address 0,
`demoWindow` at address 1, a full-screen `stdscr` at address 2. -/
def demoState : State Unit :=
  { mem := fun a => if a = 0 then blankWindow 24 80 0 0 else if a = 1 then demoWindow
                    else blankWindow 24 80 0 0
    curscr := some 0
    stdscr := some 2
    SP := { alive := true, shell := false, lines := 24, cols := 80, cursrow := 0, curscol := 0 }
    term := ()
    calls := [] }

/-- The scalar fields of a window. -/
def WINDOW.scalars (w : WINDOW) : Int × Int × Int × Int × Int × Int × Nat × Bool × Bool :=
  (w._cury, w._curx, w._maxy, w._maxx, w._begy, w._begx, w._flags, w._clear, w._leaveit)

/-- The physical image `c` after one changed window row has been merged into
its row `j`: `row` is the new content of the row, `(first, last)` the translated
span, `(cf, cl)` the markers of the row before. -/
def mergedImage (c : WINDOW) (j : Int) (row : List chtype) (first last cf cl : Int) : WINDOW :=
  ((c.set_y (c._y.set j.toNat row)).set_firstch
      (c._firstch.set j.toNat (if cf ≠ _NO_CHANGE then min cf first else first))).set_lastch
    (c._lastch.set j.toNat (max cl last))

/-- The effect of `wnoutrefresh` on physical row `r` when it handles window row
`k` of `w`, from the image `c` to the image `C`: either the window row carries no
change and the physical row is as before, or its span `(f, l)` is copied and
united with the markers `(cf, cl)` of the physical row. -/
def RowMerged (begx k r : Int) (w c C : WINDOW) : Prop :=
  (rd w._firstch k = some _NO_CHANGE ∧ rd C._y r = rd c._y r ∧
    rd C._firstch r = rd c._firstch r ∧ rd C._lastch r = rd c._lastch r) ∨
  (∃ f l dst src row cf cl, f ≠ _NO_CHANGE ∧
    rd w._firstch k = some f ∧ rd w._lastch k = some l ∧
    rd c._y r = some dst ∧ rd w._y k = some src ∧
    memcpy dst (begx + f) src f (l - f + 1) = some row ∧
    rd c._firstch r = some cf ∧ rd c._lastch r = some cl ∧
    rd C._y r = some row ∧
    rd C._firstch r = some (if cf ≠ _NO_CHANGE then min cf (f + begx) else f + begx) ∧
    rd C._lastch r = some (max cl (l + begx)))

/-- The effect of the rows `i .. i+n-1` of the loop of `wnoutrefresh` (physical
rows `j .. j+n-1`) on a window `w` and a distinct physical image `c`, giving `W`
and `C`. -/
def RowsMerged (begx i j : Int) (n : Nat) (w c W C : WINDOW) : Prop :=
  W.scalars = w.scalars ∧ W._y = w._y ∧ C.scalars = c.scalars ∧
  (∀ k : Int, rd W._firstch k =
    if i ≤ k ∧ k < i + n then some _NO_CHANGE else rd w._firstch k) ∧
  (∀ k : Int, rd W._lastch k =
    if i ≤ k ∧ k < i + n then some _NO_CHANGE else rd w._lastch k) ∧
  (∀ k : Int, i ≤ k → k < i + n → RowMerged begx k (j + (k - i)) w c C) ∧
  (∀ r : Int, ¬ (j ≤ r ∧ r < j + n) →
    rd C._y r = rd c._y r ∧ rd C._firstch r = rd c._firstch r ∧ rd C._lastch r = rd c._lastch r)

/-- The cell `w->_y[r][k]`, when it exists. -/
def cell (w : WINDOW) (r k : Int) : Option chtype := (rd w._y r).bind (fun row => rd row k)

/-- The window `w` lies within the physical image `c`. -/
def fitsIn (w c : WINDOW) : Prop :=
  0 ≤ w._begy ∧ w._begy + w._maxy ≤ c._maxy ∧ 0 ≤ w._begx ∧ w._begx + w._maxx ≤ c._maxx

instance (w c : WINDOW) : Decidable (fitsIn w c) := by
  unfold fitsIn; infer_instance

/-- The session of the examples, except that physical row 2 carries the span `(4, 7)`. -/
def dirtyState : State Unit :=
  { demoState with
    mem := fun a =>
      if a = 0 then
        ((blankWindow 24 80 0 0).set_firstch ((blankWindow 24 80 0 0)._firstch.set 2 4)).set_lastch
          ((blankWindow 24 80 0 0)._lastch.set 2 7)
      else demoState.mem a }

/-- A line transform that reports no early stop leaves the first-changed
markers of the rows below its own as they were. -/
def Backend.leavesLaterRows {T : Type} (be : Backend T) : Prop :=
  ∀ (i : Int) (t : T) (w : WINDOW), (be.PDC_transform_line i t w).1 = false →
    ∀ k : Int, i < k → rd (be.PDC_transform_line i t w).2.2._firstch k = rd w._firstch k

/-- The row `k` of the window `w` carries a change. -/
def damaged (w : WINDOW) (k : Int) : Prop := ∃ f, rd w._firstch k = some f ∧ f ≠ _NO_CHANGE

/-- The backend call recorded for a line transform of row `x.1` that returned `x.2`. -/
def transformCall (x : Int × Bool) : Call := Call.transform_line x.1 x.2

/-- A line transform keeps the number of entries of `_firstch`. -/
def Backend.keepsLineCount {T : Type} (be : Backend T) : Prop :=
  ∀ (i : Int) (t : T) (w : WINDOW),
    (be.PDC_transform_line i t w).2.2._firstch.length = w._firstch.length

/-- The session of the examples with the cursor of the physical image at `(3, 5)`
and its full-redraw flag set. -/
def clearState : State Unit :=
  { demoState with
    mem := fun a =>
      if a = 0 then (((blankWindow 24 80 0 0).set_cury 3).set_curx 5).set_clear true
      else demoState.mem a }

/-- The sizes of the arrays of a window: of `_firstch`, of `_lastch`, and of
each row of `_y`. -/
def WINDOW.lens (w : WINDOW) : Nat × Nat × List Nat :=
  (w._firstch.length, w._lastch.length, w._y.map List.length)

/-- The arrays of a window hold its `_maxy` rows of `_maxx` cells. -/
def WINDOW.allocated (w : WINDOW) : Prop :=
  w._maxy ≤ w._firstch.length ∧ w._maxy ≤ w._lastch.length ∧
  w._maxy ≤ (w._y.map List.length).length ∧ ∀ n ∈ w._y.map List.length, w._maxx ≤ (n : Int)

instance (w : WINDOW) : Decidable w.allocated := by
  unfold WINDOW.allocated; infer_instance

/-- Every changed row `i` of the `_maxy` rows of a window has a span with
`0 ≤ first ≤ last < _maxx`. -/
def spansValid (w : WINDOW) : Prop :=
  ∀ i : Nat, i < w._maxy.toNat → w._firstch.getD i _NO_CHANGE ≠ _NO_CHANGE →
    0 ≤ w._firstch.getD i _NO_CHANGE ∧
    w._firstch.getD i _NO_CHANGE ≤ w._lastch.getD i _NO_CHANGE ∧
    w._lastch.getD i _NO_CHANGE < w._maxx

instance (w : WINDOW) : Decidable (spansValid w) := by
  unfold spansValid; infer_instance

/-- The preconditions under which every access of `wnoutrefresh(win)` stays
inside its array: the arrays of the window `w` and of the physical image `c`
are allocated, the window lies within the physical image, and its spans are
valid. -/
def mergeReady (w c : WINDOW) : Prop :=
  w.allocated ∧ c.allocated ∧ fitsIn w c ∧ spansValid w

instance (w c : WINDOW) : Decidable (mergeReady w c) := by
  unfold mergeReady; infer_instance

/-- The backend keeps the geometry of the screen: `reset_prog_mode` keeps
`SP->lines`, and a line transform keeps the number of entries of `_firstch`. -/
def Backend.keepsGeometry {T : Type} (be : Backend T) : Prop :=
  be.keepsLineCount ∧ ∀ (t : T) (sp : SCREEN), (be.reset_prog_mode t sp).2.lines = sp.lines

/-- The session of the examples, except that the window at address 1 is a pad. -/
def padState : State Unit :=
  { demoState with
    mem := fun a => if a = 1 then { demoWindow with _flags := _PAD } else demoState.mem a }

/-- The backend leaves the cursors alone: `reset_prog_mode` keeps
`SP->cursrow` and `SP->curscol`, the redraw routines keep `curscr->_cury` and
`curscr->_curx`. -/
def Backend.keepsCursor {T : Type} (be : Backend T) : Prop :=
  (∀ (t : T) (sp : SCREEN), (be.reset_prog_mode t sp).2.cursrow = sp.cursrow ∧
    (be.reset_prog_mode t sp).2.curscol = sp.curscol) ∧
  (∀ (t : T) (w : WINDOW), (be.PDC_clr_update t w).2._cury = w._cury ∧
    (be.PDC_clr_update t w).2._curx = w._curx) ∧
  (∀ (i : Int) (t : T) (w : WINDOW), (be.PDC_transform_line i t w).2.2._cury = w._cury ∧
    (be.PDC_transform_line i t w).2.2._curx = w._curx)

/-- The session of the examples before the physical image exists (`curscr` is
null), with `SP->alive` true. -/
def nullState : State Unit :=
  { demoState with curscr := none }

/-- The session of the examples before the physical image exists (`curscr` is
null), after `endwin()`: `SP->alive` is false, so `isendwin()` holds. -/
def nullEndState : State Unit :=
  { demoState with
    curscr := none
    SP := { alive := false, shell := false, lines := 24, cols := 80, cursrow := 0, curscol := 0 } }

/-- A backend for the examples whose line transform consumes the damage of its
row and reports an early stop every time (as with pending typeahead). -/
def stoppingBackend : Backend Unit :=
  { demoBackend with
    PDC_transform_line := fun i t w =>
      (true, t, if 0 ≤ i then { w with _firstch := w._firstch.set i.toNat _NO_CHANGE
                                       _lastch := w._lastch.set i.toNat _NO_CHANGE } else w) }

/-- The session of the examples, except that the physical rows 2 and 5 carry the
spans `(4, 7)` and `(0, 9)`. -/
def twoRowsState : State Unit :=
  { demoState with
    mem := fun a =>
      if a = 0 then
        ((blankWindow 24 80 0 0).set_firstch
            (((blankWindow 24 80 0 0)._firstch.set 2 4).set 5 0)).set_lastch
          (((blankWindow 24 80 0 0)._lastch.set 2 7).set 5 9)
      else demoState.mem a }

/-- The session of the examples, except that `stdscr` carries the span `(0, 5)`
on its row 3. -/
def stdDirtyState : State Unit :=
  { demoState with
    mem := fun a =>
      if a = 2 then
        ((blankWindow 24 80 0 0).set_firstch ((blankWindow 24 80 0 0)._firstch.set 3 0)).set_lastch
          ((blankWindow 24 80 0 0)._lastch.set 3 5)
      else demoState.mem a }

/-- The session of the examples, except that the clear flag of `stdscr` is set. -/
def stdClearState : State Unit :=
  { demoState with
    mem := fun a => if a = 2 then (blankWindow 24 80 0 0).set_clear true else demoState.mem a }

/-- The specification of `wrefresh(win)` for a window other than the physical
image, in its own words: `wnoutrefresh(win)`, then, when the clear flag of the
window was set before the call and its size `(_maxy, _maxx)` is the size
`(SP->lines, SP->cols)` of the terminal, the full-redraw flag of the physical
image is set, then `doupdate()`; the value returned is `OK`. -/
def wrefresh_spec {T : Type} (be : Backend T) (p : Nat) (s : State T) :
    Option (Int × State T) := do
  let r ← wnoutrefresh (some p) s
  let s1 ← (if (s.mem p)._clear = true ∧ (s.mem p)._maxy = s.SP.lines ∧
        (s.mem p)._maxx = s.SP.cols then
      r.2.curscr.map (fun c => { r.2 with mem := store r.2.mem c ((r.2.mem c).set_clear true) })
    else some r.2)
  let r2 ← doupdate be s1
  pure (OK, r2.2)

/-- The arrays of a window hold exactly its `_maxy` rows of `_maxx` cells: an
index is inside the array exactly when it lies in `[0, _maxy)` for the rows and
in `[0, _maxx)` for the columns. -/
def WINDOW.exact (w : WINDOW) : Prop :=
  (w._firstch.length : Int) = w._maxy ∧ (w._lastch.length : Int) = w._maxy ∧
  (w._y.length : Int) = w._maxy ∧ ∀ row ∈ w._y, (row.length : Int) = w._maxx

instance (w : WINDOW) : Decidable w.exact := by
  unfold WINDOW.exact; infer_instance

/-- The damage of the window `w` is well formed: each of its `_maxy` rows is
clean (both markers `_NO_CHANGE`) or has `0 ≤ first ≤ last < _maxx`. -/
def damageWF (w : WINDOW) : Prop :=
  ∀ r : Nat, r < w._maxy.toNat →
    (w._firstch.getD r _NO_CHANGE = _NO_CHANGE ∧ w._lastch.getD r _NO_CHANGE = _NO_CHANGE) ∨
    (0 ≤ w._firstch.getD r _NO_CHANGE ∧
      w._firstch.getD r _NO_CHANGE ≤ w._lastch.getD r _NO_CHANGE ∧
      w._lastch.getD r _NO_CHANGE < w._maxx)

instance (w : WINDOW) : Decidable (damageWF w) := by
  unfold damageWF; infer_instance

/-- A second window for the examples: 3 by 20 at origin `(1, 10)`, whose row 1
has the pending span `(2, 5)`. -/
def sideWindow : WINDOW :=
  { blankWindow 3 20 1 10 with
    _firstch := [_NO_CHANGE, 2, _NO_CHANGE],
    _lastch := [_NO_CHANGE, 5, _NO_CHANGE] }

/-- The session of the examples with `sideWindow` at address 3: its row 1 and
row 0 of `demoWindow` both lie on physical row 2. -/
def twoWindowsState : State Unit :=
  { demoState with mem := fun a => if a = 3 then sideWindow else demoState.mem a }

/-- Modelled from the spec: the contract of a backend that consumes the damage
it flushes.  `isendwin()` is the negation of `SP->alive`, which
`reset_prog_mode` keeps, as it keeps `SP->lines` and the cursor cached in `SP`.
The full redraw clears the full-redraw flag and the first-changed marker of
every row.  A line transform of row `i` clears the first-changed marker of row
`i`, leaves clean rows clean and the full-redraw flag as it was and, when it
reports an early stop, has advanced past the rows after `i`: their markers are
cleared too.  No routine changes the number of rows or the cursor of the
physical image. -/
def Backend.consumes {T : Type} (be : Backend T) : Prop :=
  (∀ (t : T) (sp : SCREEN), be.isendwin t sp = !sp.alive) ∧
  (∀ (t : T) (sp : SCREEN), (be.reset_prog_mode t sp).2.alive = sp.alive) ∧
  be.keepsGeometry ∧ be.keepsCursor ∧
  (∀ (t : T) (w : WINDOW), (be.PDC_clr_update t w).2._clear = false ∧
    (be.PDC_clr_update t w).2._firstch.length = w._firstch.length ∧
    ∀ x ∈ (be.PDC_clr_update t w).2._firstch, x = _NO_CHANGE) ∧
  (∀ (i : Int) (t : T) (w : WINDOW),
    (be.PDC_transform_line i t w).2.2._clear = w._clear ∧
    (∀ f, rd w._firstch i = some f →
      rd (be.PDC_transform_line i t w).2.2._firstch i = some _NO_CHANGE) ∧
    (∀ k : Int, rd w._firstch k = some _NO_CHANGE →
      rd (be.PDC_transform_line i t w).2.2._firstch k = some _NO_CHANGE) ∧
    ((be.PDC_transform_line i t w).1 = true → ∀ k : Int, i < k → k < w._firstch.length →
      rd (be.PDC_transform_line i t w).2.2._firstch k = some _NO_CHANGE))

/-- The session of the examples with `sideWindow` at address 3, except that
physical row 2 carries the span `(4, 7)`. -/
def sideDirtyState : State Unit :=
  { dirtyState with mem := fun a => if a = 3 then sideWindow else dirtyState.mem a }

/-- The session of the examples, except that physical row 2 carries the span
`(6, 20)`. -/
def wideDirtyState : State Unit :=
  { demoState with
    mem := fun a =>
      if a = 0 then
        ((blankWindow 24 80 0 0).set_firstch ((blankWindow 24 80 0 0)._firstch.set 2 6)).set_lastch
          ((blankWindow 24 80 0 0)._lastch.set 2 20)
      else demoState.mem a }

/-! ## Field updates -/

@[simp] theorem WINDOW.set_y_fields (w : WINDOW) (y : List (List chtype)) :
    (w.set_y y)._cury = w._cury ∧
    (w.set_y y)._curx = w._curx ∧
    (w.set_y y)._maxy = w._maxy ∧
    (w.set_y y)._maxx = w._maxx ∧
    (w.set_y y)._begy = w._begy ∧
    (w.set_y y)._begx = w._begx ∧
    (w.set_y y)._flags = w._flags ∧
    (w.set_y y)._clear = w._clear ∧
    (w.set_y y)._leaveit = w._leaveit ∧
    (w.set_y y)._y = y ∧
    (w.set_y y)._firstch = w._firstch ∧
    (w.set_y y)._lastch = w._lastch := by
  simp [WINDOW.set_y]

@[simp] theorem WINDOW.set_firstch_fields (w : WINDOW) (fc : List Int) :
    (w.set_firstch fc)._cury = w._cury ∧
    (w.set_firstch fc)._curx = w._curx ∧
    (w.set_firstch fc)._maxy = w._maxy ∧
    (w.set_firstch fc)._maxx = w._maxx ∧
    (w.set_firstch fc)._begy = w._begy ∧
    (w.set_firstch fc)._begx = w._begx ∧
    (w.set_firstch fc)._flags = w._flags ∧
    (w.set_firstch fc)._clear = w._clear ∧
    (w.set_firstch fc)._leaveit = w._leaveit ∧
    (w.set_firstch fc)._y = w._y ∧
    (w.set_firstch fc)._firstch = fc ∧
    (w.set_firstch fc)._lastch = w._lastch := by
  simp [WINDOW.set_firstch]

@[simp] theorem WINDOW.set_lastch_fields (w : WINDOW) (lc : List Int) :
    (w.set_lastch lc)._cury = w._cury ∧
    (w.set_lastch lc)._curx = w._curx ∧
    (w.set_lastch lc)._maxy = w._maxy ∧
    (w.set_lastch lc)._maxx = w._maxx ∧
    (w.set_lastch lc)._begy = w._begy ∧
    (w.set_lastch lc)._begx = w._begx ∧
    (w.set_lastch lc)._flags = w._flags ∧
    (w.set_lastch lc)._clear = w._clear ∧
    (w.set_lastch lc)._leaveit = w._leaveit ∧
    (w.set_lastch lc)._y = w._y ∧
    (w.set_lastch lc)._firstch = w._firstch ∧
    (w.set_lastch lc)._lastch = lc := by
  simp [WINDOW.set_lastch]

@[simp] theorem WINDOW.set_clear_fields (w : WINDOW) (b : Bool) :
    (w.set_clear b)._cury = w._cury ∧
    (w.set_clear b)._curx = w._curx ∧
    (w.set_clear b)._maxy = w._maxy ∧
    (w.set_clear b)._maxx = w._maxx ∧
    (w.set_clear b)._begy = w._begy ∧
    (w.set_clear b)._begx = w._begx ∧
    (w.set_clear b)._flags = w._flags ∧
    (w.set_clear b)._clear = b ∧
    (w.set_clear b)._leaveit = w._leaveit ∧
    (w.set_clear b)._y = w._y ∧
    (w.set_clear b)._firstch = w._firstch ∧
    (w.set_clear b)._lastch = w._lastch := by
  simp [WINDOW.set_clear]

@[simp] theorem WINDOW.set_cury_fields (w : WINDOW) (v : Int) :
    (w.set_cury v)._cury = v ∧
    (w.set_cury v)._curx = w._curx ∧
    (w.set_cury v)._maxy = w._maxy ∧
    (w.set_cury v)._maxx = w._maxx ∧
    (w.set_cury v)._begy = w._begy ∧
    (w.set_cury v)._begx = w._begx ∧
    (w.set_cury v)._flags = w._flags ∧
    (w.set_cury v)._clear = w._clear ∧
    (w.set_cury v)._leaveit = w._leaveit ∧
    (w.set_cury v)._y = w._y ∧
    (w.set_cury v)._firstch = w._firstch ∧
    (w.set_cury v)._lastch = w._lastch := by
  simp [WINDOW.set_cury]

@[simp] theorem WINDOW.set_curx_fields (w : WINDOW) (v : Int) :
    (w.set_curx v)._cury = w._cury ∧
    (w.set_curx v)._curx = v ∧
    (w.set_curx v)._maxy = w._maxy ∧
    (w.set_curx v)._maxx = w._maxx ∧
    (w.set_curx v)._begy = w._begy ∧
    (w.set_curx v)._begx = w._begx ∧
    (w.set_curx v)._flags = w._flags ∧
    (w.set_curx v)._clear = w._clear ∧
    (w.set_curx v)._leaveit = w._leaveit ∧
    (w.set_curx v)._y = w._y ∧
    (w.set_curx v)._firstch = w._firstch ∧
    (w.set_curx v)._lastch = w._lastch := by
  simp [WINDOW.set_curx]

/-! ## Arrays and the heap -/

theorem store_same (m : Mem) (p : Nat) (w : WINDOW) : store m p w p = w := by
  simp [store]

theorem store_ne (m : Mem) (p q : Nat) (w : WINDOW) (h : q ≠ p) : store m p w q = m q := by
  simp [store, Function.update_noteq h]

theorem store_store (m : Mem) (p : Nat) (w v : WINDOW) : store (store m p w) p v = store m p v := by
  simp [store]

theorem store_self (m : Mem) (p : Nat) : store m p (m p) = m := by
  simp [store]

theorem wr_eq_some {α : Type} {xs ys : List α} {i : Int} {v : α} :
    wr xs i v = some ys ↔ (0 ≤ i ∧ i.toNat < xs.length) ∧ ys = xs.set i.toNat v := by
  unfold wr
  split
  · rename_i h
    simp [h, eq_comm]
  · rename_i h
    simp [h]

theorem rd_set {α : Type} (xs : List α) (i k : Int) (v : α) (hi : 0 ≤ i)
    (hlt : i.toNat < xs.length) :
    rd (xs.set i.toNat v) k = if k = i then some v else rd xs k := by
  unfold rd
  by_cases hk : 0 ≤ k
  · simp only [hk, if_true]
    by_cases hki : k = i
    · subst hki
      simp [hlt]
    · have hne : i.toNat ≠ k.toNat := by omega
      simp [hki, List.getElem?_set_ne hne]
  · have hki : k ≠ i := by omega
    simp [hk, hki]

theorem rd_eq_some_bounds {α : Type} {xs : List α} {i : Int} {v : α} (h : rd xs i = some v) :
    0 ≤ i ∧ i < xs.length := by
  unfold rd at h
  split at h
  · rename_i h0
    have := (List.getElem?_eq_some_iff.mp h).1
    omega
  · cases h

theorem rd_isSome_of_bounds {α : Type} (xs : List α) (i : Int) (h0 : 0 ≤ i)
    (h1 : i < xs.length) : ∃ v, rd xs i = some v := by
  have hlt : i.toNat < xs.length := by omega
  exact ⟨xs[i.toNat], by simp [rd, h0, List.getElem?_eq_getElem hlt]⟩

/-! ## `wredrawln` -/

theorem wredrawln_loop_spec (p : Nat) : ∀ (n : Nat) (i : Int) (m m' : Mem),
    wredrawln_loop p n i m = some m' →
    ∃ F L, m' = store m p (((m p).set_firstch F).set_lastch L) ∧
      (∀ k : Int, rd F k = if i ≤ k ∧ k < i + n then some 0 else rd (m p)._firstch k) ∧
      (∀ k : Int, rd L k =
        if i ≤ k ∧ k < i + n then some ((m p)._maxx - 1) else rd (m p)._lastch k) := by
  intro n
  induction n with
  | zero =>
    intro i m m' h
    simp only [wredrawln_loop, Option.some.injEq] at h
    subst h
    have hno : ∀ k : Int, ¬ (i ≤ k ∧ k < i + ((0 : Nat) : Int)) := by
      intro k; push_cast; omega
    refine ⟨(m p)._firstch, (m p)._lastch, (store_self m p).symm, ?_, ?_⟩ <;>
      intro k <;> simp only [hno k, if_false]
  | succ n ih =>
    intro i m m' h
    simp only [wredrawln_loop, Option.bind_eq_bind, Option.bind_eq_some, store_same] at h
    obtain ⟨fc, hfc, lc, hlc, hrec⟩ := h
    obtain ⟨⟨hi0, hi1⟩, rfl⟩ := wr_eq_some.mp hfc
    obtain ⟨⟨_, hi2⟩, rfl⟩ := wr_eq_some.mp hlc
    obtain ⟨F, L, hm, hF, hL⟩ := ih _ _ _ hrec
    simp only [store_same, store_store, WINDOW.set_firstch_fields,
      WINDOW.set_lastch_fields] at hm hF hL hi2
    have hm : m' = store m p (((m p).set_firstch F).set_lastch L) := by
      rw [hm]; congr 1
    refine ⟨F, L, hm, ?_, ?_⟩
    · intro k
      rw [hF k, rd_set _ _ _ _ hi0 hi1]
      by_cases hk : k = i
      · subst hk; simp
      · have e1 : (i + 1 ≤ k ∧ k < i + 1 + (n : Int)) ↔ (i ≤ k ∧ k < i + ((n + 1 : Nat) : Int)) := by
          push_cast; omega
        simp only [hk, if_false, e1]
    · intro k
      rw [hL k, rd_set _ _ _ _ hi0 hi2]
      by_cases hk : k = i
      · subst hk; simp
      · have e1 : (i + 1 ≤ k ∧ k < i + 1 + (n : Int)) ↔ (i ≤ k ∧ k < i + ((n + 1 : Nat) : Int)) := by
          push_cast; omega
        simp only [hk, if_false, e1]

theorem wredrawln_loop_total (p : Nat) : ∀ (n : Nat) (i : Int) (m : Mem),
    (n = 0 ∨ (0 ≤ i ∧ i + n ≤ (m p)._firstch.length ∧ i + n ≤ (m p)._lastch.length)) →
    ∃ m', wredrawln_loop p n i m = some m' := by
  intro n
  induction n with
  | zero => intro i m _; exact ⟨m, rfl⟩
  | succ n ih =>
    intro i m h
    rcases h with h | ⟨h0, h1, h2⟩
    · omega
    · have hf : wr (m p)._firstch i 0 = some ((m p)._firstch.set i.toNat 0) := by
        apply wr_eq_some.mpr; refine ⟨⟨h0, ?_⟩, rfl⟩; push_cast at h1; omega
      have hl : ∀ v, wr (m p)._lastch i v = some ((m p)._lastch.set i.toNat v) := by
        intro v; apply wr_eq_some.mpr; refine ⟨⟨h0, ?_⟩, rfl⟩; push_cast at h2; omega
      simp only [wredrawln_loop, Option.bind_eq_bind, hf, Option.some_bind, store_same, hl,
        WINDOW.set_firstch_fields]
      apply ih
      right
      simp only [store_same, List.length_set, WINDOW.set_firstch_fields,
        WINDOW.set_lastch_fields]
      push_cast at h1 h2
      omega

theorem OK_ne_ERR : OK ≠ ERR := by decide

theorem exists_of_map_fst {σ : Type} {o : Option (Int × σ)} {rc : Int}
    (h : o.map Prod.fst = some rc) : ∃ s', o = some (rc, s') := by
  cases o with
  | none => cases h
  | some r =>
    obtain ⟨a, b⟩ := r
    simp only [Option.map_some', Option.some.injEq] at h
    subst h
    exact ⟨b, rfl⟩

theorem add_int_eq_some {a b e : Int} : add_int a b = some e ↔ isInt (a + b) ∧ e = a + b := by
  unfold add_int
  split
  · rename_i h
    simp only [Option.some.injEq, h, true_and]
    exact eq_comm
  · rename_i h
    simp [h]

theorem add_int_of_isInt {a b : Int} (h : isInt (a + b)) : add_int a b = some (a + b) := by
  unfold add_int
  rw [if_pos h]

theorem add_int_overflow {a b : Int} (h : ¬ isInt (a + b)) : add_int a b = none := by
  unfold add_int
  rw [if_neg h]

theorem wredrawln_some {T : Type} (s : State T) (p : Nat) (start num rc : Int) (s' : State T)
    (h : wredrawln (some p) start num s = some (rc, s')) :
    (rc = ERR ∧ s' = s ∧
      (start > (s.mem p)._maxy ∨ (isInt (start + num) ∧ start + num > (s.mem p)._maxy))) ∨
    (rc = OK ∧ start ≤ (s.mem p)._maxy ∧ isInt (start + num) ∧
      start + num ≤ (s.mem p)._maxy ∧
      ∃ m, wredrawln_loop p (start + num - start).toNat start s.mem = some m ∧
        s' = { s with mem := m }) := by
  unfold wredrawln at h
  simp only at h
  split at h
  · rename_i hc
    simp only [Option.some.injEq, Prod.mk.injEq] at h
    exact Or.inl ⟨h.1.symm, h.2.symm, Or.inl hc⟩
  · rename_i hc
    simp only [Option.bind_eq_bind, Option.bind_eq_some] at h
    obtain ⟨e, he, h⟩ := h
    obtain ⟨hint, rfl⟩ := add_int_eq_some.mp he
    split at h
    · rename_i hc2
      simp only [Option.pure_def, Option.some.injEq, Prod.mk.injEq] at h
      exact Or.inl ⟨h.1.symm, h.2.symm, Or.inr ⟨hint, hc2⟩⟩
    · rename_i hc2
      simp only [Option.bind_eq_bind, Option.bind_eq_some, Option.pure_def, Option.some.injEq,
        Prod.mk.injEq] at h
      obtain ⟨m, hm, h1, h2⟩ := h
      exact Or.inr ⟨h1.symm, by omega, hint, by omega, m, hm, h2.symm⟩

theorem wredrawln_rejects {T : Type} (s : State T) (p : Nat) (start num : Int)
    (h : start > (s.mem p)._maxy ∨ (isInt (start + num) ∧ start + num > (s.mem p)._maxy)) :
    wredrawln (some p) start num s = some (ERR, s) := by
  unfold wredrawln
  simp only
  by_cases hc : start > (s.mem p)._maxy
  · rw [if_pos hc]
  · rw [if_neg hc]
    rcases h with h | ⟨hint, h⟩
    · exact absurd h hc
    · simp only [Option.bind_eq_bind, add_int_of_isInt hint, Option.some_bind]
      rw [if_pos h]
      rfl

theorem wredrawln_overflow {T : Type} (s : State T) (p : Nat) (start num : Int)
    (h1 : start ≤ (s.mem p)._maxy) (h2 : ¬ isInt (start + num)) :
    wredrawln (some p) start num s = none := by
  unfold wredrawln
  simp only
  rw [if_neg (by omega)]
  simp only [Option.bind_eq_bind, add_int_overflow h2, Option.none_bind]

theorem wredrawln_completes {T : Type} (s : State T) (p : Nat) (start num : Int)
    (h1 : start ≤ (s.mem p)._maxy) (hint : isInt (start + num))
    (h2 : start + num ≤ (s.mem p)._maxy)
    (hw : num ≤ 0 ∨ (0 ≤ start ∧ (s.mem p).linesAllocated)) :
    ∃ s', wredrawln (some p) start num s = some (OK, s') := by
  have hloop : ∃ m, wredrawln_loop p (start + num - start).toNat start s.mem = some m := by
    apply wredrawln_loop_total
    rcases hw with hn | ⟨h0, ha1, ha2⟩
    · left; omega
    · right
      refine ⟨h0, ?_, ?_⟩ <;> omega
  obtain ⟨m, hm⟩ := hloop
  refine ⟨{ s with mem := m }, ?_⟩
  unfold wredrawln
  simp only
  rw [if_neg (by omega)]
  simp only [Option.bind_eq_bind, add_int_of_isInt hint, Option.some_bind]
  rw [if_neg (by omega)]
  simp only [Option.bind_eq_bind, hm, Option.some_bind, Option.pure_def]

/-- C10 (as amended): a completed `wredrawln` returns `OK` or `ERR`.  On `ERR`
nothing is changed.  On `OK` (then `start + num` is an `int` not above
`win->_maxy`) the final state is the initial one except for the two line arrays
of the window: every row `i` with `start ≤ i < start + num` has the span
`(0, _maxx - 1)`, every other row keeps its markers; the grid, cursor, origin
and flags of the window, every other window, `SP` and the backend are
untouched, and so is the physical image unless it is the window itself.
`redrawwin(win)` is `wredrawln(win, 0, win->_maxy)`; on a window (a number
`_maxy ≥ 0` of rows that is an `int`, line arrays allocated) it returns `OK`
and marks every row. -/
theorem wredrawln_effect {T : Type} (s : State T) (win : Option Nat) (start num : Int) :
    (∀ rc s', wredrawln win start num s = some (rc, s') →
      (rc = ERR ∧ s' = s) ∨
      (rc = OK ∧ ∃ p F L, win = some p ∧ isInt (start + num) ∧
        start + num ≤ (s.mem p)._maxy ∧
        s' = { s with mem := store s.mem p (((s.mem p).set_firstch F).set_lastch L) } ∧
        (∀ i : Int, start ≤ i → i < start + num →
          rd F i = some 0 ∧ rd L i = some ((s.mem p)._maxx - 1)) ∧
        (∀ i : Int, ¬ (start ≤ i ∧ i < start + num) →
          rd F i = rd (s.mem p)._firstch i ∧ rd L i = rd (s.mem p)._lastch i) ∧
        (∀ c, s.curscr = some c → c ≠ p → s'.mem c = s.mem c))) ∧
    (∀ p, win = some p →
      redrawwin win s = wredrawln win 0 (s.mem p)._maxy s ∧
      (0 ≤ (s.mem p)._maxy → isInt (s.mem p)._maxy → (s.mem p).linesAllocated →
        ∃ F L, redrawwin win s = some (OK,
            { s with mem := store s.mem p (((s.mem p).set_firstch F).set_lastch L) }) ∧
          ∀ i : Int, 0 ≤ i → i < (s.mem p)._maxy →
            rd F i = some 0 ∧ rd L i = some ((s.mem p)._maxx - 1))) := by
  have key : ∀ (p : Nat) (start num rc : Int) (s' : State T),
      wredrawln (some p) start num s = some (rc, s') →
      (rc = ERR ∧ s' = s) ∨
      (rc = OK ∧ ∃ F L, isInt (start + num) ∧ start + num ≤ (s.mem p)._maxy ∧
        s' = { s with mem := store s.mem p (((s.mem p).set_firstch F).set_lastch L) } ∧
        (∀ i : Int, start ≤ i → i < start + num →
          rd F i = some 0 ∧ rd L i = some ((s.mem p)._maxx - 1)) ∧
        (∀ i : Int, ¬ (start ≤ i ∧ i < start + num) →
          rd F i = rd (s.mem p)._firstch i ∧ rd L i = rd (s.mem p)._lastch i)) := by
    intro p start num rc s' h
    rcases wredrawln_some s p start num rc s' h with ⟨hr, hs, _⟩ | ⟨hr, _, hint, hle, m, hm, hs⟩
    · exact Or.inl ⟨hr, hs⟩
    · obtain ⟨F, L, hmF, hF, hL⟩ := wredrawln_loop_spec p _ _ _ _ hm
      refine Or.inr ⟨hr, F, L, hint, hle, by rw [hs, hmF], ?_, ?_⟩
      · intro i h1 h2
        have hin : start ≤ i ∧ i < start + ((start + num - start).toNat : Int) := by omega
        exact ⟨by rw [hF i, if_pos hin], by rw [hL i, if_pos hin]⟩
      · intro i hout
        have hnin : ¬ (start ≤ i ∧ i < start + ((start + num - start).toNat : Int)) := by omega
        exact ⟨by rw [hF i, if_neg hnin], by rw [hL i, if_neg hnin]⟩
  refine ⟨?_, ?_⟩
  · intro rc s' h
    cases win with
    | none =>
      simp only [wredrawln, Option.some.injEq, Prod.mk.injEq] at h
      exact Or.inl ⟨h.1.symm, h.2.symm⟩
    | some p =>
      rcases key p start num rc s' h with h1 | ⟨hr, F, L, hint, hle, hs, hin, hout⟩
      · exact Or.inl h1
      · refine Or.inr ⟨hr, p, F, L, rfl, hint, hle, hs, hin, hout, ?_⟩
        intro c _ hne
        rw [hs]
        exact store_ne _ _ _ _ hne
  · rintro p rfl
    refine ⟨rfl, ?_⟩
    intro h0 hint hal
    obtain ⟨s', hs'⟩ := wredrawln_completes s p 0 (s.mem p)._maxy h0 (by simpa using hint)
      (by omega) (Or.inr ⟨le_refl _, hal⟩)
    rcases key p 0 (s.mem p)._maxy OK s' hs' with ⟨hbad, _⟩ | ⟨_, F, L, _, _, hs, hin, _⟩
    · exact absurd hbad OK_ne_ERR
    · refine ⟨F, L, ?_, ?_⟩
      · show wredrawln (some p) 0 (s.mem p)._maxy s = _
        rw [hs', hs]
      · intro i hi0 hi1
        exact hin i hi0 (by omega)

/-- Instance of `wredrawln_effect`: marking rows `1, 2` of the 5 by 10 window of
the examples gives them the span `(0, 9)` and leaves row 0 with its span `(1, 4)`. -/
theorem wredrawln_effect_witness :
    ∃ s', wredrawln (some 1) 1 2 demoState = some (OK, s') ∧
      ((OK = ERR ∧ s' = demoState) ∨
      (OK = OK ∧ ∃ p F L, some 1 = some p ∧ isInt (1 + 2) ∧
        (1 : Int) + 2 ≤ (demoState.mem p)._maxy ∧
        s' = { demoState with
          mem := store demoState.mem p (((demoState.mem p).set_firstch F).set_lastch L) } ∧
        (∀ i : Int, 1 ≤ i → i < 1 + 2 →
          rd F i = some 0 ∧ rd L i = some ((demoState.mem p)._maxx - 1)) ∧
        (∀ i : Int, ¬ (1 ≤ i ∧ i < 1 + 2) →
          rd F i = rd (demoState.mem p)._firstch i ∧ rd L i = rd (demoState.mem p)._lastch i) ∧
        (∀ c, demoState.curscr = some c → c ≠ p → s'.mem c = demoState.mem c))) := by
  obtain ⟨s', hs⟩ := exists_of_map_fst
    (by decide : (wredrawln (some 1) 1 2 demoState).map Prod.fst = some OK)
  exact ⟨s', hs, (wredrawln_effect demoState (some 1) 1 2).1 OK s' hs⟩

/-- C10 (as stated) fails when the window is the physical image: on the clean
24 by 80 image `curscr` (address 0), `wredrawln(curscr, 0, 1)` returns `OK` and
changes the damage of physical row 0 from `(-1, -1)` to `(0, 79)`. -/
theorem wredrawln_curscr_changed :
    demoState.curscr = some 0 ∧
    rd (demoState.mem 0)._firstch 0 = some (-1) ∧
    rd (demoState.mem 0)._lastch 0 = some (-1) ∧
    (wredrawln (some 0) 0 1 demoState).map
      (fun r => (r.1, rd (r.2.mem 0)._firstch 0, rd (r.2.mem 0)._lastch 0)) =
      some (OK, some 0, some 79) := by
  refine ⟨rfl, ?_, ?_, ?_⟩ <;> decide

/-! ## `wnoutrefresh`: one row -/

theorem rd_ext {α : Type} (xs ys : List α) (h : ∀ k : Int, rd xs k = rd ys k) : xs = ys := by
  apply List.ext_getElem?
  intro n
  have := h (n : Int)
  simpa [rd] using this

theorem wr_bounds {α : Type} {xs : List α} {i : Int} {v : α} (h0 : 0 ≤ i)
    (h1 : i < xs.length) : wr xs i v = some (xs.set i.toNat v) := by
  apply wr_eq_some.mpr
  refine ⟨⟨h0, ?_⟩, rfl⟩
  omega

theorem wnoutrefresh_changed_eq_some (win : Nat) (cur : Option Nat) (begx i j : Int)
    (m m' : Mem) :
    wnoutrefresh_changed win cur begx i j m = some m' ↔
    ∃ c f l dst src row cf cl, cur = some c ∧
      rd (m win)._firstch i = some f ∧ rd (m win)._lastch i = some l ∧
      rd (m c)._y j = some dst ∧ rd (m win)._y i = some src ∧
      memcpy dst (begx + f) src f (l - f + 1) = some row ∧
      rd (m c)._firstch j = some cf ∧ rd (m c)._lastch j = some cl ∧
      (0 ≤ i ∧ i.toNat <
        (store m c (mergedImage (m c) j row (f + begx) (l + begx) cf cl) win)._firstch.length) ∧
      m' = store (store m c (mergedImage (m c) j row (f + begx) (l + begx) cf cl)) win
        ((store m c (mergedImage (m c) j row (f + begx) (l + begx) cf cl) win).set_firstch
          ((store m c (mergedImage (m c) j row (f + begx) (l + begx) cf cl) win)._firstch.set
            i.toNat _NO_CHANGE)) := by
  simp only [wnoutrefresh_changed, Option.bind_eq_bind, Option.bind_eq_some, Option.pure_def,
    Option.some.injEq, wr_eq_some, store_same, store_store, WINDOW.set_y_fields,
    WINDOW.set_firstch_fields, WINDOW.set_lastch_fields, mergedImage]
  constructor
  · rintro ⟨f, hf, l, hl, c, hc, dst, hdst, src, hsrc, row, hrow, y, ⟨_, rfl⟩, cf, hcf, fc,
      ⟨_, rfl⟩, cl, hcl, lc, ⟨_, rfl⟩, wf, ⟨hb, rfl⟩, rfl⟩
    exact ⟨c, f, l, dst, src, row, cf, cl, hc, hf, hl, hdst, hsrc, hrow, hcf, hcl, hb, rfl⟩
  · rintro ⟨c, f, l, dst, src, row, cf, cl, hc, hf, hl, hdst, hsrc, hrow, hcf, hcl, hb, rfl⟩
    have b1 := rd_eq_some_bounds hdst
    have b2 := rd_eq_some_bounds hcf
    have b3 := rd_eq_some_bounds hcl
    exact ⟨f, hf, l, hl, c, hc, dst, hdst, src, hsrc, row, hrow, _, ⟨⟨b1.1, by omega⟩, rfl⟩,
      cf, hcf, _, ⟨⟨b2.1, by omega⟩, rfl⟩, cl, hcl, _, ⟨⟨b3.1, by omega⟩, rfl⟩, _, ⟨hb, rfl⟩,
      rfl⟩

theorem wnoutrefresh_row_eq_some (win : Nat) (cur : Option Nat) (begx i j : Int)
    (m m' : Mem) :
    wnoutrefresh_row win cur begx i j m = some m' ↔
    ∃ f m1, rd (m win)._firstch i = some f ∧
      (if f ≠ _NO_CHANGE then wnoutrefresh_changed win cur begx i j m = some m1 else m1 = m) ∧
      (0 ≤ i ∧ i.toNat < (m1 win)._lastch.length) ∧
      m' = store m1 win ((m1 win).set_lastch ((m1 win)._lastch.set i.toNat _NO_CHANGE)) := by
  simp only [wnoutrefresh_row, Option.bind_eq_bind, Option.bind_eq_some, Option.pure_def,
    Option.some.injEq, wr_eq_some]
  constructor
  · rintro ⟨f, hf, h⟩
    split at h
    · rename_i hne
      simp only [Option.bind_eq_some, Option.some.injEq, wr_eq_some] at h
      obtain ⟨m1, hm1, wl, ⟨hb, rfl⟩, rfl⟩ := h
      exact ⟨f, m1, hf, by rw [if_pos hne]; exact hm1, hb, rfl⟩
    · rename_i hne
      simp only [Option.some_bind, Option.bind_eq_some, Option.some.injEq, wr_eq_some] at h
      obtain ⟨wl, ⟨hb, rfl⟩, rfl⟩ := h
      exact ⟨f, m, hf, by rw [if_neg hne], hb, rfl⟩
  · rintro ⟨f, m1, hf, hm1, hb, rfl⟩
    refine ⟨f, hf, ?_⟩
    split
    · rename_i hne
      rw [if_pos hne] at hm1
      simp only [hm1, Option.some_bind, Option.bind_eq_some, Option.some.injEq, wr_eq_some]
      exact ⟨_, ⟨hb, rfl⟩, rfl⟩
    · rename_i hne
      rw [if_neg hne] at hm1
      subst hm1
      simp only [Option.some_bind, Option.bind_eq_some, Option.some.injEq, wr_eq_some]
      exact ⟨_, ⟨hb, rfl⟩, rfl⟩

theorem rd_set_of_rd {α : Type} {xs : List α} {i : Int} {a : α} (h : rd xs i = some a)
    (v : α) (k : Int) : rd (xs.set i.toNat v) k = if k = i then some v else rd xs k := by
  have hb := rd_eq_some_bounds h
  exact rd_set xs i k v hb.1 (by omega)

theorem rd_of_toNat_lt {α : Type} {xs : List α} {i : Int} (h0 : 0 ≤ i)
    (h1 : i.toNat < xs.length) : ∃ a, rd xs i = some a :=
  rd_isSome_of_bounds xs i h0 (by omega)

theorem wnoutrefresh_row_merged (win c : Nat) (hne : win ≠ c) (begx i j : Int) (m m' : Mem)
    (h : wnoutrefresh_row win (some c) begx i j m = some m') :
    RowsMerged begx i j 1 (m win) (m c) (m' win) (m' c) ∧
    ∀ q, q ≠ win → q ≠ c → m' q = m q := by
  obtain ⟨f, m1, hf, hm1, hb, rfl⟩ := (wnoutrefresh_row_eq_some _ _ _ _ _ _ _).mp h
  have hcw : c ≠ win := fun e => hne e.symm
  have range1 : ∀ k : Int, (i ≤ k ∧ k < i + ((1 : Nat) : Int)) ↔ k = i := by
    intro k; push_cast; omega
  by_cases hfn : f = _NO_CHANGE
  · rw [if_neg (by simpa using hfn)] at hm1
    subst hm1
    subst hfn
    obtain ⟨a, ha⟩ := rd_of_toNat_lt hb.1 hb.2
    refine ⟨⟨?_, ?_, ?_, ?_, ?_, ?_, ?_⟩, ?_⟩
    · simp [store_same, WINDOW.scalars]
    · simp [store_same]
    · simp [store_ne _ _ _ _ hcw]
    · intro k
      simp only [store_same, WINDOW.set_lastch_fields, range1]
      by_cases hk : k = i
      · subst hk; simp [hf]
      · simp [hk]
    · intro k
      simp only [store_same, WINDOW.set_lastch_fields, range1]
      rw [rd_set_of_rd ha]
    · intro k hk1 hk2
      have hk : k = i := (range1 k).mp ⟨hk1, hk2⟩
      subst hk
      left
      simp [store_ne _ _ _ _ hcw, hf]
    · intro r _
      simp [store_ne _ _ _ _ hcw]
    · intro q hq1 _
      simp [store_ne _ _ _ _ hq1]
  · rw [if_pos hfn] at hm1
    obtain ⟨c', f', l, dst, src, row, cf, cl, hc, hf', hl, hdst, hsrc, hrow, hcf, hcl, hb', rfl⟩ :=
      (wnoutrefresh_changed_eq_some _ _ _ _ _ _ _).mp hm1
    simp only [Option.some.injEq] at hc
    subst hc
    rw [hf] at hf'
    simp only [Option.some.injEq] at hf'
    subst hf'
    simp only [store_same, store_ne _ _ _ _ hne, store_store, WINDOW.set_firstch_fields] at hb hb' ⊢
    obtain ⟨a, ha⟩ := rd_of_toNat_lt hb.1 hb.2
    refine ⟨⟨?_, ?_, ?_, ?_, ?_, ?_, ?_⟩, ?_⟩
    · simp [WINDOW.scalars]
    · simp
    · simp [store_ne _ _ _ _ hcw, store_same, mergedImage, WINDOW.scalars]
    · intro k
      simp only [WINDOW.set_lastch_fields, WINDOW.set_firstch_fields, range1]
      rw [rd_set_of_rd hf]
    · intro k
      simp only [WINDOW.set_lastch_fields, WINDOW.set_firstch_fields, range1]
      rw [rd_set_of_rd ha]
    · intro k hk1 hk2
      have hk : k = i := (range1 k).mp ⟨hk1, hk2⟩
      subst hk
      right
      have hj : j + (k - k) = j := by omega
      rw [hj]
      refine ⟨f, l, dst, src, row, cf, cl, hfn, hf, hl, hdst, hsrc, hrow, hcf, hcl, ?_, ?_, ?_⟩
      · simp [store_ne _ _ _ _ hcw, store_same, mergedImage, rd_set_of_rd hdst]
      · simp [store_ne _ _ _ _ hcw, store_same, mergedImage, rd_set_of_rd hcf]
      · simp [store_ne _ _ _ _ hcw, store_same, mergedImage, rd_set_of_rd hcl]
    · intro r hr
      have hrj : r ≠ j := by
        intro e; apply hr; subst e; push_cast; omega
      simp [store_ne _ _ _ _ hcw, store_same, mergedImage, rd_set_of_rd hdst,
        rd_set_of_rd hcf, rd_set_of_rd hcl, hrj]
    · intro q hq1 hq2
      simp [store_ne _ _ _ _ hq1, store_ne _ _ _ _ hq2]

/-! ## `wnoutrefresh`: the loop, for a window other than `curscr` -/

theorem RowsMerged_zero (begx i j : Int) (w c : WINDOW) : RowsMerged begx i j 0 w c w c := by
  have hno : ∀ k : Int, ¬ (i ≤ k ∧ k < i + ((0 : Nat) : Int)) := by
    intro k; push_cast; omega
  refine ⟨rfl, rfl, rfl, ?_, ?_, ?_, ?_⟩
  · intro k; rw [if_neg (hno k)]
  · intro k; rw [if_neg (hno k)]
  · intro k h1 h2; exact absurd ⟨h1, h2⟩ (hno k)
  · intro r _; exact ⟨rfl, rfl, rfl⟩

theorem RowMerged_congr {begx k r r' : Int} {w c C w' c' C' : WINDOW}
    (h : RowMerged begx k r w c C) (hr : r' = r)
    (hwf : rd w'._firstch k = rd w._firstch k) (hwl : rd w'._lastch k = rd w._lastch k)
    (hwy : w'._y = w._y)
    (hcy : rd c'._y r = rd c._y r) (hcf : rd c'._firstch r = rd c._firstch r)
    (hcl : rd c'._lastch r = rd c._lastch r)
    (hCy : rd C'._y r = rd C._y r) (hCf : rd C'._firstch r = rd C._firstch r)
    (hCl : rd C'._lastch r = rd C._lastch r) :
    RowMerged begx k r' w' c' C' := by
  subst hr
  unfold RowMerged at h ⊢
  rw [hwf, hwl, hwy, hcy, hcf, hcl, hCy, hCf, hCl]
  exact h

theorem RowsMerged_trans {begx i j : Int} {n : Nat} {w c W1 C1 W C : WINDOW}
    (A : RowsMerged begx i j 1 w c W1 C1) (B : RowsMerged begx (i + 1) (j + 1) n W1 C1 W C) :
    RowsMerged begx i j (n + 1) w c W C := by
  obtain ⟨a1, a2, a3, a4, a5, a6, a7⟩ := A
  obtain ⟨b1, b2, b3, b4, b5, b6, b7⟩ := B
  refine ⟨b1.trans a1, b2.trans a2, b3.trans a3, ?_, ?_, ?_, ?_⟩
  · intro k
    rw [b4 k, a4 k]
    by_cases h1 : i + 1 ≤ k ∧ k < i + 1 + (n : Int)
    · have h2 : i ≤ k ∧ k < i + ((n + 1 : Nat) : Int) := by push_cast; omega
      rw [if_pos h1, if_pos h2]
    · rw [if_neg h1]
      by_cases h3 : i ≤ k ∧ k < i + ((1 : Nat) : Int)
      · have h2 : i ≤ k ∧ k < i + ((n + 1 : Nat) : Int) := by push_cast; push_cast at h3; omega
        rw [if_pos h3, if_pos h2]
      · have h2 : ¬ (i ≤ k ∧ k < i + ((n + 1 : Nat) : Int)) := by
          push_cast; push_cast at h3; omega
        rw [if_neg h3, if_neg h2]
  · intro k
    rw [b5 k, a5 k]
    by_cases h1 : i + 1 ≤ k ∧ k < i + 1 + (n : Int)
    · have h2 : i ≤ k ∧ k < i + ((n + 1 : Nat) : Int) := by push_cast; omega
      rw [if_pos h1, if_pos h2]
    · rw [if_neg h1]
      by_cases h3 : i ≤ k ∧ k < i + ((1 : Nat) : Int)
      · have h2 : i ≤ k ∧ k < i + ((n + 1 : Nat) : Int) := by push_cast; push_cast at h3; omega
        rw [if_pos h3, if_pos h2]
      · have h2 : ¬ (i ≤ k ∧ k < i + ((n + 1 : Nat) : Int)) := by
          push_cast; push_cast at h3; omega
        rw [if_neg h3, if_neg h2]
  · intro k hk1 hk2
    by_cases hk : k = i
    · subst hk
      have hfr : ¬ (j + 1 ≤ j + (k - k) ∧ j + (k - k) < j + 1 + (n : Int)) := by omega
      obtain ⟨f1, f2, f3⟩ := b7 _ hfr
      exact RowMerged_congr (a6 k (le_refl _) (by push_cast; omega)) rfl rfl rfl rfl rfl rfl rfl
        f1 f2 f3
    · have hk3 : i + 1 ≤ k := by omega
      have hk4 : k < i + 1 + (n : Int) := by push_cast at hk2; omega
      have hno : ¬ (i ≤ k ∧ k < i + ((1 : Nat) : Int)) := by push_cast; omega
      have hfr : ¬ (j ≤ j + 1 + (k - (i + 1)) ∧ j + 1 + (k - (i + 1)) < j + ((1 : Nat) : Int)) := by
        push_cast; omega
      obtain ⟨g1, g2, g3⟩ := a7 _ hfr
      have e4 := a4 k
      have e5 := a5 k
      rw [if_neg hno] at e4 e5
      exact RowMerged_congr (b6 k hk3 hk4) (by omega) e4.symm e5.symm a2.symm g1.symm g2.symm
        g3.symm rfl rfl rfl
  · intro r hr
    have h1 : ¬ (j + 1 ≤ r ∧ r < j + 1 + (n : Int)) := by push_cast at hr; omega
    have h2 : ¬ (j ≤ r ∧ r < j + ((1 : Nat) : Int)) := by push_cast at hr ⊢; omega
    obtain ⟨f1, f2, f3⟩ := b7 r h1
    obtain ⟨g1, g2, g3⟩ := a7 r h2
    exact ⟨f1.trans g1, f2.trans g2, f3.trans g3⟩

theorem wnoutrefresh_loop_merged (win c : Nat) (hne : win ≠ c) (begx : Int) :
    ∀ (n : Nat) (i j : Int) (m m' : Mem),
    wnoutrefresh_loop win (some c) begx n i j m = some m' →
    RowsMerged begx i j n (m win) (m c) (m' win) (m' c) ∧
    ∀ q, q ≠ win → q ≠ c → m' q = m q := by
  intro n
  induction n with
  | zero =>
    intro i j m m' h
    simp only [wnoutrefresh_loop, Option.some.injEq] at h
    subst h
    exact ⟨RowsMerged_zero _ _ _ _ _, fun _ _ _ => rfl⟩
  | succ n ih =>
    intro i j m m' h
    simp only [wnoutrefresh_loop, Option.bind_eq_bind, Option.bind_eq_some] at h
    obtain ⟨m1, h1, h2⟩ := h
    obtain ⟨A, fA⟩ := wnoutrefresh_row_merged win c hne begx i j m m1 h1
    obtain ⟨B, fB⟩ := ih _ _ _ _ h2
    refine ⟨RowsMerged_trans A B, ?_⟩
    intro q hq1 hq2
    rw [fB q hq1 hq2, fA q hq1 hq2]

/-! ## `memcpy` -/

theorem memcpy_rd {dst src row : List chtype} {d s n : Int}
    (h : memcpy dst d src s n = some row) (k : Int) :
    rd row k = if d ≤ k ∧ k < d + n then rd src (s + (k - d)) else rd dst k := by
  unfold memcpy at h
  split at h
  · rename_i hb
    obtain ⟨hn, hd, hdn, hs, hsn⟩ := hb
    simp only [Option.some.injEq] at h
    subst h
    unfold rd
    by_cases hk : 0 ≤ k
    · simp only [hk, if_true]
      have hlt : (List.take d.toNat dst).length = d.toNat := by
        rw [List.length_take]; omega
      by_cases h1 : k < d
      · have : ¬ (d ≤ k ∧ k < d + n) := by omega
        rw [if_neg this]
        rw [List.getElem?_append_left (by omega)]
        rw [List.getElem?_take_of_lt (by omega)]
      · rw [List.getElem?_append_right (by omega), hlt]
        have hlt2 : (List.take n.toNat (List.drop s.toNat src)).length = n.toNat := by
          rw [List.length_take, List.length_drop]; omega
        by_cases h2 : k < d + n
        · have : d ≤ k ∧ k < d + n := by omega
          rw [if_pos this]
          have hs0 : 0 ≤ s + (k - d) := by omega
          rw [if_pos hs0]
          rw [List.getElem?_append_left (by omega)]
          rw [List.getElem?_take_of_lt (by omega), List.getElem?_drop]
          congr 1
          omega
        · have : ¬ (d ≤ k ∧ k < d + n) := by omega
          rw [if_neg this]
          rw [List.getElem?_append_right (by omega), hlt2, List.getElem?_drop]
          congr 1
          omega
    · have : ¬ (d ≤ k ∧ k < d + n) := by omega
      simp [hk, this]
  · cases h

theorem memcpy_self {dst row : List chtype} {d n : Int}
    (h : memcpy dst d dst d n = some row) : row = dst := by
  apply rd_ext
  intro k
  rw [memcpy_rd h k]
  split
  · congr 1; omega
  · rfl

theorem set_of_rd {α : Type} {xs : List α} {i : Int} {a : α} (h : rd xs i = some a) :
    xs.set i.toNat a = xs := by
  apply rd_ext
  intro k
  rw [rd_set_of_rd h]
  split
  · rename_i hk; subst hk; exact h.symm
  · rfl

/-! ## `wnoutrefresh`: facts that also hold when the window is `curscr` -/

theorem store_apply (m : Mem) (p q : Nat) (w : WINDOW) :
    store m p w q = if q = p then w else m q := by
  simp [store, Function.update_apply]

theorem wnoutrefresh_row_scalars (win : Nat) (cur : Option Nat) (begx i j : Int) (m m' : Mem)
    (h : wnoutrefresh_row win cur begx i j m = some m') (q : Nat) :
    (m' q).scalars = (m q).scalars := by
  obtain ⟨f, m1, hf, hm1, hb, rfl⟩ := (wnoutrefresh_row_eq_some _ _ _ _ _ _ _).mp h
  have h1 : (m1 q).scalars = (m q).scalars := by
    by_cases hfn : f = _NO_CHANGE
    · rw [if_neg (by simpa using hfn)] at hm1
      rw [hm1]
    · rw [if_pos hfn] at hm1
      obtain ⟨c, f', l, dst, src, row, cf, cl, hc, hf', hl, hdst, hsrc, hrow, hcf, hcl, hb', rfl⟩ :=
        (wnoutrefresh_changed_eq_some _ _ _ _ _ _ _).mp hm1
      simp only [store_apply]
      split_ifs <;> simp_all [WINDOW.scalars, mergedImage]
  rw [← h1]
  simp only [store_apply]
  split_ifs <;> simp_all [WINDOW.scalars]

theorem wnoutrefresh_loop_scalars (win : Nat) (cur : Option Nat) (begx : Int) :
    ∀ (n : Nat) (i j : Int) (m m' : Mem),
    wnoutrefresh_loop win cur begx n i j m = some m' →
    ∀ q, (m' q).scalars = (m q).scalars := by
  intro n
  induction n with
  | zero =>
    intro i j m m' h q
    simp only [wnoutrefresh_loop, Option.some.injEq] at h
    rw [h]
  | succ n ih =>
    intro i j m m' h q
    simp only [wnoutrefresh_loop, Option.bind_eq_bind, Option.bind_eq_some] at h
    obtain ⟨m1, h1, h2⟩ := h
    rw [ih _ _ _ _ h2 q, wnoutrefresh_row_scalars _ _ _ _ _ _ _ h1 q]

theorem wnoutrefresh_row_markers (win : Nat) (cur : Option Nat) (begx i j : Int) (m m' : Mem)
    (halias : cur = some win → i ≤ j)
    (h : wnoutrefresh_row win cur begx i j m = some m') :
    rd (m' win)._firstch i = some _NO_CHANGE ∧ rd (m' win)._lastch i = some _NO_CHANGE ∧
    ∀ k : Int, k < i → rd (m' win)._firstch k = rd (m win)._firstch k ∧
      rd (m' win)._lastch k = rd (m win)._lastch k := by
  obtain ⟨f, m1, hf, hm1, hb, rfl⟩ := (wnoutrefresh_row_eq_some _ _ _ _ _ _ _).mp h
  obtain ⟨a, ha⟩ := rd_of_toNat_lt hb.1 hb.2
  have key : rd (m1 win)._firstch i = some _NO_CHANGE ∧
      ∀ k : Int, k < i → rd (m1 win)._firstch k = rd (m win)._firstch k ∧
        rd (m1 win)._lastch k = rd (m win)._lastch k := by
    by_cases hfn : f = _NO_CHANGE
    · rw [if_neg (by simpa using hfn)] at hm1
      subst hm1
      subst hfn
      exact ⟨hf, fun _ _ => ⟨rfl, rfl⟩⟩
    · rw [if_pos hfn] at hm1
      obtain ⟨c, f', l, dst, src, row, cf, cl, hc, hf', hl, hdst, hsrc, hrow, hcf, hcl, hb', rfl⟩ :=
        (wnoutrefresh_changed_eq_some _ _ _ _ _ _ _).mp hm1
      obtain ⟨b, hb2⟩ := rd_of_toNat_lt hb'.1 hb'.2
      simp only [store_same, WINDOW.set_firstch_fields]
      refine ⟨by rw [rd_set_of_rd hb2]; simp, ?_⟩
      intro k hk
      have hki : k ≠ i := by omega
      rw [rd_set_of_rd hb2, if_neg hki]
      by_cases hcw : win = c
      · subst hcw
        have hij : i ≤ j := halias hc
        have hkj : k ≠ j := by omega
        simp [store_same, mergedImage, rd_set_of_rd hcf, rd_set_of_rd hcl, hkj]
      · simp [store_ne _ _ _ _ hcw]
  simp only [store_same, WINDOW.set_lastch_fields]
  refine ⟨key.1, by rw [rd_set_of_rd ha]; simp, ?_⟩
  intro k hk
  have hki : k ≠ i := by omega
  rw [rd_set_of_rd ha, if_neg hki]
  exact key.2 k hk

theorem wnoutrefresh_row_others (win : Nat) (cur : Option Nat) (begx i j : Int) (m m' : Mem)
    (h : wnoutrefresh_row win cur begx i j m = some m') (k : Int) (hk : k ≠ i)
    (halias : cur = some win → k ≠ j) :
    rd (m' win)._firstch k = rd (m win)._firstch k ∧
    rd (m' win)._lastch k = rd (m win)._lastch k := by
  obtain ⟨f, m1, hf, hm1, hb, rfl⟩ := (wnoutrefresh_row_eq_some _ _ _ _ _ _ _).mp h
  obtain ⟨a, ha⟩ := rd_of_toNat_lt hb.1 hb.2
  have key : rd (m1 win)._firstch k = rd (m win)._firstch k ∧
      rd (m1 win)._lastch k = rd (m win)._lastch k := by
    by_cases hfn : f = _NO_CHANGE
    · rw [if_neg (by simpa using hfn)] at hm1
      subst hm1
      exact ⟨rfl, rfl⟩
    · rw [if_pos hfn] at hm1
      obtain ⟨c, f', l, dst, src, row, cf, cl, hc, hf', hl, hdst, hsrc, hrow, hcf, hcl, hb', rfl⟩ :=
        (wnoutrefresh_changed_eq_some _ _ _ _ _ _ _).mp hm1
      obtain ⟨b, hb2⟩ := rd_of_toNat_lt hb'.1 hb'.2
      simp only [store_same, WINDOW.set_firstch_fields]
      rw [rd_set_of_rd hb2, if_neg hk]
      by_cases hcw : win = c
      · subst hcw
        have hkj : k ≠ j := halias hc
        simp [store_same, mergedImage, rd_set_of_rd hcf, rd_set_of_rd hcl, hkj]
      · simp [store_ne _ _ _ _ hcw]
  simp only [store_same, WINDOW.set_lastch_fields]
  rw [rd_set_of_rd ha, if_neg hk]
  exact key

theorem wnoutrefresh_loop_markers (win : Nat) (cur : Option Nat) (begx : Int) :
    ∀ (n : Nat) (i j : Int) (m m' : Mem), (cur = some win → i ≤ j) →
    wnoutrefresh_loop win cur begx n i j m = some m' →
    (∀ k : Int, i ≤ k → k < i + n →
      rd (m' win)._firstch k = some _NO_CHANGE ∧ rd (m' win)._lastch k = some _NO_CHANGE) ∧
    (∀ k : Int, k < i → rd (m' win)._firstch k = rd (m win)._firstch k ∧
      rd (m' win)._lastch k = rd (m win)._lastch k) := by
  intro n
  induction n with
  | zero =>
    intro i j m m' _ h
    simp only [wnoutrefresh_loop, Option.some.injEq] at h
    subst h
    refine ⟨?_, fun _ _ => ⟨rfl, rfl⟩⟩
    intro k h1 h2
    push_cast at h2
    omega
  | succ n ih =>
    intro i j m m' halias h
    simp only [wnoutrefresh_loop, Option.bind_eq_bind, Option.bind_eq_some] at h
    obtain ⟨m1, h1, h2⟩ := h
    obtain ⟨r1, r2, r3⟩ := wnoutrefresh_row_markers _ _ _ _ _ _ _ halias h1
    obtain ⟨l1, l2⟩ := ih (i + 1) (j + 1) _ _ (fun e => by have := halias e; omega) h2
    refine ⟨?_, ?_⟩
    · intro k hk1 hk2
      by_cases hk : k = i
      · subst hk
        obtain ⟨e1, e2⟩ := l2 k (by omega)
        rw [e1, e2]
        exact ⟨r1, r2⟩
      · exact l1 k (by omega) (by push_cast at hk2; omega)
    · intro k hk
      obtain ⟨e1, e2⟩ := l2 k (by omega)
      obtain ⟨e3, e4⟩ := r3 k hk
      exact ⟨e1.trans e3, e2.trans e4⟩

theorem wnoutrefresh_row_self_grid (win : Nat) (i : Int) (m m' : Mem)
    (h : wnoutrefresh_row win (some win) 0 i i m = some m') :
    (m' win)._y = (m win)._y := by
  obtain ⟨f, m1, hf, hm1, hb, rfl⟩ := (wnoutrefresh_row_eq_some _ _ _ _ _ _ _).mp h
  have h1 : (m1 win)._y = (m win)._y := by
    by_cases hfn : f = _NO_CHANGE
    · rw [if_neg (by simpa using hfn)] at hm1
      rw [hm1]
    · rw [if_pos hfn] at hm1
      obtain ⟨c, f', l, dst, src, row, cf, cl, hc, hf', hl, hdst, hsrc, hrow, hcf, hcl, hb', rfl⟩ :=
        (wnoutrefresh_changed_eq_some _ _ _ _ _ _ _).mp hm1
      simp only [Option.some.injEq] at hc
      subst hc
      rw [hdst] at hsrc
      simp only [Option.some.injEq] at hsrc
      subst hsrc
      have e0 : (0 : Int) + f' = f' := by omega
      rw [e0] at hrow
      have hrow' := memcpy_self hrow
      subst hrow'
      simp [store_same, mergedImage, set_of_rd hdst]
  rw [← h1]
  simp [store_same]

theorem wnoutrefresh_loop_self_grid (win : Nat) :
    ∀ (n : Nat) (i : Int) (m m' : Mem),
    wnoutrefresh_loop win (some win) 0 n i i m = some m' → (m' win)._y = (m win)._y := by
  intro n
  induction n with
  | zero =>
    intro i m m' h
    simp only [wnoutrefresh_loop, Option.some.injEq] at h
    rw [h]
  | succ n ih =>
    intro i m m' h
    simp only [wnoutrefresh_loop, Option.bind_eq_bind, Option.bind_eq_some] at h
    obtain ⟨m1, h1, h2⟩ := h
    rw [ih _ _ _ h2, wnoutrefresh_row_self_grid _ _ _ _ h1]

/-! ## `wnoutrefresh`: the clear flag, the cursor and the whole routine -/

theorem wnoutrefresh_tail_eq_some (p : Nat) (cur : Option Nat) (begy begx : Int) (m m' : Mem) :
    wnoutrefresh_tail p cur begy begx m = some m' ↔
    ∃ m1, m1 = (if (m p)._clear then store m p ((m p).set_clear false) else m) ∧
      ((m1 p)._leaveit = true ∧ m' = m1 ∨
       (m1 p)._leaveit = false ∧ ∃ c, cur = some c ∧
         m' = store m1 c (((m1 c).set_cury ((m1 p)._cury + begy)).set_curx
            ((store m1 c ((m1 c).set_cury ((m1 p)._cury + begy)) p)._curx + begx))) := by
  unfold wnoutrefresh_tail
  simp only [Option.bind_eq_bind, Option.pure_def]
  generalize (if (m p)._clear = true then store m p ((m p).set_clear false) else m) = m1
  simp only [exists_eq_left]
  cases hl : (m1 p)._leaveit
  · simp only [Bool.not_false, if_true, Option.bind_eq_some, Option.some.injEq, false_and,
      Bool.false_eq_true, false_or, true_and, store_same, store_store]
    constructor
    · rintro ⟨c, hc, rfl⟩; exact ⟨c, hc, rfl⟩
    · rintro ⟨c, hc, rfl⟩; exact ⟨c, hc, rfl⟩
  · simp only [Bool.not_true, Bool.false_eq_true, if_false, Option.some.injEq, true_and,
      false_and, or_false]
    constructor
    · intro h; exact Or.inl h.symm
    · rintro (h | ⟨h, _⟩)
      · exact h.symm
      · cases h

theorem wnoutrefresh_tail_arrays (p : Nat) (cur : Option Nat) (begy begx : Int) (m m' : Mem)
    (h : wnoutrefresh_tail p cur begy begx m = some m') (q : Nat) :
    (m' q)._y = (m q)._y ∧ (m' q)._firstch = (m q)._firstch ∧ (m' q)._lastch = (m q)._lastch := by
  obtain ⟨m1, hm1, h⟩ := (wnoutrefresh_tail_eq_some _ _ _ _ _ _).mp h
  have h1 : (m1 q)._y = (m q)._y ∧ (m1 q)._firstch = (m q)._firstch ∧
      (m1 q)._lastch = (m q)._lastch := by
    rw [hm1]
    split
    · simp only [store_apply]
      split_ifs <;> simp_all
    · exact ⟨rfl, rfl, rfl⟩
  rcases h with ⟨_, rfl⟩ | ⟨_, c, _, rfl⟩
  · exact h1
  · rw [← h1.1, ← h1.2.1, ← h1.2.2]
    simp only [store_apply]
    split_ifs <;> simp_all

theorem wnoutrefresh_tail_cursor (p : Nat) (cur : Option Nat) (begy begx : Int) (m m' : Mem)
    (h : wnoutrefresh_tail p cur begy begx m = some m') :
    ((m p)._leaveit = true ∧ ∀ q, (m' q)._cury = (m q)._cury ∧ (m' q)._curx = (m q)._curx) ∨
    ((m p)._leaveit = false ∧ ∃ c, cur = some c ∧
      (m' c)._cury = (m p)._cury + begy ∧ (m' c)._curx = (m p)._curx + begx ∧
      ∀ q, q ≠ c → (m' q)._cury = (m q)._cury ∧ (m' q)._curx = (m q)._curx) := by
  obtain ⟨m1, hm1, h⟩ := (wnoutrefresh_tail_eq_some _ _ _ _ _ _).mp h
  have h1 : ∀ q, (m1 q)._cury = (m q)._cury ∧ (m1 q)._curx = (m q)._curx ∧
      (m1 q)._leaveit = (m q)._leaveit := by
    intro q
    rw [hm1]
    split
    · simp only [store_apply]
      split_ifs <;> simp_all
    · exact ⟨rfl, rfl, rfl⟩
  rcases h with ⟨hl, rfl⟩ | ⟨hl, c, hc, rfl⟩
  · left
    exact ⟨by rw [← (h1 p).2.2]; exact hl, fun q => ⟨(h1 q).1, (h1 q).2.1⟩⟩
  · right
    refine ⟨by rw [← (h1 p).2.2]; exact hl, c, hc, ?_, ?_, ?_⟩
    · simp [store_same, (h1 p).1]
    · simp only [store_same, WINDOW.set_curx_fields, store_apply]
      split_ifs with hpc
      · subst hpc; simp [(h1 p).2.1]
      · simp [(h1 p).2.1]
    · intro q hq
      simp only [store_ne _ _ _ _ hq]
      exact ⟨(h1 q).1, (h1 q).2.1⟩

theorem wnoutrefresh_eq_some {T : Type} (s s' : State T) (p : Nat) (rc : Int) :
    wnoutrefresh (some p) s = some (rc, s') ↔
    (isPad (s.mem p) = true ∧ rc = ERR ∧ s' = s) ∨
    (isPad (s.mem p) = false ∧ rc = OK ∧ ∃ m1 m2,
      wnoutrefresh_loop p s.curscr (s.mem p)._begx ((s.mem p)._maxy - 0).toNat 0
        (s.mem p)._begy s.mem = some m1 ∧
      wnoutrefresh_tail p s.curscr (s.mem p)._begy (s.mem p)._begx m1 = some m2 ∧
      s' = { s with mem := m2 }) := by
  unfold wnoutrefresh
  simp only
  split
  · rename_i hp
    simp only [Option.some.injEq, Prod.mk.injEq, hp, true_and, false_and, or_false, Bool.true_eq_false]
    constructor
    · rintro ⟨rfl, rfl⟩; exact ⟨rfl, rfl⟩
    · rintro ⟨rfl, rfl⟩; exact ⟨rfl, rfl⟩
  · rename_i hp
    simp only [Option.bind_eq_bind, Option.bind_eq_some, Option.pure_def, Option.some.injEq,
      Prod.mk.injEq, hp, false_and, false_or, Bool.not_eq_true] at hp ⊢
    simp only [hp, true_and, Bool.false_eq_true, false_and, false_or]
    constructor
    · rintro ⟨m1, h1, m2, h2, rfl, rfl⟩
      exact ⟨rfl, m1, m2, h1, h2, rfl⟩
    · rintro ⟨rfl, m1, m2, h1, h2, rfl⟩
      exact ⟨m1, h1, m2, h2, rfl, rfl⟩

/-! ## `wnoutrefresh` completes -/

theorem memcpy_length {dst src row : List chtype} {d s n : Int}
    (h : memcpy dst d src s n = some row) : row.length = dst.length := by
  unfold memcpy at h
  split at h
  · rename_i hb
    obtain ⟨hn, hd, hdn, hs, hsn⟩ := hb
    simp only [Option.some.injEq] at h
    subst h
    simp only [List.length_append, List.length_take, List.length_drop]
    omega
  · cases h

theorem memcpy_total (dst src : List chtype) (d s n : Int)
    (h : 0 ≤ n ∧ 0 ≤ d ∧ d + n ≤ dst.length ∧ 0 ≤ s ∧ s + n ≤ src.length) :
    ∃ row, memcpy dst d src s n = some row := by
  unfold memcpy
  rw [if_pos h]
  exact ⟨_, rfl⟩

theorem map_length_set_of_rd {xs : List (List chtype)} {j : Int} {dst row : List chtype}
    (h : rd xs j = some dst) (hlen : row.length = dst.length) :
    (xs.set j.toNat row).map List.length = xs.map List.length := by
  rw [List.map_set, hlen]
  apply set_of_rd
  unfold rd at h ⊢
  split at h
  · rename_i h0
    rw [if_pos h0, List.getElem?_map, h]
    rfl
  · cases h

theorem wnoutrefresh_row_lens (win : Nat) (cur : Option Nat) (begx i j : Int) (m m' : Mem)
    (h : wnoutrefresh_row win cur begx i j m = some m') (q : Nat) :
    (m' q).lens = (m q).lens := by
  obtain ⟨f, m1, hf, hm1, hb, rfl⟩ := (wnoutrefresh_row_eq_some _ _ _ _ _ _ _).mp h
  have h1 : (m1 q).lens = (m q).lens := by
    by_cases hfn : f = _NO_CHANGE
    · rw [if_neg (by simpa using hfn)] at hm1
      rw [hm1]
    · rw [if_pos hfn] at hm1
      obtain ⟨c, f', l, dst, src, row, cf, cl, hc, hf', hl, hdst, hsrc, hrow, hcf, hcl, hb', rfl⟩ :=
        (wnoutrefresh_changed_eq_some _ _ _ _ _ _ _).mp hm1
      have hml := map_length_set_of_rd hdst (memcpy_length hrow)
      simp only [store_apply]
      split_ifs <;> simp_all [WINDOW.lens, mergedImage]
  rw [← h1]
  simp only [store_apply]
  split_ifs <;> simp_all [WINDOW.lens]

theorem getD_of_rd {xs : List Int} {i d a : Int} (h : rd xs i = some a) :
    xs.getD i.toNat d = a := by
  unfold rd at h
  split at h
  · simp [h]
  · cases h

theorem mem_of_rd {α : Type} {xs : List α} {i : Int} {a : α} (h : rd xs i = some a) :
    a ∈ xs := by
  unfold rd at h
  split at h
  · obtain ⟨hlt, e⟩ := List.getElem?_eq_some_iff.mp h
    rw [← e]
    exact List.getElem_mem hlt
  · cases h

theorem wnoutrefresh_row_total (win c : Nat) (w0 c0 : WINDOW) (hready : mergeReady w0 c0)
    (halias : win = c → w0 = c0) (i : Int) (m : Mem) (hi0 : 0 ≤ i) (hi1 : i < w0._maxy)
    (hcs : (m c).scalars = c0.scalars)
    (hwl : (m win).lens = w0.lens) (hcl : (m c).lens = c0.lens)
    (hrow : rd (m win)._firstch i = rd w0._firstch i ∧ rd (m win)._lastch i = rd w0._lastch i) :
    ∃ m', wnoutrefresh_row win (some c) w0._begx i (w0._begy + i) m = some m' := by
  obtain ⟨⟨wa1, wa2, wa3, wa4⟩, ⟨ca1, ca2, ca3, ca4⟩, ⟨hy0, hy1, hx0, hx1⟩, hsp⟩ := hready
  simp only [WINDOW.lens, Prod.mk.injEq] at hwl hcl
  obtain ⟨wl1, wl2, wl3⟩ := hwl
  obtain ⟨cl1, cl2, cl3⟩ := hcl
  have wylen : (m win)._y.length = w0._y.length := by
    have := congrArg List.length wl3
    simpa using this
  have cylen : (m c)._y.length = c0._y.length := by
    have := congrArg List.length cl3
    simpa using this
  simp only [List.length_map] at wa3 ca3
  obtain ⟨f, hf⟩ := rd_isSome_of_bounds (m win)._firstch i hi0 (by omega)
  obtain ⟨l, hl⟩ := rd_isSome_of_bounds (m win)._lastch i hi0 (by omega)
  have hfin : ∀ m1 : Mem, (m1 win)._lastch.length = (m win)._lastch.length →
      ∃ m', m' = store m1 win ((m1 win).set_lastch ((m1 win)._lastch.set i.toNat _NO_CHANGE)) ∧
        (0 ≤ i ∧ i.toNat < (m1 win)._lastch.length) := by
    intro m1 hlen
    exact ⟨_, rfl, hi0, by omega⟩
  by_cases hfn : f = _NO_CHANGE
  · obtain ⟨m', hm', hb⟩ := hfin m rfl
    exact ⟨m', (wnoutrefresh_row_eq_some _ _ _ _ _ _ _).mpr
      ⟨f, m, hf, by rw [if_neg (by simpa using hfn)], hb, hm'⟩⟩
  · -- the span of the row is valid
    have hf0 : rd w0._firstch i = some f := hrow.1 ▸ hf
    have hl0 : rd w0._lastch i = some l := hrow.2 ▸ hl
    have hspan := hsp i.toNat (by omega)
    rw [getD_of_rd hf0, getD_of_rd hl0] at hspan
    obtain ⟨s1, s2, s3⟩ := hspan hfn
    obtain ⟨dst, hdst⟩ := rd_isSome_of_bounds (m c)._y (w0._begy + i) (by omega) (by omega)
    obtain ⟨src, hsrc⟩ := rd_isSome_of_bounds (m win)._y i hi0 (by omega)
    have hdlen : c0._maxx ≤ (dst.length : Int) := by
      apply ca4
      rw [← cl3]
      exact List.mem_map.mpr ⟨dst, mem_of_rd hdst, rfl⟩
    have hslen : w0._maxx ≤ (src.length : Int) := by
      apply wa4
      rw [← wl3]
      exact List.mem_map.mpr ⟨src, mem_of_rd hsrc, rfl⟩
    obtain ⟨row, hrow'⟩ := memcpy_total dst src (w0._begx + f) f (l - f + 1)
      ⟨by omega, by omega, by omega, s1, by omega⟩
    obtain ⟨cf, hcf⟩ := rd_isSome_of_bounds (m c)._firstch (w0._begy + i) (by omega) (by omega)
    obtain ⟨cl, hcl⟩ := rd_isSome_of_bounds (m c)._lastch (w0._begy + i) (by omega) (by omega)
    have hlenF : (store m c (mergedImage (m c) (w0._begy + i) row (f + w0._begx) (l + w0._begx)
        cf cl) win)._firstch.length = (m win)._firstch.length := by
      simp only [store_apply]
      split_ifs with hwc
      · subst hwc; simp [mergedImage]
      · rfl
    have hlenL : (store m c (mergedImage (m c) (w0._begy + i) row (f + w0._begx) (l + w0._begx)
        cf cl) win)._lastch.length = (m win)._lastch.length := by
      simp only [store_apply]
      split_ifs with hwc
      · subst hwc; simp [mergedImage]
      · rfl
    have hch := (wnoutrefresh_changed_eq_some win (some c) w0._begx i (w0._begy + i) m _).mpr
      ⟨c, f, l, dst, src, row, cf, cl, rfl, hf, hl, hdst, hsrc, hrow', hcf, hcl,
        ⟨hi0, by rw [hlenF]; omega⟩, rfl⟩
    obtain ⟨m', hm', hb⟩ := hfin
      (store (store m c (mergedImage (m c) (w0._begy + i) row (f + w0._begx) (l + w0._begx) cf cl))
        win ((store m c (mergedImage (m c) (w0._begy + i) row (f + w0._begx) (l + w0._begx) cf cl)
          win).set_firstch ((store m c (mergedImage (m c) (w0._begy + i) row (f + w0._begx)
            (l + w0._begx) cf cl) win)._firstch.set i.toNat _NO_CHANGE)))
      (by simp only [store_same, WINDOW.set_firstch_fields]; exact hlenL)
    exact ⟨m', (wnoutrefresh_row_eq_some _ _ _ _ _ _ _).mpr
      ⟨f, _, hf, by rw [if_pos hfn]; exact hch, hb, hm'⟩⟩

theorem wnoutrefresh_loop_total (win c : Nat) (w0 c0 : WINDOW) (hready : mergeReady w0 c0)
    (halias : win = c → w0 = c0) :
    ∀ (n : Nat) (i : Int) (m : Mem), 0 ≤ i → i + n ≤ w0._maxy →
    (m c).scalars = c0.scalars →
    (m win).lens = w0.lens → (m c).lens = c0.lens →
    (∀ k : Int, i ≤ k → rd (m win)._firstch k = rd w0._firstch k ∧
      rd (m win)._lastch k = rd w0._lastch k) →
    ∃ m', wnoutrefresh_loop win (some c) w0._begx n i (w0._begy + i) m = some m' := by
  intro n
  induction n with
  | zero => intro i m _ _ _ _ _ _; exact ⟨m, rfl⟩
  | succ n ih =>
    intro i m hi0 hi1 hcs hwl hcl hrows
    obtain ⟨m1, hm1⟩ := wnoutrefresh_row_total win c w0 c0 hready halias i m hi0
      (by push_cast at hi1; omega) hcs hwl hcl (hrows i (le_refl _))
    simp only [wnoutrefresh_loop, Option.bind_eq_bind, hm1, Option.some_bind]
    have hj : w0._begy + i + 1 = w0._begy + (i + 1) := by omega
    rw [hj]
    apply ih (i + 1) m1 (by omega) (by push_cast at hi1; omega)
    · rw [wnoutrefresh_row_scalars _ _ _ _ _ _ _ hm1, hcs]
    · rw [wnoutrefresh_row_lens _ _ _ _ _ _ _ hm1, hwl]
    · rw [wnoutrefresh_row_lens _ _ _ _ _ _ _ hm1, hcl]
    · intro k hk
      have hne : k ≠ i := by omega
      have hal : some c = some win → k ≠ w0._begy + i := by
        intro e
        have e' : win = c := (Option.some.inj e).symm
        have hw := halias e'
        obtain ⟨_, _, ⟨hy0, hy1, _, _⟩, _⟩ := hready
        rw [← hw] at hy1
        omega
      obtain ⟨e1, e2⟩ := wnoutrefresh_row_others _ _ _ _ _ _ _ hm1 k hne hal
      obtain ⟨e3, e4⟩ := hrows k (by omega)
      exact ⟨e1.trans e3, e2.trans e4⟩

theorem wnoutrefresh_completes {T : Type} (s : State T) (p c : Nat) (hc : s.curscr = some c)
    (hpad : isPad (s.mem p) = false) (hready : mergeReady (s.mem p) (s.mem c)) :
    ∃ s', wnoutrefresh (some p) s = some (OK, s') := by
  have hn : (((s.mem p)._maxy - 0).toNat : Int) ≤ (s.mem p)._maxy ∨ (s.mem p)._maxy < 0 := by
    omega
  have hloop : ∃ m1, wnoutrefresh_loop p s.curscr (s.mem p)._begx ((s.mem p)._maxy - 0).toNat 0
      (s.mem p)._begy s.mem = some m1 := by
    rw [hc]
    by_cases hneg : (s.mem p)._maxy < 0
    · have : ((s.mem p)._maxy - 0).toNat = 0 := by omega
      rw [this]
      exact ⟨_, rfl⟩
    · have := wnoutrefresh_loop_total p c (s.mem p) (s.mem c) hready (fun e => by rw [e])
        ((s.mem p)._maxy - 0).toNat 0 s.mem (le_refl _) (by omega) rfl rfl rfl
        (fun _ _ => ⟨rfl, rfl⟩)
      simpa using this
  obtain ⟨m1, hm1⟩ := hloop
  have htail : ∃ m2, wnoutrefresh_tail p s.curscr (s.mem p)._begy (s.mem p)._begx m1 = some m2 := by
    rw [hc]
    cases hl : ((if (m1 p)._clear = true then store m1 p ((m1 p).set_clear false) else m1) p)._leaveit
    · exact ⟨_, (wnoutrefresh_tail_eq_some _ _ _ _ _ _).mpr ⟨_, rfl, Or.inr ⟨hl, c, rfl, rfl⟩⟩⟩
    · exact ⟨_, (wnoutrefresh_tail_eq_some _ _ _ _ _ _).mpr ⟨_, rfl, Or.inl ⟨hl, rfl⟩⟩⟩
  obtain ⟨m2, hm2⟩ := htail
  exact ⟨{ s with mem := m2 }, (wnoutrefresh_eq_some s _ p OK).mpr
    (Or.inr ⟨hpad, rfl, m1, m2, hm1, hm2, rfl⟩)⟩

/-! ## `wnoutrefresh`: the claims -/

/-- C3: after a call of `wnoutrefresh` that returns `OK`, every row `i` in
`[0, _maxy)` of the window has both markers equal to `_NO_CHANGE`, whatever they
held before.  (When the window is `curscr` itself, its origin row is taken to be
non-negative; the physical image sits at row 0.) -/
theorem wnoutrefresh_clears_damage {T : Type} (s s' : State T) (p : Nat)
    (halias : s.curscr = some p → 0 ≤ (s.mem p)._begy)
    (h : wnoutrefresh (some p) s = some (OK, s')) :
    (s'.mem p)._maxy = (s.mem p)._maxy ∧
    ∀ i : Int, 0 ≤ i → i < (s.mem p)._maxy →
      rd (s'.mem p)._firstch i = some _NO_CHANGE ∧ rd (s'.mem p)._lastch i = some _NO_CHANGE := by
  rcases (wnoutrefresh_eq_some s s' p OK).mp h with ⟨_, hbad, _⟩ | ⟨_, _, m1, m2, h1, h2, rfl⟩
  · exact absurd hbad OK_ne_ERR
  · obtain ⟨hmark, _⟩ := wnoutrefresh_loop_markers _ _ _ _ _ _ _ _ halias h1
    obtain ⟨_, e2, e3⟩ := wnoutrefresh_tail_arrays _ _ _ _ _ _ h2 p
    have hs := wnoutrefresh_loop_scalars _ _ _ _ _ _ _ _ h1 p
    obtain ⟨m0, hm0, hcase⟩ := (wnoutrefresh_tail_eq_some _ _ _ _ _ _).mp h2
    have hmaxy1 : (m1 p)._maxy = (s.mem p)._maxy := by
      simp only [WINDOW.scalars, Prod.mk.injEq] at hs
      exact hs.2.2.1
    have hmaxy0 : ∀ q, (m0 q)._maxy = (m1 q)._maxy := by
      intro q
      rw [hm0]
      split
      · simp only [store_apply]; split_ifs <;> simp_all
      · rfl
    refine ⟨?_, ?_⟩
    · show (m2 p)._maxy = _
      rw [← hmaxy1, ← hmaxy0 p]
      rcases hcase with ⟨_, rfl⟩ | ⟨_, c, _, rfl⟩
      · rfl
      · simp only [store_apply]; split_ifs <;> simp_all
    · intro i hi0 hi1
      show rd (m2 p)._firstch i = _ ∧ rd (m2 p)._lastch i = _
      rw [e2, e3]
      exact hmark i hi0 (by omega)

/-- Instance of `wnoutrefresh_clears_damage`: after the 5 by 10 window of the
examples, whose row 0 had the span `(1, 4)`, is merged, its five rows are clean. -/
theorem wnoutrefresh_clears_damage_witness :
    ∃ s', wnoutrefresh (some 1) demoState = some (OK, s') ∧
      ∀ i : Int, 0 ≤ i → i < 5 →
        rd (s'.mem 1)._firstch i = some _NO_CHANGE ∧ rd (s'.mem 1)._lastch i = some _NO_CHANGE := by
  obtain ⟨s', hs⟩ := exists_of_map_fst
    (by decide : (wnoutrefresh (some 1) demoState).map Prod.fst = some OK)
  exact ⟨s', hs, (wnoutrefresh_clears_damage demoState s' 1 (fun e => by cases e) hs).2⟩

/-- C5: after a call of `wnoutrefresh(win)` that returns `OK`: if
`win->_leaveit` is false, the cursor of the physical image is
`(win->_cury + win->_begy, win->_curx + win->_begx)` (values of `win` before the
call); if the flag is true, the cursor of the physical image is what it was
before the call. -/
theorem wnoutrefresh_cursor {T : Type} (s s' : State T) (p : Nat)
    (h : wnoutrefresh (some p) s = some (OK, s')) :
    s'.curscr = s.curscr ∧
    ((s.mem p)._leaveit = false → ∃ c, s.curscr = some c ∧
      (s'.mem c)._cury = (s.mem p)._cury + (s.mem p)._begy ∧
      (s'.mem c)._curx = (s.mem p)._curx + (s.mem p)._begx) ∧
    ((s.mem p)._leaveit = true → ∀ c, s.curscr = some c →
      (s'.mem c)._cury = (s.mem c)._cury ∧ (s'.mem c)._curx = (s.mem c)._curx) := by
  rcases (wnoutrefresh_eq_some s s' p OK).mp h with ⟨_, hbad, _⟩ | ⟨_, _, m1, m2, h1, h2, rfl⟩
  · exact absurd hbad OK_ne_ERR
  · have hs : ∀ q, (m1 q)._cury = (s.mem q)._cury ∧ (m1 q)._curx = (s.mem q)._curx ∧
        (m1 q)._leaveit = (s.mem q)._leaveit := by
      intro q
      have := wnoutrefresh_loop_scalars _ _ _ _ _ _ _ _ h1 q
      simp only [WINDOW.scalars, Prod.mk.injEq] at this
      exact ⟨this.1, this.2.1, this.2.2.2.2.2.2.2.2⟩
    refine ⟨rfl, ?_, ?_⟩
    · intro hl
      rcases wnoutrefresh_tail_cursor _ _ _ _ _ _ h2 with ⟨hl', _⟩ | ⟨_, c, hc, e1, e2, _⟩
      · rw [(hs p).2.2, hl] at hl'; cases hl'
      · exact ⟨c, hc, by rw [← (hs p).1]; exact e1, by rw [← (hs p).2.1]; exact e2⟩
    · intro hl c _
      rcases wnoutrefresh_tail_cursor _ _ _ _ _ _ h2 with ⟨_, e⟩ | ⟨hl', _⟩
      · exact ⟨(e c).1.trans (hs c).1, (e c).2.trans (hs c).2.1⟩
      · rw [(hs p).2.2, hl] at hl'; cases hl'


/-- Instance of `wnoutrefresh_cursor`: the window of the examples, at origin
`(2, 3)` with cursor `(1, 2)` and `_leaveit` false, puts the cursor of the
physical image (address 0) at `(3, 5)`. -/
theorem wnoutrefresh_cursor_witness :
    ∃ s', wnoutrefresh (some 1) demoState = some (OK, s') ∧
      ∃ c, demoState.curscr = some c ∧ (s'.mem c)._cury = 1 + 2 ∧ (s'.mem c)._curx = 2 + 3 := by
  obtain ⟨s', hs⟩ := exists_of_map_fst
    (by decide : (wnoutrefresh (some 1) demoState).map Prod.fst = some OK)
  exact ⟨s', hs, (wnoutrefresh_cursor demoState s' 1 hs).2.1 rfl⟩

theorem memcpy_bounds {dst src row : List chtype} {d s n : Int}
    (h : memcpy dst d src s n = some row) :
    0 ≤ n ∧ 0 ≤ d ∧ d + n ≤ dst.length ∧ 0 ≤ s ∧ s + n ≤ src.length := by
  unfold memcpy at h
  split at h
  · rename_i hb; exact hb
  · cases h

theorem wnoutrefresh_row_span (win : Nat) (cur : Option Nat) (begx i j : Int) (m m' : Mem)
    (h : wnoutrefresh_row win cur begx i j m = some m') (f l : Int)
    (hf : rd (m win)._firstch i = some f) (hfn : f ≠ _NO_CHANGE)
    (hl : rd (m win)._lastch i = some l) :
    ∃ src, rd (m win)._y i = some src ∧ 0 ≤ f ∧ f ≤ l + 1 ∧ l < src.length := by
  obtain ⟨f', m1, hf', hm1, _, _⟩ := (wnoutrefresh_row_eq_some _ _ _ _ _ _ _).mp h
  rw [hf] at hf'
  have e := Option.some.inj hf'
  subst e
  rw [if_pos hfn] at hm1
  obtain ⟨c, f', l', dst, src, row, cf, cl, _, hf'', hl', _, hsrc, hrow, _⟩ :=
    (wnoutrefresh_changed_eq_some _ _ _ _ _ _ _).mp hm1
  rw [hf] at hf''
  rw [hl] at hl'
  have e1 := Option.some.inj hf''
  have e2 := Option.some.inj hl'
  subst e1; subst e2
  obtain ⟨b1, _, _, b4, b5⟩ := memcpy_bounds hrow
  exact ⟨src, hsrc, b4, by omega, by omega⟩

theorem wnoutrefresh_loop_span (win c : Nat) (begx : Int) (hx : win = c → begx = 0) :
    ∀ (n : Nat) (i j : Int) (m m' : Mem), (win = c → j = i) →
    wnoutrefresh_loop win (some c) begx n i j m = some m' →
    ∀ k f l : Int, i ≤ k → k < i + n →
      rd (m win)._firstch k = some f → f ≠ _NO_CHANGE → rd (m win)._lastch k = some l →
      ∃ src, rd (m win)._y k = some src ∧ 0 ≤ f ∧ f ≤ l + 1 ∧ l < src.length := by
  intro n
  induction n with
  | zero =>
    intro i j m m' _ _ k f l h1 h2
    push_cast at h2
    omega
  | succ n ih =>
    intro i j m m' hij h k f l hk1 hk2 hf hfn hl
    simp only [wnoutrefresh_loop, Option.bind_eq_bind, Option.bind_eq_some] at h
    obtain ⟨m1, h1, h2⟩ := h
    by_cases hki : k = i
    · subst hki
      exact wnoutrefresh_row_span _ _ _ _ _ _ _ h1 f l hf hfn hl
    · have hal : some c = some win → k ≠ j := by
        intro e
        have := hij (Option.some.inj e).symm
        omega
      obtain ⟨e1, e2⟩ := wnoutrefresh_row_others _ _ _ _ _ _ _ h1 k hki hal
      have hy : (m1 win)._y = (m win)._y := by
        by_cases hwc : win = c
        · have hb := hx hwc
          have hj := hij hwc
          subst hwc; subst hb; subst hj
          exact wnoutrefresh_row_self_grid _ _ _ _ h1
        · exact (wnoutrefresh_row_merged win c hwc _ _ _ _ _ h1).1.2.1
      have := ih (i + 1) (j + 1) m1 m' (fun e => by have := hij e; omega) h2 k f l (by omega)
        (by push_cast at hk2; omega) (e1.trans hf) hfn (e2.trans hl)
      rw [hy] at this
      exact this

theorem wnoutrefresh_merged {T : Type} (s s' : State T) (p c : Nat) (hc : s.curscr = some c)
    (hne : p ≠ c) (h : wnoutrefresh (some p) s = some (OK, s')) :
    ∃ W C, RowsMerged (s.mem p)._begx 0 (s.mem p)._begy ((s.mem p)._maxy - 0).toNat
        (s.mem p) (s.mem c) W C ∧
      (s'.mem c)._y = C._y ∧ (s'.mem c)._firstch = C._firstch ∧ (s'.mem c)._lastch = C._lastch ∧
      (s'.mem p)._y = W._y ∧ (s'.mem p)._firstch = W._firstch ∧ (s'.mem p)._lastch = W._lastch := by
  rcases (wnoutrefresh_eq_some s s' p OK).mp h with ⟨_, hbad, _⟩ | ⟨_, _, m1, m2, h1, h2, rfl⟩
  · exact absurd hbad OK_ne_ERR
  · rw [hc] at h1
    obtain ⟨hm, _⟩ := wnoutrefresh_loop_merged p c hne _ _ _ _ _ _ h1
    obtain ⟨e1, e2, e3⟩ := wnoutrefresh_tail_arrays _ _ _ _ _ _ h2 c
    obtain ⟨e4, e5, e6⟩ := wnoutrefresh_tail_arrays _ _ _ _ _ _ h2 p
    exact ⟨m1 p, m1 c, hm, e1, e2, e3, e4, e5, e6⟩

/-- C2: for a window that lies within the physical image, `wnoutrefresh`
returns `OK` (it completes when every access stays inside its array), and after
a call that returns `OK`: for every window row `i` with a span `(f, l)`
and every column `col` with `f ≤ col ≤ l`, the cell `(i, col)` of the window
exists and the cell `(begy + i, begx + col)` of `curscr` holds its value;
every other cell of `curscr` is as before. -/
theorem wnoutrefresh_grid {T : Type} (s : State T) (p c : Nat) (hc : s.curscr = some c)
    (hfit : fitsIn (s.mem p) (s.mem c)) :
    (isPad (s.mem p) = false → mergeReady (s.mem p) (s.mem c) →
      ∃ s', wnoutrefresh (some p) s = some (OK, s')) ∧
    ∀ s' : State T, wnoutrefresh (some p) s = some (OK, s') →
    (∀ i f l col : Int, 0 ≤ i → i < (s.mem p)._maxy →
      rd (s.mem p)._firstch i = some f → f ≠ _NO_CHANGE → rd (s.mem p)._lastch i = some l →
      f ≤ col → col ≤ l →
      ∃ v, cell (s.mem p) i col = some v ∧
        cell (s'.mem c) ((s.mem p)._begy + i) ((s.mem p)._begx + col) = some v) ∧
    (∀ r k : Int,
      (¬ ∃ i f l : Int, 0 ≤ i ∧ i < (s.mem p)._maxy ∧
        rd (s.mem p)._firstch i = some f ∧ f ≠ _NO_CHANGE ∧ rd (s.mem p)._lastch i = some l ∧
        r = (s.mem p)._begy + i ∧ (s.mem p)._begx + f ≤ k ∧ k ≤ (s.mem p)._begx + l) →
      cell (s'.mem c) r k = cell (s.mem c) r k) := by
  refine ⟨fun hpad hready => wnoutrefresh_completes s p c hc hpad hready, ?_⟩
  intro s' h
  obtain ⟨hy0, hy1, hx0, hx1⟩ := hfit
  have halias : p = c → (s.mem p)._begy = 0 ∧ (s.mem p)._begx = 0 := by
    intro e
    subst e
    constructor <;> omega
  -- every changed row has its span inside the row of the window
  have hspan : ∀ i f l col : Int, 0 ≤ i → i < (s.mem p)._maxy →
      rd (s.mem p)._firstch i = some f → f ≠ _NO_CHANGE → rd (s.mem p)._lastch i = some l →
      f ≤ col → col ≤ l → ∃ v, cell (s.mem p) i col = some v := by
    intro i f l col hi0 hi1 hf hfn hl hc1 hc2
    rcases (wnoutrefresh_eq_some s s' p OK).mp h with ⟨_, hbad, _⟩ | ⟨_, _, m1, m2, h1, _, _⟩
    · exact absurd hbad OK_ne_ERR
    · rw [hc] at h1
      obtain ⟨src, hsrc, b1, _, b3⟩ := wnoutrefresh_loop_span p c _ (fun e => (halias e).2) _ _ _ _ _
        (fun e => (halias e).1) h1 i f l hi0 (by omega) hf hfn hl
      obtain ⟨v, hv⟩ := rd_isSome_of_bounds src col (by omega) (by omega)
      exact ⟨v, by simp only [cell, hsrc, Option.some_bind, hv]⟩
  by_cases hne : p = c
  · -- the window is the physical image: it sits at the origin and is copied onto itself
    obtain ⟨hbegy, hbegx⟩ := halias hne
    subst hne
    rcases (wnoutrefresh_eq_some s s' p OK).mp h with ⟨_, hbad, _⟩ | ⟨_, _, m1, m2, h1, h2, rfl⟩
    · exact absurd hbad OK_ne_ERR
    · rw [hc, hbegy, hbegx] at h1
      have g1 := wnoutrefresh_loop_self_grid p _ _ _ _ h1
      have g2 := (wnoutrefresh_tail_arrays _ _ _ _ _ _ h2 p).1
      have g : (m2 p)._y = (s.mem p)._y := g2.trans g1
      refine ⟨?_, ?_⟩
      · intro i f l col hi0 hi1 hf hfn hl hc1 hc2
        obtain ⟨v, hv⟩ := hspan i f l col hi0 hi1 hf hfn hl hc1 hc2
        refine ⟨v, hv, ?_⟩
        show cell (m2 p) _ _ = _
        rw [← hv]
        simp only [cell, g, hbegy, hbegx, zero_add]
      · intro r k _
        show cell (m2 p) _ _ = _
        simp only [cell, g]
  · obtain ⟨W, C, hm, eC, _, _, _, _, _⟩ := wnoutrefresh_merged s s' p c hc hne h
    obtain ⟨_, _, _, _, _, hrow, hframe⟩ := hm
    refine ⟨?_, ?_⟩
    · intro i f l col hi0 hi1 hf hfn hl hc1 hc2
      obtain ⟨v, hv⟩ := hspan i f l col hi0 hi1 hf hfn hl hc1 hc2
      refine ⟨v, hv, ?_⟩
      rw [← hv]
      have hr := hrow i hi0 (by omega)
      have e0 : (s.mem p)._begy + (i - 0) = (s.mem p)._begy + i := by omega
      rw [e0] at hr
      rcases hr with ⟨hf', _⟩ | ⟨f', l', dst, src, row, cf, cl, _, hf', hl', _, hsrc, hrow', _, _,
        hY, _, _⟩
      · rw [hf] at hf'; exact absurd (Option.some.inj hf') hfn
      · rw [hf] at hf'; rw [hl] at hl'
        have ef := Option.some.inj hf'
        have el := Option.some.inj hl'
        subst ef; subst el
        simp only [cell, eC, hY, hsrc, Option.some_bind]
        rw [memcpy_rd hrow']
        have hin : (s.mem p)._begx + f ≤ (s.mem p)._begx + col ∧
            (s.mem p)._begx + col < (s.mem p)._begx + f + (l - f + 1) := by omega
        rw [if_pos hin]
        congr 1
        omega
    · intro r k hno
      simp only [cell, eC]
      by_cases hin : (s.mem p)._begy ≤ r ∧
          r < (s.mem p)._begy + (((s.mem p)._maxy - 0).toNat : Int)
      · have hr := hrow (r - (s.mem p)._begy) (by omega) (by omega)
        have e0 : (s.mem p)._begy + (r - (s.mem p)._begy - 0) = r := by omega
        rw [e0] at hr
        rcases hr with ⟨_, hY, _, _⟩ | ⟨f, l, dst, src, row, cf, cl, hfn, hf, hl, hdst, _, hrow',
          _, _, hY, _, _⟩
        · rw [hY]
        · rw [hY, hdst]
          simp only [Option.some_bind]
          rw [memcpy_rd hrow']
          have hout : ¬ ((s.mem p)._begx + f ≤ k ∧ k < (s.mem p)._begx + f + (l - f + 1)) := by
            intro hk
            apply hno
            exact ⟨r - (s.mem p)._begy, f, l, by omega, by omega, hf, hfn, hl, by omega, hk.1,
              by omega⟩
          rw [if_neg hout]
      · rw [(hframe r hin).1]

/-- Instance of `wnoutrefresh_grid` on the session of the examples: the cells
`11 .. 14` of window row 0 (columns `1 .. 4`) arrive at physical row 2, columns
`4 .. 7`; the cell to the left of the span and the row below keep their content. -/
theorem wnoutrefresh_grid_witness :
    ∃ s', wnoutrefresh (some 1) demoState = some (OK, s') ∧
      cell (s'.mem 0) (2 + 0) (3 + 1) = some 11 ∧
      cell (s'.mem 0) (2 + 0) (3 + 4) = some 14 ∧
      cell (s'.mem 0) 2 3 = some 0 ∧
      cell (s'.mem 0) 3 4 = some 0 := by
  have hfit : fitsIn (demoState.mem 1) (demoState.mem 0) := by decide
  obtain ⟨s', hs⟩ := (wnoutrefresh_grid demoState 1 0 rfl hfit).1 (by decide) (by decide)
  have key := (wnoutrefresh_grid demoState 1 0 rfl hfit).2 s' hs
  have hf : rd (demoState.mem 1)._firstch 0 = some 1 := by decide
  have hl : rd (demoState.mem 1)._lastch 0 = some 4 := by decide
  have hout : ∀ r k : Int, (r = 2 → k < 4 ∨ 7 < k) →
      ¬ ∃ i f l : Int, 0 ≤ i ∧ i < (demoState.mem 1)._maxy ∧
        rd (demoState.mem 1)._firstch i = some f ∧ f ≠ _NO_CHANGE ∧
        rd (demoState.mem 1)._lastch i = some l ∧
        r = (demoState.mem 1)._begy + i ∧ (demoState.mem 1)._begx + f ≤ k ∧
        k ≤ (demoState.mem 1)._begx + l := by
    rintro r k hrk ⟨i, f, l, hi0, hi1, hfi, hfn, hli, hr, hk1, hk2⟩
    have hmaxy : (demoState.mem 1)._maxy = 5 := by decide
    have hbegy : (demoState.mem 1)._begy = 2 := by decide
    have hbegx : (demoState.mem 1)._begx = 3 := by decide
    rw [hmaxy] at hi1
    rw [hbegy] at hr
    rw [hbegx] at hk1 hk2
    have hcases : i = 0 ∨ i = 1 ∨ i = 2 ∨ i = 3 ∨ i = 4 := by omega
    rcases hcases with rfl | rfl | rfl | rfl | rfl
    · rw [hf] at hfi; rw [hl] at hli
      have e1 := Option.some.inj hfi
      have e2 := Option.some.inj hli
      subst e1; subst e2
      have := hrk (by omega)
      omega
    all_goals
      have hnc : f = _NO_CHANGE := by
        have h0 : ∀ j : Int, j = 1 ∨ j = 2 ∨ j = 3 ∨ j = 4 →
            rd (demoState.mem 1)._firstch j = some _NO_CHANGE := by
          rintro j (rfl | rfl | rfl | rfl) <;> decide
        rw [h0 _ (by omega)] at hfi
        exact (Option.some.inj hfi).symm
      exact hfn hnc
  refine ⟨s', hs, ?_, ?_, ?_, ?_⟩
  · obtain ⟨v, hv, hv'⟩ :=
      key.1 0 1 4 1 (by decide) (by decide) hf (by decide) hl (by decide) (by decide)
    have e : cell (demoState.mem 1) 0 1 = some 11 := by decide
    rw [e] at hv
    have ev := Option.some.inj hv
    subst ev
    exact hv'
  · obtain ⟨v, hv, hv'⟩ :=
      key.1 0 1 4 4 (by decide) (by decide) hf (by decide) hl (by decide) (by decide)
    have e : cell (demoState.mem 1) 0 4 = some 14 := by decide
    rw [e] at hv
    have ev := Option.some.inj hv
    subst ev
    exact hv'
  · exact (key.2 2 3 (hout 2 3 (fun _ => Or.inl (by decide)))).trans (by decide)
  · exact (key.2 3 4 (hout 3 4 (fun e => by omega))).trans (by decide)

/-! ## `doupdate` -/

theorem doupdate_prologue_spec {T : Type} (be : Backend T) (s s1 : State T)
    (h : doupdate_prologue be s = some s1) :
    s1.curscr = s.curscr ∧ s1.stdscr = s.stdscr ∧
    (∃ pre, s1.calls = s.calls ++ pre ∧ ∀ x ∈ pre, x = Call.reset_prog_mode) ∧
    (be.isendwin s.term s.SP = false → s1.mem = s.mem) ∧
    (be.isendwin s.term s.SP = true →
      ∃ c, s.curscr = some c ∧ s1.mem = store s.mem c ((s.mem c).set_clear true)) := by
  unfold doupdate_prologue at h
  simp only [Option.bind_eq_bind, Option.pure_def, Option.bind_eq_some, Option.some.injEq] at h
  obtain ⟨s0, h0, rfl⟩ := h
  have key : s0.curscr = s.curscr ∧ s0.stdscr = s.stdscr ∧
      (∃ pre, s0.calls = s.calls ++ pre ∧ ∀ x ∈ pre, x = Call.reset_prog_mode) ∧
      (be.isendwin s.term s.SP = false → s0.mem = s.mem) ∧
      (be.isendwin s.term s.SP = true →
        ∃ c, s.curscr = some c ∧ s0.mem = store s.mem c ((s.mem c).set_clear true)) := by
    split at h0
    · rename_i he
      unfold doupdate_wakeup at h0
      simp only [Option.bind_eq_bind, Option.pure_def, Option.bind_eq_some,
        Option.some.injEq] at h0
      obtain ⟨c, hc, rfl⟩ := h0
      refine ⟨rfl, rfl, ⟨[Call.reset_prog_mode], rfl, by simp⟩, ?_, ?_⟩
      · intro hf; rw [he] at hf; cases hf
      · intro _; exact ⟨c, hc, rfl⟩
    · rename_i he
      simp only [Option.some.injEq] at h0
      subst h0
      refine ⟨rfl, rfl, ⟨[], by simp, by simp⟩, fun _ => rfl, ?_⟩
      intro ht; exact absurd ht he
  obtain ⟨k1, k2, ⟨pre, k3, k4⟩, k5, k6⟩ := key
  split
  · refine ⟨k1, k2, ⟨pre ++ [Call.reset_prog_mode], ?_, ?_⟩, k5, k6⟩
    · simp [call_reset_prog_mode, k3]
    · intro x hx
      rcases List.mem_append.mp hx with hx | hx
      · exact k4 x hx
      · simpa using hx
  · exact ⟨k1, k2, ⟨pre, k3, k4⟩, k5, k6⟩

theorem doupdate_prologue_total {T : Type} (be : Backend T) (s : State T)
    (h : be.isendwin s.term s.SP = false ∨ ∃ c, s.curscr = some c) :
    ∃ s1, doupdate_prologue be s = some s1 := by
  unfold doupdate_prologue
  by_cases he : be.isendwin s.term s.SP = true
  · rcases h with h | ⟨c, hc⟩
    · rw [he] at h; cases h
    · have hw : ∃ s0, doupdate_wakeup be s = some s0 := by
        unfold doupdate_wakeup
        have hc' : (call_reset_prog_mode be s).curscr = some c := hc
        simp [hc']
      obtain ⟨s0, hs0⟩ := hw
      simp [he, hs0]
  · simp [he]

theorem doupdate_eq_some {T : Type} (be : Backend T) (s s' : State T) (rc : Int) :
    doupdate be s = some (rc, s') ↔
    ∃ s1, doupdate_prologue be s = some s1 ∧
      ((s1.curscr = none ∧ rc = ERR ∧ s' = s1) ∨
       (∃ c s2, s1.curscr = some c ∧ doupdate_flush be c s1 = some s2 ∧ rc = OK ∧
          s' = doupdate_cursor be c s2)) := by
  unfold doupdate
  simp only [Option.bind_eq_bind, Option.pure_def, Option.bind_eq_some]
  constructor
  · rintro ⟨s1, h1, h2⟩
    refine ⟨s1, h1, ?_⟩
    split at h2
    · rename_i hc
      simp only [Option.some.injEq, Prod.mk.injEq] at h2
      exact Or.inl ⟨hc, h2.1.symm, h2.2.symm⟩
    · rename_i c hc
      simp only [Option.bind_eq_some, Option.some.injEq, Prod.mk.injEq] at h2
      obtain ⟨s2, hs2, e1, e2⟩ := h2
      exact Or.inr ⟨c, s2, hc, hs2, e1.symm, e2.symm⟩
  · rintro ⟨s1, h1, h2⟩
    refine ⟨s1, h1, ?_⟩
    rcases h2 with ⟨hc, rfl, rfl⟩ | ⟨c, s2, hc, hs2, rfl, rfl⟩
    · rw [hc]
    · rw [hc]
      simp only [hs2, Option.some_bind]

theorem call_transform_line_spec {T : Type} (be : Backend T) (c : Nat) (i : Int) (s : State T) :
    (call_transform_line be c i s).2.curscr = s.curscr ∧
    (call_transform_line be c i s).2.stdscr = s.stdscr ∧
    (call_transform_line be c i s).2.SP = s.SP ∧
    (∀ q, q ≠ c → (call_transform_line be c i s).2.mem q = s.mem q) ∧
    (call_transform_line be c i s).2.mem c = (be.PDC_transform_line i s.term (s.mem c)).2.2 ∧
    (call_transform_line be c i s).1 = (be.PDC_transform_line i s.term (s.mem c)).1 ∧
    (call_transform_line be c i s).2.calls =
      s.calls ++ [transformCall (i, (call_transform_line be c i s).1)] := by
  refine ⟨rfl, rfl, rfl, ?_, ?_, rfl, rfl⟩
  · intro q hq
    simp [call_transform_line, store_ne _ _ _ _ hq]
  · simp [call_transform_line, store_same]

theorem not_damaged_of_rd {w : WINDOW} {k : Int} (h : rd w._firstch k = some _NO_CHANGE) :
    ¬ damaged w k := by
  rintro ⟨f, hf, hfn⟩
  rw [h] at hf
  exact hfn (Option.some.inj hf).symm

theorem doupdate_loop_spec {T : Type} (be : Backend T) (c : Nat) :
    ∀ (n : Nat) (i : Int) (s s' : State T), doupdate_loop be c n i s = some s' →
    s'.curscr = s.curscr ∧ s'.stdscr = s.stdscr ∧ s'.SP = s.SP ∧
    (∀ q, q ≠ c → s'.mem q = s.mem q) ∧
    ∃ L : List (Int × Bool), s'.calls = s.calls ++ L.map transformCall ∧
      List.Pairwise (fun a b => a < b) (L.map Prod.fst) ∧
      (∀ x ∈ L, i ≤ x.1 ∧ x.1 < i + n) ∧
      (∀ x ∈ L, x.2 = true → ∀ y ∈ L, y.1 ≤ x.1) ∧
      (be.leavesLaterRows →
        (∀ x ∈ L, damaged (s.mem c) x.1) ∧
        (∀ k : Int, i ≤ k → k < i + n → damaged (s.mem c) k →
          (∀ x ∈ L, x.2 = true → k ≤ x.1) → k ∈ L.map Prod.fst)) := by
  intro n
  induction n with
  | zero =>
    intro i s s' h
    simp only [doupdate_loop, Option.some.injEq] at h
    subst h
    refine ⟨rfl, rfl, rfl, fun _ _ => rfl, [], by simp, by simp, by simp, by simp, ?_⟩
    intro _
    refine ⟨by simp, ?_⟩
    intro k h1 h2
    push_cast at h2
    omega
  | succ n ih =>
    intro i s s' h
    simp only [doupdate_loop, Option.bind_eq_bind, Option.pure_def, Option.bind_eq_some] at h
    obtain ⟨f, hf, h⟩ := h
    by_cases hfn : f = _NO_CHANGE
    · rw [if_neg (by simpa using hfn)] at h
      subst hfn
      obtain ⟨e1, e2, e3, e4, L, hL, hP, hB, hM, hD⟩ := ih _ _ _ h
      refine ⟨e1, e2, e3, e4, L, hL, hP, ?_, hM, ?_⟩
      · intro x hx
        have := hB x hx
        push_cast
        omega
      · intro hfr
        obtain ⟨d1, d2⟩ := hD hfr
        refine ⟨d1, ?_⟩
        intro k hk1 hk2 hkd hkt
        by_cases hki : k = i
        · subst hki
          exact absurd hkd (not_damaged_of_rd hf)
        · exact d2 k (by omega) (by push_cast at hk2; omega) hkd hkt
    · rw [if_pos hfn] at h
      obtain ⟨c1, c2, c3, c4, c5, c6, c7⟩ := call_transform_line_spec be c i s
      have hdi : damaged (s.mem c) i := ⟨f, hf, hfn⟩
      by_cases hb : (call_transform_line be c i s).1 = true
      · rw [if_pos hb] at h
        simp only [Option.some.injEq] at h
        subst h
        refine ⟨c1, c2, c3, c4, [(i, true)], ?_, by simp, ?_, ?_, ?_⟩
        · rw [c7, hb]; rfl
        · intro x hx
          simp only [List.mem_singleton] at hx
          subst hx
          push_cast
          constructor <;> simp
        · intro x hx _ y hy
          simp only [List.mem_singleton] at hx hy
          subst hx; subst hy
          exact le_refl _
        · intro _
          refine ⟨?_, ?_⟩
          · intro x hx
            simp only [List.mem_singleton] at hx
            subst hx
            exact hdi
          · intro k hk1 _ _ hkt
            have := hkt (i, true) (by simp) rfl
            have hki : k = i := by simp only at this; omega
            simp [hki]
      · rw [if_neg hb] at h
        have hb' : (call_transform_line be c i s).1 = false := by simpa using hb
        obtain ⟨e1, e2, e3, e4, L, hL, hP, hB, hM, hD⟩ := ih _ _ _ h
        refine ⟨e1.trans c1, e2.trans c2, e3.trans c3, ?_, (i, false) :: L, ?_, ?_, ?_, ?_, ?_⟩
        · intro q hq
          rw [e4 q hq, c4 q hq]
        · rw [hL, c7, hb']
          simp [List.append_assoc]
        · simp only [List.map_cons, List.pairwise_cons]
          refine ⟨?_, hP⟩
          intro a ha
          obtain ⟨x, hx, rfl⟩ := List.mem_map.mp ha
          have := hB x hx
          omega
        · intro x hx
          rcases List.mem_cons.mp hx with rfl | hx
          · push_cast
            constructor <;> simp
          · have := hB x hx
            push_cast
            omega
        · intro x hx hxt y hy
          rcases List.mem_cons.mp hx with rfl | hx
          · cases hxt
          · rcases List.mem_cons.mp hy with rfl | hy
            · have := hB x hx
              simp only
              omega
            · exact hM x hx hxt y hy
        · intro hfr
          obtain ⟨d1, d2⟩ := hD hfr
          have hsame : ∀ k : Int, i < k →
              (damaged ((call_transform_line be c i s).2.mem c) k ↔ damaged (s.mem c) k) := by
            intro k hk
            unfold damaged
            rw [c5, hfr i s.term (s.mem c) (by rw [← c6]; exact hb') k hk]
          refine ⟨?_, ?_⟩
          · intro x hx
            rcases List.mem_cons.mp hx with rfl | hx
            · exact hdi
            · exact (hsame x.1 (by have := hB x hx; omega)).mp (d1 x hx)
          · intro k hk1 hk2 hkd hkt
            by_cases hki : k = i
            · simp [hki]
            · have hik : i < k := by omega
              have := d2 k (by omega) (by push_cast at hk2; omega) ((hsame k hik).mpr hkd)
                (fun x hx hxt => hkt x (List.mem_cons_of_mem _ hx) hxt)
              simp only [List.map_cons, List.mem_cons]
              exact Or.inr this

theorem doupdate_cursor_spec {T : Type} (be : Backend T) (c : Nat) (s : State T) :
    (doupdate_cursor be c s).mem = s.mem ∧ (doupdate_cursor be c s).curscr = s.curscr ∧
    (doupdate_cursor be c s).stdscr = s.stdscr ∧
    (doupdate_cursor be c s).calls = s.calls ++
      (if s.SP.cursrow ≠ (s.mem c)._cury ∨ s.SP.curscol ≠ (s.mem c)._curx then
        [Call.gotoxy (s.mem c)._cury (s.mem c)._curx] else []) ∧
    (doupdate_cursor be c s).SP.cursrow = (s.mem c)._cury ∧
    (doupdate_cursor be c s).SP.curscol = (s.mem c)._curx := by
  unfold doupdate_cursor
  split_ifs with h
  · exact ⟨rfl, rfl, rfl, rfl, rfl, rfl⟩
  · have h' : s.SP.cursrow = (s.mem c)._cury ∧ s.SP.curscol = (s.mem c)._curx := by
      constructor
      · by_contra hh; exact h (Or.inl hh)
      · by_contra hh; exact h (Or.inr hh)
    exact ⟨rfl, rfl, rfl, by simp, h'.1, h'.2⟩

theorem doupdate_loop_total {T : Type} (be : Backend T) (c : Nat) (hk : be.keepsLineCount) :
    ∀ (n : Nat) (i : Int) (s : State T), 0 ≤ i → i + n ≤ (s.mem c)._firstch.length →
    ∃ s', doupdate_loop be c n i s = some s' := by
  intro n
  induction n with
  | zero => intro i s _ _; exact ⟨s, rfl⟩
  | succ n ih =>
    intro i s h0 h1
    obtain ⟨f, hf⟩ := rd_isSome_of_bounds (s.mem c)._firstch i h0 (by push_cast at h1; omega)
    simp only [doupdate_loop, Option.bind_eq_bind, hf, Option.some_bind, Option.pure_def]
    by_cases hfn : f = _NO_CHANGE
    · rw [if_neg (by simpa using hfn)]
      exact ih _ _ (by omega) (by push_cast at h1; omega)
    · rw [if_pos hfn]
      by_cases hb : (call_transform_line be c i s).1 = true
      · rw [if_pos hb]; exact ⟨_, rfl⟩
      · rw [if_neg hb]
        apply ih _ _ (by omega)
        rw [(call_transform_line_spec be c i s).2.2.2.2.1, hk]
        push_cast at h1
        omega

theorem doupdate_prologue_lines {T : Type} (be : Backend T) (s s1 : State T)
    (hk : ∀ (t : T) (sp : SCREEN), (be.reset_prog_mode t sp).2.lines = sp.lines)
    (h : doupdate_prologue be s = some s1) :
    s1.SP.lines = s.SP.lines ∧ ∀ q, (s1.mem q)._firstch = (s.mem q)._firstch := by
  unfold doupdate_prologue at h
  simp only [Option.bind_eq_bind, Option.pure_def, Option.bind_eq_some, Option.some.injEq] at h
  obtain ⟨s0, h0, rfl⟩ := h
  have key : s0.SP.lines = s.SP.lines ∧ ∀ q, (s0.mem q)._firstch = (s.mem q)._firstch := by
    split at h0
    · unfold doupdate_wakeup at h0
      simp only [Option.bind_eq_bind, Option.pure_def, Option.bind_eq_some,
        Option.some.injEq] at h0
      obtain ⟨c, _, rfl⟩ := h0
      refine ⟨hk _ _, ?_⟩
      intro q
      show (store s.mem c ((s.mem c).set_clear true) q)._firstch = _
      simp only [store_apply]
      split_ifs with hq
      · subst hq; simp
      · rfl
    · simp only [Option.some.injEq] at h0
      subst h0
      exact ⟨rfl, fun _ => rfl⟩
  split
  · exact ⟨(hk _ _).trans key.1, key.2⟩
  · exact key

theorem doupdate_completes {T : Type} (be : Backend T) (s : State T) (c : Nat)
    (hc : s.curscr = some c) (hk : be.keepsGeometry)
    (hlines : s.SP.lines ≤ (s.mem c)._firstch.length) :
    ∃ s', doupdate be s = some (OK, s') := by
  obtain ⟨s1, h1⟩ := doupdate_prologue_total be s (Or.inr ⟨c, hc⟩)
  obtain ⟨p1, _⟩ := doupdate_prologue_spec be s s1 h1
  obtain ⟨l1, l2⟩ := doupdate_prologue_lines be s s1 hk.2 h1
  have hflush : ∃ s2, doupdate_flush be c s1 = some s2 := by
    unfold doupdate_flush
    split
    · exact ⟨_, rfl⟩
    · apply doupdate_loop_total be c hk.1 _ _ _ (le_refl _)
      rw [l2 c, l1]
      omega
  obtain ⟨s2, h2⟩ := hflush
  exact ⟨_, (doupdate_eq_some be s _ OK).mpr
    ⟨s1, h1, Or.inr ⟨c, s2, p1.trans hc, h2, rfl, rfl⟩⟩⟩

/-- C6: when the physical image exists and its full-redraw flag is set when
`doupdate` reaches the dispatch (the flag is set on entry, or `isendwin()`
holds and `doupdate` sets it), `doupdate` returns `OK` and, among the backend
calls it makes, `PDC_clr_update` occurs exactly once and `PDC_transform_line`
not at all, whatever the damage of the rows. -/
theorem doupdate_full_redraw {T : Type} (be : Backend T) (s : State T) (c : Nat)
    (hc : s.curscr = some c)
    (hclear : be.isendwin s.term s.SP = true ∨ (s.mem c)._clear = true) :
    ∃ s' new, doupdate be s = some (OK, s') ∧ s'.calls = s.calls ++ new ∧
      new.count Call.clr_update = 1 ∧ ∀ i b, Call.transform_line i b ∉ new := by
  obtain ⟨s1, h1⟩ := doupdate_prologue_total be s (Or.inr ⟨c, hc⟩)
  obtain ⟨p1, _, ⟨pre, p3, p4⟩, p5, p6⟩ := doupdate_prologue_spec be s s1 h1
  have hc1 : s1.curscr = some c := p1.trans hc
  have hfl : (s1.mem c)._clear = true := by
    by_cases he : be.isendwin s.term s.SP = true
    · obtain ⟨c', hc', hm⟩ := p6 he
      rw [hc] at hc'
      have hcc := Option.some.inj hc'
      subst hcc
      rw [hm, store_same]
      simp
    · have he' : be.isendwin s.term s.SP = false := by simpa using he
      rw [p5 he']
      rcases hclear with h | h
      · exact absurd h he
      · exact h
  have hflush : doupdate_flush be c s1 = some (call_clr_update be c s1) := by
    unfold doupdate_flush
    rw [if_pos hfl]
  obtain ⟨_, _, _, q4, _, _⟩ := doupdate_cursor_spec be c (call_clr_update be c s1)
  generalize hpost : (if (call_clr_update be c s1).SP.cursrow ≠ ((call_clr_update be c s1).mem c)._cury ∨
      (call_clr_update be c s1).SP.curscol ≠ ((call_clr_update be c s1).mem c)._curx then
      [Call.gotoxy ((call_clr_update be c s1).mem c)._cury ((call_clr_update be c s1).mem c)._curx]
    else []) = post at q4
  have hpost' : ∀ x ∈ post, ∃ y x', x = Call.gotoxy y x' := by
    intro x hx
    rw [← hpost] at hx
    split at hx
    · simp only [List.mem_singleton] at hx
      exact ⟨_, _, hx⟩
    · simp at hx
  refine ⟨doupdate_cursor be c (call_clr_update be c s1), pre ++ ([Call.clr_update] ++ post),
    (doupdate_eq_some be s _ OK).mpr ⟨s1, h1, Or.inr ⟨c, _, hc1, hflush, rfl, rfl⟩⟩, ?_, ?_, ?_⟩
  · rw [q4]
    show (s1.calls ++ [Call.clr_update]) ++ _ = _
    rw [p3, List.append_assoc, List.append_assoc]
  · have hpre : pre.count Call.clr_update = 0 := by
      apply List.count_eq_zero.mpr
      intro hx
      have := p4 _ hx
      cases this
    have hpo : post.count Call.clr_update = 0 := by
      apply List.count_eq_zero.mpr
      intro hx
      obtain ⟨y, x', e⟩ := hpost' _ hx
      cases e
    rw [List.count_append, List.count_append, hpre, hpo]
    simp
  · intro i b hx
    rcases List.mem_append.mp hx with hx | hx
    · have := p4 _ hx
      cases this
    · rcases List.mem_append.mp hx with hx | hx
      · simp at hx
      · obtain ⟨y, x', e⟩ := hpost' _ hx
        cases e

/-- Instance of `doupdate_full_redraw`: with the flag of the physical image set, `doupdate`
makes the calls `PDC_clr_update()` and `PDC_gotoxy(3, 5)` and no other. -/
theorem doupdate_full_redraw_witness :
    (∃ s' new, doupdate demoBackend clearState = some (OK, s') ∧
      s'.calls = clearState.calls ++ new ∧
      new.count Call.clr_update = 1 ∧ ∀ i b, Call.transform_line i b ∉ new) ∧
    (doupdate demoBackend clearState).map (fun r => r.2.calls) =
      some [Call.clr_update, Call.gotoxy 3 5] :=
  ⟨doupdate_full_redraw demoBackend clearState 0 rfl (Or.inr (by decide)), by decide⟩

theorem demoBackend_keepsGeometry : demoBackend.keepsGeometry := by
  refine ⟨?_, fun _ _ => rfl⟩
  intro i t w
  show (if 0 ≤ i then _ else w)._firstch.length = _
  split
  · show (w._firstch.set i.toNat _NO_CHANGE).length = _
    simp
  · rfl

theorem demoBackend_leavesLaterRows : demoBackend.leavesLaterRows := by
  intro i t w _ k hk
  show rd (if 0 ≤ i then _ else w)._firstch k = _
  split
  · rename_i h0
    show rd (w._firstch.set i.toNat _NO_CHANGE) k = _
    unfold rd
    by_cases hk0 : 0 ≤ k
    · simp only [hk0, if_true]
      rw [List.getElem?_set_ne (by omega)]
    · simp [hk0]
  · rfl

/-- C7: when the full-redraw flag is not set (it is clear on entry and
`isendwin()` does not hold), `doupdate` returns `OK` (it completes when the
backend keeps the geometry of the screen and the physical image has
`SP->lines` rows), and a call that returns makes, between
the mode resets of its start and the cursor move of its end, only line
transforms and never the full redraw: their rows are strictly increasing and
lie in `0 .. lines-1`, and a call that reports an early stop is the last one
(no later row is transformed).  Provided a transform that reports no early
stop leaves the markers of the rows below alone, the rows transformed are rows
that had a damage span, every damaged row up to the row of an early stop is
among them, and if no call reports an early stop every damaged row is
transformed exactly once. -/
theorem doupdate_line_scan {T : Type} (be : Backend T) (s : State T) (c : Nat)
    (hc : s.curscr = some c) (hend : be.isendwin s.term s.SP = false)
    (hclear : (s.mem c)._clear = false) :
    (be.keepsGeometry → s.SP.lines ≤ (s.mem c)._firstch.length →
      ∃ s', doupdate be s = some (OK, s')) ∧
    ∀ (rc : Int) (s' : State T), doupdate be s = some (rc, s') →
    ∃ (pre post : List Call) (L : List (Int × Bool)) (s1 : State T),
      doupdate_prologue be s = some s1 ∧ rc = OK ∧
      s'.calls = s.calls ++ (pre ++ (L.map transformCall ++ post)) ∧
      (∀ x ∈ pre, x = Call.reset_prog_mode) ∧ (∀ x ∈ post, ∃ y x', x = Call.gotoxy y x') ∧
      Call.clr_update ∉ pre ++ (L.map transformCall ++ post) ∧
      List.Pairwise (fun a b => a < b) (L.map Prod.fst) ∧
      (∀ x ∈ L, 0 ≤ x.1 ∧ x.1 < s1.SP.lines) ∧
      (∀ x ∈ L, x.2 = true → ∀ y ∈ L, y.1 ≤ x.1) ∧
      (be.leavesLaterRows →
        (∀ x ∈ L, damaged (s.mem c) x.1) ∧
        (∀ k : Int, 0 ≤ k → k < s1.SP.lines → damaged (s.mem c) k →
          (∀ x ∈ L, x.2 = true → k ≤ x.1) → k ∈ L.map Prod.fst) ∧
        ((∀ x ∈ L, x.2 = false) → ∀ k : Int, 0 ≤ k → k < s1.SP.lines → damaged (s.mem c) k →
          (L.map Prod.fst).count k = 1)) := by
  refine ⟨fun hk hl => doupdate_completes be s c hc hk hl, ?_⟩
  intro rc s' h
  obtain ⟨s1, h1, hcase⟩ := (doupdate_eq_some be s s' rc).mp h
  obtain ⟨p1, _, ⟨pre, p3, p4⟩, p5, _⟩ := doupdate_prologue_spec be s s1 h1
  have hc1 : s1.curscr = some c := p1.trans hc
  have hmem : s1.mem = s.mem := p5 hend
  rcases hcase with ⟨hnone, _, _⟩ | ⟨c', s2, hc', hflush, hrc, hs'⟩
  · rw [hc1] at hnone; cases hnone
  · rw [hc1] at hc'
    have hcc := Option.some.inj hc'
    subst hcc
    have hfl : ¬ ((s1.mem c)._clear = true) := by rw [hmem, hclear]; simp
    unfold doupdate_flush at hflush
    rw [if_neg hfl] at hflush
    obtain ⟨_, _, _, _, L, hL, hP, hB, hM, hD⟩ := doupdate_loop_spec be c _ _ _ _ hflush
    obtain ⟨_, _, _, q4, _, _⟩ := doupdate_cursor_spec be c s2
    generalize hpost : (if s2.SP.cursrow ≠ (s2.mem c)._cury ∨ s2.SP.curscol ≠ (s2.mem c)._curx then
        [Call.gotoxy (s2.mem c)._cury (s2.mem c)._curx] else []) = post at q4
    have hpost' : ∀ x ∈ post, ∃ y x', x = Call.gotoxy y x' := by
      intro x hx
      rw [← hpost] at hx
      split at hx
      · simp only [List.mem_singleton] at hx
        exact ⟨_, _, hx⟩
      · simp at hx
    have hB' : ∀ x ∈ L, 0 ≤ x.1 ∧ x.1 < s1.SP.lines := by
      intro x hx
      have := hB x hx
      omega
    refine ⟨pre, post, L, s1, h1, hrc, ?_, p4, hpost', ?_, hP, hB', hM, ?_⟩
    · rw [hs', q4, hL, p3]
      simp [List.append_assoc]
    · intro hx
      rcases List.mem_append.mp hx with hx | hx
      · have := p4 _ hx; cases this
      · rcases List.mem_append.mp hx with hx | hx
        · obtain ⟨x, _, e⟩ := List.mem_map.mp hx
          cases e
        · obtain ⟨y, x', e⟩ := hpost' _ hx
          cases e
    · intro hfr
      obtain ⟨d1, d2⟩ := hD hfr
      rw [hmem] at d1 d2
      have d2' : ∀ k : Int, 0 ≤ k → k < s1.SP.lines → damaged (s.mem c) k →
          (∀ x ∈ L, x.2 = true → k ≤ x.1) → k ∈ L.map Prod.fst := by
        intro k hk0 hk1 hkd hkt
        exact d2 k hk0 (by omega) hkd hkt
      refine ⟨d1, d2', ?_⟩
      intro hall k hk0 hk1 hkd
      have hmemk := d2' k hk0 hk1 hkd (fun x hx hxt => by rw [hall x hx] at hxt; cases hxt)
      have hnd : (L.map Prod.fst).Nodup := hP.imp (fun hab => ne_of_lt hab)
      exact List.count_eq_one_of_mem hnd hmemk

/-- Instance of `doupdate_line_scan`: with only row 2 damaged on the 24-row image,
`doupdate` makes exactly one backend call, `PDC_transform_line(2)`; the rows
transformed are damaged rows and every damaged row is among them. -/
theorem doupdate_line_scan_witness :
    (doupdate demoBackend dirtyState).map (fun r => (r.1, r.2.calls)) =
      some (OK, [Call.transform_line 2 false]) ∧
    ∃ (s' : State Unit) (pre post : List Call) (L : List (Int × Bool)) (s1 : State Unit),
      doupdate demoBackend dirtyState = some (OK, s') ∧
      doupdate_prologue demoBackend dirtyState = some s1 ∧
      s'.calls = dirtyState.calls ++ (pre ++ (L.map transformCall ++ post)) ∧
      Call.clr_update ∉ pre ++ (L.map transformCall ++ post) ∧
      List.Pairwise (fun a b => a < b) (L.map Prod.fst) ∧
      (∀ x ∈ L, 0 ≤ x.1 ∧ x.1 < s1.SP.lines) ∧
      (∀ x ∈ L, damaged (dirtyState.mem 0) x.1) ∧
      (∀ k : Int, 0 ≤ k → k < s1.SP.lines → damaged (dirtyState.mem 0) k →
        (∀ x ∈ L, x.2 = true → k ≤ x.1) → k ∈ L.map Prod.fst) := by
  refine ⟨by decide, ?_⟩
  obtain ⟨s', hs⟩ := (doupdate_line_scan demoBackend dirtyState 0 rfl (by decide) (by decide)).1
    demoBackend_keepsGeometry (by decide)
  obtain ⟨pre, post, L, s1, h1, _, h3, _, _, h6, h7, h8, _, hfr⟩ :=
    (doupdate_line_scan demoBackend dirtyState 0 rfl (by decide) (by decide)).2 OK s' hs
  obtain ⟨d1, d2, _⟩ := hfr demoBackend_leavesLaterRows
  exact ⟨s', pre, post, L, s1, hs, h1, h3, h6, h7, h8, d1, d2⟩

theorem doupdate_prologue_cursor {T : Type} (be : Backend T) (s s1 : State T) (c : Nat)
    (hk : be.keepsCursor) (h : doupdate_prologue be s = some s1) :
    s1.SP.cursrow = s.SP.cursrow ∧ s1.SP.curscol = s.SP.curscol ∧
    (s1.mem c)._cury = (s.mem c)._cury ∧ (s1.mem c)._curx = (s.mem c)._curx := by
  unfold doupdate_prologue at h
  simp only [Option.bind_eq_bind, Option.pure_def, Option.bind_eq_some, Option.some.injEq] at h
  obtain ⟨s0, h0, rfl⟩ := h
  have key : s0.SP.cursrow = s.SP.cursrow ∧ s0.SP.curscol = s.SP.curscol ∧
      (s0.mem c)._cury = (s.mem c)._cury ∧ (s0.mem c)._curx = (s.mem c)._curx := by
    split at h0
    · unfold doupdate_wakeup at h0
      simp only [Option.bind_eq_bind, Option.pure_def, Option.bind_eq_some,
        Option.some.injEq] at h0
      obtain ⟨c', _, rfl⟩ := h0
      refine ⟨(hk.1 _ _).1, (hk.1 _ _).2, ?_, ?_⟩
      · show (store s.mem c' ((s.mem c').set_clear true) c)._cury = _
        simp only [store_apply]
        split_ifs with hq
        · subst hq; simp
        · rfl
      · show (store s.mem c' ((s.mem c').set_clear true) c)._curx = _
        simp only [store_apply]
        split_ifs with hq
        · subst hq; simp
        · rfl
    · simp only [Option.some.injEq] at h0
      subst h0
      exact ⟨rfl, rfl, rfl, rfl⟩
  split
  · exact ⟨((hk.1 _ _).1).trans key.1, ((hk.1 _ _).2).trans key.2.1, key.2.2.1, key.2.2.2⟩
  · exact key

theorem doupdate_loop_cursor {T : Type} (be : Backend T) (c : Nat) (hk : be.keepsCursor) :
    ∀ (n : Nat) (i : Int) (s s' : State T), doupdate_loop be c n i s = some s' →
    (s'.mem c)._cury = (s.mem c)._cury ∧ (s'.mem c)._curx = (s.mem c)._curx := by
  intro n
  induction n with
  | zero =>
    intro i s s' h
    simp only [doupdate_loop, Option.some.injEq] at h
    subst h
    exact ⟨rfl, rfl⟩
  | succ n ih =>
    intro i s s' h
    simp only [doupdate_loop, Option.bind_eq_bind, Option.pure_def, Option.bind_eq_some] at h
    obtain ⟨f, _, h⟩ := h
    have hcall : ((call_transform_line be c i s).2.mem c)._cury = (s.mem c)._cury ∧
        ((call_transform_line be c i s).2.mem c)._curx = (s.mem c)._curx := by
      rw [(call_transform_line_spec be c i s).2.2.2.2.1]
      exact hk.2.2 _ _ _
    split at h
    · split at h
      · simp only [Option.some.injEq] at h
        subst h
        exact hcall
      · obtain ⟨e1, e2⟩ := ih _ _ _ h
        exact ⟨e1.trans hcall.1, e2.trans hcall.2⟩
    · exact ih _ _ _ h

theorem doupdate_flush_cursor {T : Type} (be : Backend T) (c : Nat) (hk : be.keepsCursor)
    (s s' : State T) (h : doupdate_flush be c s = some s') :
    s'.SP = s.SP ∧ (s'.mem c)._cury = (s.mem c)._cury ∧ (s'.mem c)._curx = (s.mem c)._curx := by
  unfold doupdate_flush at h
  split at h
  · simp only [Option.some.injEq] at h
    subst h
    refine ⟨rfl, ?_, ?_⟩
    · show (store s.mem c (be.PDC_clr_update s.term (s.mem c)).2 c)._cury = _
      rw [store_same]; exact (hk.2.1 _ _).1
    · show (store s.mem c (be.PDC_clr_update s.term (s.mem c)).2 c)._curx = _
      rw [store_same]; exact (hk.2.1 _ _).2
  · obtain ⟨_, _, e3, _⟩ := doupdate_loop_spec be c _ _ _ _ h
    obtain ⟨e1, e2⟩ := doupdate_loop_cursor be c hk _ _ _ _ h
    exact ⟨e3, e1, e2⟩

theorem demoBackend_keepsCursor : demoBackend.keepsCursor := by
  refine ⟨fun _ _ => ⟨rfl, rfl⟩, fun _ _ => ⟨rfl, rfl⟩, ?_⟩
  intro i t w
  show (if 0 ≤ i then _ else w)._cury = _ ∧ (if 0 ≤ i then _ else w)._curx = _
  split <;> exact ⟨rfl, rfl⟩

/-- C8: in a call of `doupdate` that returns `OK`, let `s2` be the state when
the content has been flushed.  `PDC_gotoxy` is not called during the flush; it
is called after it, once, with the cursor `(_cury, _curx)` of the physical
image, exactly when that cursor differs from `(SP->cursrow, SP->curscol)` in
`s2`; and on return `(SP->cursrow, SP->curscol)` equals the cursor of the
physical image.  When the backend leaves the cursors alone, the two cursors in
`s2` are those on entry, so the call is made exactly when they differ on
entry. -/
theorem doupdate_cursor_move {T : Type} (be : Backend T) (s s' : State T)
    (h : doupdate be s = some (OK, s')) :
    ∃ (c : Nat) (s1 s2 : State T) (flushed : List Call),
      s.curscr = some c ∧ doupdate_prologue be s = some s1 ∧ doupdate_flush be c s1 = some s2 ∧
      s2.calls = s.calls ++ flushed ∧ (∀ y x, Call.gotoxy y x ∉ flushed) ∧
      s'.calls = s2.calls ++
        (if s2.SP.cursrow ≠ (s2.mem c)._cury ∨ s2.SP.curscol ≠ (s2.mem c)._curx then
          [Call.gotoxy (s2.mem c)._cury (s2.mem c)._curx] else []) ∧
      s'.mem = s2.mem ∧
      s'.SP.cursrow = (s'.mem c)._cury ∧ s'.SP.curscol = (s'.mem c)._curx ∧
      (be.keepsCursor →
        s2.SP.cursrow = s.SP.cursrow ∧ s2.SP.curscol = s.SP.curscol ∧
        (s2.mem c)._cury = (s.mem c)._cury ∧ (s2.mem c)._curx = (s.mem c)._curx ∧
        (s'.calls = s.calls ++ flushed ++
          (if s.SP.cursrow ≠ (s.mem c)._cury ∨ s.SP.curscol ≠ (s.mem c)._curx then
            [Call.gotoxy (s.mem c)._cury (s.mem c)._curx] else []))) := by
  obtain ⟨s1, h1, hcase⟩ := (doupdate_eq_some be s s' OK).mp h
  obtain ⟨p1, _, ⟨pre, p3, p4⟩, _, _⟩ := doupdate_prologue_spec be s s1 h1
  rcases hcase with ⟨_, hbad, _⟩ | ⟨c, s2, hc1, hflush, _, hs'⟩
  · exact absurd hbad OK_ne_ERR
  · obtain ⟨q1, _, _, q4, q5, q6⟩ := doupdate_cursor_spec be c s2
    have hfl : ∃ mid, s2.calls = s1.calls ++ mid ∧ ∀ y x, Call.gotoxy y x ∉ mid := by
      unfold doupdate_flush at hflush
      split at hflush
      · simp only [Option.some.injEq] at hflush
        subst hflush
        exact ⟨[Call.clr_update], rfl, by simp⟩
      · obtain ⟨_, _, _, _, L, hL, _⟩ := doupdate_loop_spec be c _ _ _ _ hflush
        refine ⟨L.map transformCall, hL, ?_⟩
        intro y x hx
        obtain ⟨a, _, e⟩ := List.mem_map.mp hx
        cases e
    obtain ⟨mid, hmid, hmid'⟩ := hfl
    have hcalls2 : s2.calls = s.calls ++ (pre ++ mid) := by
      rw [hmid, p3, List.append_assoc]
    refine ⟨c, s1, s2, pre ++ mid, hc1.symm.trans p1 |>.symm, h1, hflush, hcalls2, ?_, ?_, ?_, ?_,
      ?_, ?_⟩
    · intro y x hx
      rcases List.mem_append.mp hx with hx | hx
      · have := p4 _ hx; cases this
      · exact hmid' y x hx
    · rw [hs', q4]
    · rw [hs', q1]
    · rw [hs', q5, q1]
    · rw [hs', q6, q1]
    · intro hk
      obtain ⟨a1, a2, a3, a4⟩ := doupdate_prologue_cursor be s s1 c hk h1
      obtain ⟨b1, b2, b3⟩ := doupdate_flush_cursor be c hk s1 s2 hflush
      have e1 : s2.SP.cursrow = s.SP.cursrow := by rw [b1]; exact a1
      have e2 : s2.SP.curscol = s.SP.curscol := by rw [b1]; exact a2
      have e3 : (s2.mem c)._cury = (s.mem c)._cury := b2.trans a3
      have e4 : (s2.mem c)._curx = (s.mem c)._curx := b3.trans a4
      refine ⟨e1, e2, e3, e4, ?_⟩
      rw [hs', q4, hcalls2, e1, e2, e3, e4]

/-- Instance of `doupdate_cursor_move`: with the cursor of the physical image at `(3, 5)` and
the last flushed cursor at `(0, 0)`, `doupdate` ends with the call
`PDC_gotoxy(3, 5)` and leaves `(SP->cursrow, SP->curscol) = (3, 5)`; a second
`doupdate` makes no cursor move (nor any other call). -/
theorem doupdate_cursor_move_witness :
    (doupdate demoBackend clearState).map (fun r => (r.1, r.2.calls, r.2.SP.cursrow,
        r.2.SP.curscol)) = some (OK, [Call.clr_update, Call.gotoxy 3 5], 3, 5) ∧
    ((doupdate demoBackend clearState).bind (fun r => doupdate demoBackend r.2)).map
        (fun r => (r.1, r.2.calls)) = some (OK, [Call.clr_update, Call.gotoxy 3 5]) ∧
    ∃ (s' : State Unit) (flushed : List Call),
      doupdate demoBackend clearState = some (OK, s') ∧
      (∀ y x, Call.gotoxy y x ∉ flushed) ∧
      s'.calls = clearState.calls ++ flushed ++
        (if clearState.SP.cursrow ≠ (clearState.mem 0)._cury ∨
            clearState.SP.curscol ≠ (clearState.mem 0)._curx then
          [Call.gotoxy (clearState.mem 0)._cury (clearState.mem 0)._curx] else []) ∧
      s'.SP.cursrow = (s'.mem 0)._cury ∧ s'.SP.curscol = (s'.mem 0)._curx := by
  refine ⟨by decide, by decide, ?_⟩
  obtain ⟨s', hs⟩ := exists_of_map_fst
    (by decide : (doupdate demoBackend clearState).map Prod.fst = some OK)
  obtain ⟨c, s1, s2, flushed, hc, _, _, _, h5, _, _, h8, h9, hk⟩ :=
    doupdate_cursor_move demoBackend clearState s' hs
  have hc0 : c = 0 := by
    have e : clearState.curscr = some 0 := rfl
    rw [e] at hc
    exact (Option.some.inj hc).symm
  subst hc0
  obtain ⟨_, _, _, _, h10⟩ := hk demoBackend_keepsCursor
  exact ⟨s', flushed, hs, h5, h10, h8, h9⟩

/-! ## The pad flags -/

theorem testBit_48 (i : Nat) : (48 : Nat).testBit i = (decide (i = 4) || decide (i = 5)) := by
  by_cases h : i < 6
  · interval_cases i <;> decide
  · have h1 : (48 : Nat) < 2 ^ i := by
      calc (48 : Nat) < 2 ^ 6 := by norm_num
        _ ≤ 2 ^ i := Nat.pow_le_pow_right (by norm_num) (by omega)
    rw [Nat.testBit_lt_two_pow h1]
    have h4 : i ≠ 4 := by omega
    have h5 : i ≠ 5 := by omega
    simp [h4, h5]

theorem isPad_iff (w : WINDOW) :
    isPad w = true ↔ (w._flags.testBit 4 = true ∨ w._flags.testBit 5 = true) := by
  unfold isPad
  have e : (_PAD ||| _SUBPAD : Nat) = 48 := by decide
  rw [e]
  simp only [bne_iff_ne, ne_eq]
  constructor
  · intro h
    by_contra hc
    push_neg at hc
    apply h
    apply Nat.eq_of_testBit_eq
    intro i
    rw [Nat.testBit_and, testBit_48]
    by_cases h4 : i = 4
    · subst h4; simp [hc.1]
    · by_cases h5 : i = 5
      · subst h5; simp [hc.2]
      · simp [h4, h5]
  · intro h hz
    have h4 : (w._flags &&& 48).testBit 4 = false := by rw [hz]; simp
    have h5 : (w._flags &&& 48).testBit 5 = false := by rw [hz]; simp
    rw [Nat.testBit_and, testBit_48] at h4 h5
    simp at h4 h5
    rcases h with h | h
    · rw [h] at h4; cases h4
    · rw [h] at h5; cases h5

/-! ## `doupdate` and `wrefresh` complete -/

theorem wnoutrefresh_loop_lens (win : Nat) (cur : Option Nat) (begx : Int) :
    ∀ (n : Nat) (i j : Int) (m m' : Mem),
    wnoutrefresh_loop win cur begx n i j m = some m' →
    ∀ q, (m' q).lens = (m q).lens := by
  intro n
  induction n with
  | zero =>
    intro i j m m' h q
    simp only [wnoutrefresh_loop, Option.some.injEq] at h
    rw [h]
  | succ n ih =>
    intro i j m m' h q
    simp only [wnoutrefresh_loop, Option.bind_eq_bind, Option.bind_eq_some] at h
    obtain ⟨m1, h1, h2⟩ := h
    rw [ih _ _ _ _ h2 q, wnoutrefresh_row_lens _ _ _ _ _ _ _ h1 q]

theorem wnoutrefresh_frame {T : Type} (s s' : State T) (p : Nat) (rc : Int)
    (h : wnoutrefresh (some p) s = some (rc, s')) :
    s'.curscr = s.curscr ∧ s'.stdscr = s.stdscr ∧ s'.SP = s.SP ∧ s'.term = s.term ∧
    s'.calls = s.calls ∧ ∀ q, (s'.mem q)._firstch.length = (s.mem q)._firstch.length := by
  rcases (wnoutrefresh_eq_some s s' p rc).mp h with ⟨_, _, rfl⟩ | ⟨_, _, m1, m2, h1, h2, rfl⟩
  · exact ⟨rfl, rfl, rfl, rfl, rfl, fun _ => rfl⟩
  · refine ⟨rfl, rfl, rfl, rfl, rfl, ?_⟩
    intro q
    have e1 := wnoutrefresh_loop_lens _ _ _ _ _ _ _ _ h1 q
    have e2 := (wnoutrefresh_tail_arrays _ _ _ _ _ _ h2 q).2.1
    simp only [WINDOW.lens, Prod.mk.injEq] at e1
    show (m2 q)._firstch.length = _
    rw [e2, e1.1]

theorem wrefresh_eq_some {T : Type} (be : Backend T) (s s' : State T) (p : Nat) (rc : Int) :
    wrefresh be (some p) s = some (rc, s') ↔
    (isPad (s.mem p) = true ∧ rc = ERR ∧ s' = s) ∨
    (isPad (s.mem p) = false ∧ rc = OK ∧ ∃ sa sb r,
      (if some p = s.curscr then
          some { s with mem := store s.mem p ((s.mem p).set_clear true) }
        else (wnoutrefresh (some p) s).map Prod.snd) = some sa ∧
      (if (s.mem p)._clear = true ∧ (sa.mem p)._maxy = sa.SP.lines ∧
            (sa.mem p)._maxx = sa.SP.cols then
          sa.curscr.map (fun c => { sa with mem := store sa.mem c ((sa.mem c).set_clear true) })
        else some sa) = some sb ∧
      doupdate be sb = some (r, s')) := by
  unfold wrefresh
  simp only
  split
  · rename_i hp
    simp only [Option.some.injEq, Prod.mk.injEq, hp, true_and, false_and, or_false,
      Bool.true_eq_false]
    constructor
    · rintro ⟨rfl, rfl⟩; exact ⟨rfl, rfl⟩
    · rintro ⟨rfl, rfl⟩; exact ⟨rfl, rfl⟩
  · rename_i hp
    simp only [Bool.not_eq_true] at hp
    simp only [hp, Bool.false_eq_true, false_and, false_or, true_and, Option.bind_eq_bind,
      Option.pure_def, Option.bind_eq_some, Option.some.injEq, Prod.mk.injEq]
    constructor
    · rintro ⟨sa, hsa, sb, hsb, r, hr, rfl, rfl⟩
      refine ⟨rfl, sa, sb, r.1, ?_, ?_, hr⟩
      · split at hsa
        · rename_i hpc
          rw [if_pos hpc]; exact hsa
        · rename_i hpc
          rw [if_neg hpc]
          simp only [Option.bind_eq_some, Option.some.injEq] at hsa
          obtain ⟨r0, hr0, rfl⟩ := hsa
          rw [hr0]; rfl
      · split at hsb
        · rename_i hcond
          rw [if_pos hcond]
          simp only [Option.bind_eq_some, Option.some.injEq] at hsb
          obtain ⟨c, hc, rfl⟩ := hsb
          rw [hc]; rfl
        · rename_i hcond
          rw [if_neg hcond]; exact hsb
    · rintro ⟨rfl, sa, sb, r, hsa, hsb, hr⟩
      refine ⟨sa, ?_, sb, ?_, (r, s'), hr, rfl, rfl⟩
      · split at hsa
        · rename_i hpc
          rw [if_pos hpc]; exact hsa
        · rename_i hpc
          rw [if_neg hpc]
          simp only [Option.map_eq_some', Prod.exists, exists_eq_right] at hsa
          obtain ⟨r0, hr0⟩ := hsa
          simp only [Option.bind_eq_some, Option.some.injEq]
          exact ⟨(r0, sa), hr0, rfl⟩
      · split at hsb
        · rename_i hcond
          rw [if_pos hcond]
          simp only [Option.map_eq_some'] at hsb
          obtain ⟨c, hc, rfl⟩ := hsb
          simp only [Option.bind_eq_some, Option.some.injEq]
          exact ⟨c, hc, rfl⟩
        · rename_i hcond
          rw [if_neg hcond]; exact hsb

theorem wrefresh_completes {T : Type} (be : Backend T) (s : State T) (p c : Nat)
    (hc : s.curscr = some c) (hpad : isPad (s.mem p) = false)
    (hready : p ≠ c → mergeReady (s.mem p) (s.mem c)) (hk : be.keepsGeometry)
    (hlines : s.SP.lines ≤ (s.mem c)._firstch.length) :
    ∃ s', wrefresh be (some p) s = some (OK, s') := by
  have hsa : ∃ sa, (if some p = s.curscr then
        some { s with mem := store s.mem p ((s.mem p).set_clear true) }
      else (wnoutrefresh (some p) s).map Prod.snd) = some sa ∧
      sa.curscr = some c ∧ sa.SP = s.SP ∧
      (sa.mem c)._firstch.length = (s.mem c)._firstch.length := by
    by_cases hpc : p = c
    · subst hpc
      rw [if_pos hc.symm]
      refine ⟨_, rfl, hc, rfl, ?_⟩
      simp [store_same]
    · have hne : ¬ (some p = s.curscr) := by
        rw [hc]; intro e; exact hpc (Option.some.inj e)
      rw [if_neg hne]
      obtain ⟨sa, hsa⟩ := wnoutrefresh_completes s p c hc hpad (hready hpc)
      obtain ⟨f1, _, f3, _, _, f6⟩ := wnoutrefresh_frame s sa p OK hsa
      exact ⟨sa, by rw [hsa]; rfl, f1.trans hc, f3, f6 c⟩
  obtain ⟨sa, hsa, a1, a2, a3⟩ := hsa
  have hsb : ∃ sb, (if (s.mem p)._clear = true ∧ (sa.mem p)._maxy = sa.SP.lines ∧
          (sa.mem p)._maxx = sa.SP.cols then
        sa.curscr.map (fun c => { sa with mem := store sa.mem c ((sa.mem c).set_clear true) })
      else some sa) = some sb ∧
      sb.curscr = some c ∧ sb.SP = s.SP ∧
      (sb.mem c)._firstch.length = (s.mem c)._firstch.length := by
    split
    · rw [a1]
      refine ⟨_, rfl, rfl, a2, ?_⟩
      simp [store_same, a3]
    · exact ⟨sa, rfl, a1, a2, a3⟩
  obtain ⟨sb, hsb, b1, b2, b3⟩ := hsb
  obtain ⟨s', hs'⟩ := doupdate_completes be sb c b1 hk (by rw [b2, b3]; exact hlines)
  exact ⟨s', (wrefresh_eq_some be s s' p OK).mpr (Or.inr ⟨hpad, rfl, sa, sb, OK, hsa, hsb, hs'⟩)⟩

/-- C4: `wnoutrefresh` and `wrefresh` return `ERR` when the window is null or
has the `_PAD` or `_SUBPAD` flag set (bit 4 or bit 5 of `_flags`, which is what
`isPad` tests), and then the state is left as it was: the
physical image, the window, `SP` with its last flushed cursor, and the list of
backend calls.  In every other case a completed call returns `OK` (which
differs from `ERR`); and the calls complete when the physical image exists and
every access of the merge stays inside its array (for `wrefresh`, when in
addition the backend keeps the geometry of the screen and the physical image
has `SP->lines` rows). -/
theorem refresh_return_codes {T : Type} (be : Backend T) (s : State T) (win : Option Nat) :
    ((win = none ∨ ∃ p, win = some p ∧ isPad (s.mem p) = true) →
      wnoutrefresh win s = some (ERR, s) ∧ wrefresh be win s = some (ERR, s)) ∧
    (∀ p, win = some p → isPad (s.mem p) = false →
      (∀ rc s', wnoutrefresh win s = some (rc, s') → rc = OK) ∧
      (∀ rc s', wrefresh be win s = some (rc, s') → rc = OK) ∧
      (∀ c, s.curscr = some c → mergeReady (s.mem p) (s.mem c) →
        (∃ s', wnoutrefresh win s = some (OK, s')) ∧
        (be.keepsGeometry → s.SP.lines ≤ (s.mem c)._firstch.length →
          ∃ s', wrefresh be win s = some (OK, s')))) ∧
    (∀ w : WINDOW, isPad w = true ↔
      (w._flags.testBit 4 = true ∨ w._flags.testBit 5 = true)) ∧
    OK ≠ ERR := by
  refine ⟨?_, ?_, isPad_iff, OK_ne_ERR⟩
  · rintro (rfl | ⟨p, rfl, hp⟩)
    · exact ⟨rfl, rfl⟩
    · exact ⟨(wnoutrefresh_eq_some s s p ERR).mpr (Or.inl ⟨hp, rfl, rfl⟩),
        (wrefresh_eq_some be s s p ERR).mpr (Or.inl ⟨hp, rfl, rfl⟩)⟩
  · rintro p rfl hp
    refine ⟨?_, ?_, ?_⟩
    · intro rc s' h
      rcases (wnoutrefresh_eq_some s s' p rc).mp h with ⟨hp', _, _⟩ | ⟨_, hrc, _⟩
      · rw [hp] at hp'; cases hp'
      · exact hrc
    · intro rc s' h
      rcases (wrefresh_eq_some be s s' p rc).mp h with ⟨hp', _, _⟩ | ⟨_, hrc, _⟩
      · rw [hp] at hp'; cases hp'
      · exact hrc
    · intro c hc hready
      exact ⟨wnoutrefresh_completes s p c hc hp hready,
        fun hk hl => wrefresh_completes be s p c hc hp (fun _ => hready) hk hl⟩

/-- Instance of `refresh_return_codes`: a null window and a pad are rejected by both
routines with the session untouched; the window of the examples is accepted by
both. -/
theorem refresh_return_codes_witness :
    (wnoutrefresh none demoState = some (ERR, demoState) ∧
      wrefresh demoBackend none demoState = some (ERR, demoState)) ∧
    (wnoutrefresh (some 1) padState = some (ERR, padState) ∧
      wrefresh demoBackend (some 1) padState = some (ERR, padState)) ∧
    (∃ s', wnoutrefresh (some 1) demoState = some (OK, s')) ∧
    (∃ s', wrefresh demoBackend (some 1) demoState = some (OK, s')) :=
  ⟨(refresh_return_codes demoBackend demoState none).1 (Or.inl rfl),
   (refresh_return_codes demoBackend padState (some 1)).1 (Or.inr ⟨1, rfl, by decide⟩),
   (((refresh_return_codes demoBackend demoState (some 1)).2.1 1 rfl (by decide)).2.2 0 rfl
      (by decide)).1,
   (((refresh_return_codes demoBackend demoState (some 1)).2.1 1 rfl (by decide)).2.2 0 rfl
      (by decide)).2 demoBackend_keepsGeometry (by decide)⟩

/-! ## `wredrawln` with a negative start -/

/-- C11 (the code at the failing input): on the 5-row window of the examples,
`wredrawln(win, -3, 2)` passes the guard (`-3 > 5` and `-3 + 2 > 5` are both
false), so the call does not return `ERR`; the loop then stores to
`win->_firstch[-3]`, outside the array, and the call has no defined outcome. -/
theorem wredrawln_negative_start :
    (demoState.mem 1)._maxy = 5 ∧
    ¬ ((-3 : Int) > (demoState.mem 1)._maxy ∨ (-3 : Int) + 2 > (demoState.mem 1)._maxy) ∧
    wr (demoState.mem 1)._firstch (-3) 0 = none ∧
    (wredrawln_loop 1 ((-3 : Int) + 2 - (-3)).toNat (-3) demoState.mem).isNone = true ∧
    (wredrawln (some 1) (-3) 2 demoState).isNone = true ∧
    (wredrawln (some 1) (-3) 2 demoState).map Prod.fst ≠ some ERR := by
  refine ⟨?_, ?_, ?_, ?_, ?_, ?_⟩ <;> decide

/-! ## `doupdate` without a physical image -/

theorem doupdate_null_endwin {T : Type} (be : Backend T) (s : State T) (hc : s.curscr = none)
    (he : be.isendwin s.term s.SP = true) : doupdate be s = none := by
  have hw : doupdate_wakeup be s = none := by
    unfold doupdate_wakeup
    have hc' : (call_reset_prog_mode be s).curscr = none := hc
    simp [hc']
  unfold doupdate doupdate_prologue
  simp [he, hw]

/-- C17 (the code at the failing input): with `curscr` null and `isendwin()`
true, `doupdate` calls `reset_prog_mode()` and then stores to `curscr->_clear`
through the null pointer, before the test `curscr == NULL` is reached: the call
has no defined outcome instead of returning `ERR`.  With `curscr` null and
`isendwin()` false the test is reached: `ERR` is returned and no backend call is
made. -/
theorem doupdate_null_after_endwin :
    nullEndState.curscr = none ∧
    demoBackend.isendwin nullEndState.term nullEndState.SP = true ∧
    (doupdate_wakeup demoBackend nullEndState).isNone = true ∧
    (doupdate demoBackend nullEndState).isNone = true ∧
    (doupdate demoBackend nullEndState).map Prod.fst ≠ some ERR ∧
    (doupdate demoBackend nullState).map (fun r => (r.1, r.2.calls)) = some (ERR, []) := by
  refine ⟨rfl, ?_, ?_, ?_, ?_, ?_⟩
  · decide
  · decide
  · rw [doupdate_null_endwin demoBackend nullEndState rfl (by decide)]; rfl
  · rw [doupdate_null_endwin demoBackend nullEndState rfl (by decide)]; decide
  · decide

/-! ## The backend calls of `doupdate` -/

theorem doupdate_cursor_calls {T : Type} (be : Backend T) (c : Nat) (s : State T) :
    ∃ post, (doupdate_cursor be c s).calls = s.calls ++ post ∧
      (∀ x ∈ post, ∃ y x', x = Call.gotoxy y x') ∧
      (s.SP.cursrow = (s.mem c)._cury → s.SP.curscol = (s.mem c)._curx → post = []) := by
  obtain ⟨_, _, _, q4, _, _⟩ := doupdate_cursor_spec be c s
  refine ⟨_, q4, ?_, ?_⟩
  · intro x hx
    split at hx
    · simp only [List.mem_singleton] at hx
      exact ⟨_, _, hx⟩
    · simp at hx
  · intro h1 h2
    rw [if_neg]
    rintro (h | h)
    · exact h h1
    · exact h h2

theorem doupdate_clear_trace {T : Type} (be : Backend T) (s : State T) (c : Nat)
    (hc : s.curscr = some c)
    (hclear : be.isendwin s.term s.SP = true ∨ (s.mem c)._clear = true) :
    ∃ s' pre post, doupdate be s = some (OK, s') ∧
      s'.calls = s.calls ++ (pre ++ ([Call.clr_update] ++ post)) ∧
      (∀ x ∈ pre, x = Call.reset_prog_mode) ∧ (∀ x ∈ post, ∃ y x', x = Call.gotoxy y x') := by
  obtain ⟨s1, h1⟩ := doupdate_prologue_total be s (Or.inr ⟨c, hc⟩)
  obtain ⟨p1, _, ⟨pre, p3, p4⟩, p5, p6⟩ := doupdate_prologue_spec be s s1 h1
  have hc1 : s1.curscr = some c := p1.trans hc
  have hfl : (s1.mem c)._clear = true := by
    by_cases he : be.isendwin s.term s.SP = true
    · obtain ⟨c', hc', hm⟩ := p6 he
      rw [hc] at hc'
      have hcc := Option.some.inj hc'
      subst hcc
      rw [hm, store_same]
      simp
    · have he' : be.isendwin s.term s.SP = false := by simpa using he
      rw [p5 he']
      rcases hclear with h | h
      · exact absurd h he
      · exact h
  have hflush : doupdate_flush be c s1 = some (call_clr_update be c s1) := by
    unfold doupdate_flush
    rw [if_pos hfl]
  obtain ⟨post, q1, q2, _⟩ := doupdate_cursor_calls be c (call_clr_update be c s1)
  refine ⟨doupdate_cursor be c (call_clr_update be c s1), pre, post,
    (doupdate_eq_some be s _ OK).mpr ⟨s1, h1, Or.inr ⟨c, _, hc1, hflush, rfl, rfl⟩⟩, ?_, p4, q2⟩
  rw [q1]
  show (s1.calls ++ [Call.clr_update]) ++ _ = _
  rw [p3, List.append_assoc, List.append_assoc]

theorem clear_trace_counts (pre post : List Call)
    (hpre : ∀ x ∈ pre, x = Call.reset_prog_mode)
    (hpost : ∀ x ∈ post, ∃ y x', x = Call.gotoxy y x') :
    (pre ++ ([Call.clr_update] ++ post)).count Call.clr_update = 1 ∧
    ∀ i b, Call.transform_line i b ∉ pre ++ ([Call.clr_update] ++ post) := by
  refine ⟨?_, ?_⟩
  · have h1 : pre.count Call.clr_update = 0 := by
      apply List.count_eq_zero.mpr
      intro hx
      have := hpre _ hx
      cases this
    have h2 : post.count Call.clr_update = 0 := by
      apply List.count_eq_zero.mpr
      intro hx
      obtain ⟨y, x', e⟩ := hpost _ hx
      cases e
    rw [List.count_append, List.count_append, h1, h2]
    simp
  · intro i b hx
    rcases List.mem_append.mp hx with hx | hx
    · have := hpre _ hx
      cases this
    · rcases List.mem_append.mp hx with hx | hx
      · simp at hx
      · obtain ⟨y, x', e⟩ := hpost _ hx
        cases e

theorem doupdate_scan_trace {T : Type} (be : Backend T) (s s' : State T) (c : Nat) (rc : Int)
    (hc : s.curscr = some c) (hend : be.isendwin s.term s.SP = false)
    (hclear : (s.mem c)._clear = false) (h : doupdate be s = some (rc, s')) :
    ∃ (pre post : List Call) (L : List (Int × Bool)) (s1 s2 : State T),
      doupdate_prologue be s = some s1 ∧ s1.mem = s.mem ∧
      doupdate_loop be c (s1.SP.lines - 0).toNat 0 s1 = some s2 ∧
      s' = doupdate_cursor be c s2 ∧ rc = OK ∧
      s'.calls = s.calls ++ (pre ++ (L.map transformCall ++ post)) ∧
      (∀ x ∈ pre, x = Call.reset_prog_mode) ∧ (∀ x ∈ post, ∃ y x', x = Call.gotoxy y x') ∧
      (s2.SP.cursrow = (s2.mem c)._cury → s2.SP.curscol = (s2.mem c)._curx → post = []) ∧
      List.Pairwise (fun a b => a < b) (L.map Prod.fst) ∧
      (∀ x ∈ L, 0 ≤ x.1 ∧ x.1 < s1.SP.lines) ∧
      (∀ x ∈ L, x.2 = true → ∀ y ∈ L, y.1 ≤ x.1) ∧
      (be.leavesLaterRows →
        (∀ x ∈ L, damaged (s.mem c) x.1) ∧
        (∀ k : Int, 0 ≤ k → k < s1.SP.lines → damaged (s.mem c) k →
          (∀ x ∈ L, x.2 = true → k ≤ x.1) → k ∈ L.map Prod.fst)) := by
  obtain ⟨s1, h1, hcase⟩ := (doupdate_eq_some be s s' rc).mp h
  obtain ⟨p1, _, ⟨pre, p3, p4⟩, p5, _⟩ := doupdate_prologue_spec be s s1 h1
  have hc1 : s1.curscr = some c := p1.trans hc
  have hmem : s1.mem = s.mem := p5 hend
  rcases hcase with ⟨hnone, _, _⟩ | ⟨c', s2, hc', hflush, hrc, hs'⟩
  · rw [hc1] at hnone; cases hnone
  · rw [hc1] at hc'
    have hcc := Option.some.inj hc'
    subst hcc
    have hfl : ¬ ((s1.mem c)._clear = true) := by rw [hmem, hclear]; simp
    unfold doupdate_flush at hflush
    rw [if_neg hfl] at hflush
    obtain ⟨_, _, _, _, L, hL, hP, hB, hM, hD⟩ := doupdate_loop_spec be c _ _ _ _ hflush
    obtain ⟨post, q1, q2, q3⟩ := doupdate_cursor_calls be c s2
    have hB' : ∀ x ∈ L, 0 ≤ x.1 ∧ x.1 < s1.SP.lines := by
      intro x hx
      have := hB x hx
      omega
    refine ⟨pre, post, L, s1, s2, h1, hmem, hflush, hs', hrc, ?_, p4, q2, q3, hP, hB', hM, ?_⟩
    · rw [hs', q1, hL, p3]
      simp [List.append_assoc]
    · intro hfr
      obtain ⟨d1, d2⟩ := hD hfr
      rw [hmem] at d1 d2
      refine ⟨d1, ?_⟩
      intro k hk0 hk1 hkd hkt
      exact d2 k hk0 (by omega) hkd hkt

theorem stoppingBackend_leavesLaterRows : stoppingBackend.leavesLaterRows := by
  intro i t w h
  cases h

/-- C18 (as amended): the row scan of `doupdate` treats the boolean result of
the line transform as "stop scanning".  After a transform call on a damaged
row `i`, the scan ends at once if the call returned true, and goes on with the
rows after `i` if it returned false.  In a `doupdate` that returns (flag of the
full redraw not set): a call that returned true is the last transform call, and,
when a transform that returns false leaves the markers of later rows alone,
every damaged row not beyond such a stop is transformed. -/
theorem doupdate_scan_result {T : Type} (be : Backend T) (c : Nat) (s : State T) :
    (∀ (n : Nat) (i : Int), damaged (s.mem c) i →
      ((call_transform_line be c i s).1 = true →
        doupdate_loop be c (n + 1) i s = some (call_transform_line be c i s).2) ∧
      ((call_transform_line be c i s).1 = false →
        doupdate_loop be c (n + 1) i s =
          doupdate_loop be c n (i + 1) (call_transform_line be c i s).2)) ∧
    (s.curscr = some c → be.isendwin s.term s.SP = false → (s.mem c)._clear = false →
      ∀ (rc : Int) (s' : State T), doupdate be s = some (rc, s') →
      ∃ (pre post : List Call) (L : List (Int × Bool)) (s1 : State T),
        doupdate_prologue be s = some s1 ∧
        s'.calls = s.calls ++ (pre ++ (L.map transformCall ++ post)) ∧
        (∀ x ∈ pre, x = Call.reset_prog_mode) ∧ (∀ x ∈ post, ∃ y x', x = Call.gotoxy y x') ∧
        (∀ x ∈ L, x.2 = true → ∀ y ∈ L, y.1 ≤ x.1) ∧
        (be.leavesLaterRows →
          ∀ x ∈ L, x.2 = false → ∀ k : Int, x.1 < k → k < s1.SP.lines → damaged (s.mem c) k →
            (∀ y ∈ L, y.2 = true → k ≤ y.1) → k ∈ L.map Prod.fst)) := by
  refine ⟨?_, ?_⟩
  · rintro n i ⟨f, hf, hfn⟩
    refine ⟨?_, ?_⟩
    · intro hb
      simp only [doupdate_loop, Option.bind_eq_bind, hf, Option.some_bind, Option.pure_def]
      rw [if_pos hfn, if_pos hb]
    · intro hb
      simp only [doupdate_loop, Option.bind_eq_bind, hf, Option.some_bind, Option.pure_def]
      rw [if_pos hfn, if_neg (by rw [hb]; simp)]
  · intro hc hend hclear rc s' h
    obtain ⟨pre, post, L, s1, s2, h1, _, _, _, _, h6, h7, h8, _, _, hB, hM, hD⟩ :=
      doupdate_scan_trace be s s' c rc hc hend hclear h
    refine ⟨pre, post, L, s1, h1, h6, h7, h8, hM, ?_⟩
    intro hfr x hx _ k hk0 hk1 hkd hkt
    exact (hD hfr).2 k (by have := (hB x hx).1; omega) hk1 hkd hkt

/-- Instance of `doupdate_scan_result` on the image with the damaged rows 2 and 5: a
transform that returns false lets the scan reach row 5, a transform that
returns true ends it after row 2. -/
theorem doupdate_scan_result_witness :
    (doupdate_loop demoBackend 0 (21 + 1) 2 twoRowsState =
      doupdate_loop demoBackend 0 21 (2 + 1) (call_transform_line demoBackend 0 2 twoRowsState).2) ∧
    (doupdate_loop stoppingBackend 0 (21 + 1) 2 twoRowsState =
      some (call_transform_line stoppingBackend 0 2 twoRowsState).2) ∧
    (doupdate demoBackend twoRowsState).map (fun r => r.2.calls) =
      some [Call.transform_line 2 false, Call.transform_line 5 false] ∧
    (doupdate stoppingBackend twoRowsState).map (fun r => r.2.calls) =
      some [Call.transform_line 2 true] :=
  ⟨((doupdate_scan_result demoBackend 0 twoRowsState).1 21 2 ⟨4, by decide, by decide⟩).2 rfl,
   ((doupdate_scan_result stoppingBackend 0 twoRowsState).1 21 2 ⟨4, by decide, by decide⟩).1 rfl,
   by decide, by decide⟩

/-- C18 (as stated) fails: on the image with the damaged rows 2 and 5, a
transform that returns true ends the scan after row 2 (row 5 is not
transformed), and a transform that returns false lets the scan go on to row 5. -/
theorem doupdate_scan_not_as_stated :
    damaged (twoRowsState.mem 0) 2 ∧ damaged (twoRowsState.mem 0) 5 ∧
    (doupdate stoppingBackend twoRowsState).map (fun r => (r.1, r.2.calls)) =
      some (OK, [Call.transform_line 2 true]) ∧
    (doupdate demoBackend twoRowsState).map (fun r => (r.1, r.2.calls)) =
      some (OK, [Call.transform_line 2 false, Call.transform_line 5 false]) := by
  refine ⟨⟨4, by decide, by decide⟩, ⟨0, by decide, by decide⟩, by decide, by decide⟩

/-! ## `wrefresh` on the physical image, and `refresh` -/

theorem wnoutrefresh_tail_geometry (p : Nat) (cur : Option Nat) (begy begx : Int) (m m' : Mem)
    (h : wnoutrefresh_tail p cur begy begx m = some m') (q : Nat) :
    (m' q)._maxy = (m q)._maxy ∧ (m' q)._maxx = (m q)._maxx ∧
    (m' q)._begy = (m q)._begy ∧ (m' q)._begx = (m q)._begx ∧
    (m' q)._flags = (m q)._flags ∧ (m' q)._leaveit = (m q)._leaveit ∧
    (q ≠ p → (m' q)._clear = (m q)._clear) := by
  obtain ⟨m1, hm1, hcase⟩ := (wnoutrefresh_tail_eq_some p cur begy begx m m').mp h
  have e1 : (m1 q)._maxy = (m q)._maxy ∧ (m1 q)._maxx = (m q)._maxx ∧
      (m1 q)._begy = (m q)._begy ∧ (m1 q)._begx = (m q)._begx ∧
      (m1 q)._flags = (m q)._flags ∧ (m1 q)._leaveit = (m q)._leaveit ∧
      (q ≠ p → (m1 q)._clear = (m q)._clear) := by
    subst hm1
    split
    · by_cases hq : q = p
      · subst hq
        simp [store_same]
      · simp [store_ne _ _ _ _ hq]
    · simp
  rcases hcase with ⟨_, rfl⟩ | ⟨_, c, _, rfl⟩
  · exact e1
  · by_cases hq : q = c
    · subst hq
      rw [store_same]
      simpa using e1
    · rw [store_ne _ _ _ _ hq]
      exact e1

theorem wnoutrefresh_geometry {T : Type} (s s' : State T) (p : Nat) (rc : Int)
    (h : wnoutrefresh (some p) s = some (rc, s')) (q : Nat) :
    (s'.mem q)._maxy = (s.mem q)._maxy ∧ (s'.mem q)._maxx = (s.mem q)._maxx ∧
    (s'.mem q)._begy = (s.mem q)._begy ∧ (s'.mem q)._begx = (s.mem q)._begx ∧
    (s'.mem q)._flags = (s.mem q)._flags ∧ (s'.mem q)._leaveit = (s.mem q)._leaveit ∧
    (q ≠ p → (s'.mem q)._clear = (s.mem q)._clear) := by
  rcases (wnoutrefresh_eq_some s s' p rc).mp h with ⟨_, _, rfl⟩ | ⟨_, _, m1, m2, h1, h2, rfl⟩
  · exact ⟨rfl, rfl, rfl, rfl, rfl, rfl, fun _ => rfl⟩
  · have e1 := wnoutrefresh_loop_scalars _ _ _ _ _ _ _ _ h1 q
    simp only [WINDOW.scalars, Prod.mk.injEq] at e1
    obtain ⟨_, _, a3, a4, a5, a6, a7, a8, a9⟩ := e1
    obtain ⟨b1, b2, b3, b4, b5, b6, b7⟩ := wnoutrefresh_tail_geometry _ _ _ _ _ _ h2 q
    exact ⟨b1.trans a3, b2.trans a4, b3.trans a5, b4.trans a6, b5.trans a7, b6.trans a9,
      fun hq => (b7 hq).trans a8⟩

theorem wrefresh_curscr_eq {T : Type} (be : Backend T) (s : State T) (c : Nat)
    (hc : s.curscr = some c) (hpad : isPad (s.mem c) = false) :
    wrefresh be (some c) s =
      (doupdate be { s with mem := store s.mem c ((s.mem c).set_clear true) }).map
        (fun r => (OK, r.2)) := by
  unfold wrefresh
  simp only [hpad, Bool.false_eq_true, if_false, Option.bind_eq_bind, Option.pure_def]
  rw [if_pos hc.symm]
  simp only [Option.some_bind, hc, store_same, store_store]
  split
  · simp only [Option.some_bind, WINDOW.set_clear]
    cases doupdate be _ <;> rfl
  · simp only [Option.some_bind]
    cases doupdate be _ <;> rfl

theorem wrefresh_dispatch {T : Type} (be : Backend T) (s s' : State T) (p c : Nat)
    (hc : s.curscr = some c) (h : wrefresh be (some p) s = some (OK, s')) :
    ∃ sb r, doupdate be sb = some (r, s') ∧ sb.curscr = some c ∧ sb.calls = s.calls ∧
      sb.term = s.term ∧ sb.SP = s.SP ∧
      ((sb.mem c)._clear = true ↔
        (p = c ∨ ((s.mem p)._clear = true ∧ (s.mem p)._maxy = s.SP.lines ∧
          (s.mem p)._maxx = s.SP.cols) ∨ (s.mem c)._clear = true)) := by
  rcases (wrefresh_eq_some be s s' p OK).mp h with ⟨_, he, _⟩ | ⟨_, _, sa, sb, r, hsa, hsb, hr⟩
  · exact absurd he OK_ne_ERR
  · have ha : sa.curscr = some c ∧ sa.calls = s.calls ∧ sa.term = s.term ∧ sa.SP = s.SP ∧
        (sa.mem p)._maxy = (s.mem p)._maxy ∧ (sa.mem p)._maxx = (s.mem p)._maxx ∧
        ((sa.mem c)._clear = true ↔ (p = c ∨ (s.mem c)._clear = true)) := by
      by_cases hpc : p = c
      · subst hpc
        rw [if_pos hc.symm] at hsa
        cases hsa
        refine ⟨hc, rfl, rfl, rfl, ?_, ?_, ?_⟩
        · simp [store_same]
        · simp [store_same]
        · simp [store_same]
      · have hne : ¬ (some p = s.curscr) := by
          rw [hc]; intro e; exact hpc (Option.some.inj e)
        rw [if_neg hne] at hsa
        simp only [Option.map_eq_some', Prod.exists, exists_eq_right] at hsa
        obtain ⟨r0, hr0⟩ := hsa
        obtain ⟨f1, _, f3, f4, f5, _⟩ := wnoutrefresh_frame s sa p r0 hr0
        obtain ⟨g1, g2, _, _, _, _, _⟩ := wnoutrefresh_geometry s sa p r0 hr0 p
        obtain ⟨_, _, _, _, _, _, g7⟩ := wnoutrefresh_geometry s sa p r0 hr0 c
        refine ⟨f1.trans hc, f5, f4, f3, g1, g2, ?_⟩
        rw [g7 (fun e => hpc e.symm)]
        constructor
        · exact fun hx => Or.inr hx
        · rintro (hx | hx)
          · exact absurd hx hpc
          · exact hx
    obtain ⟨a1, a2, a3, a4, a5, a6, a7⟩ := ha
    rw [a5, a6, a4] at hsb
    split at hsb
    · rename_i hcond
      rw [a1] at hsb
      cases hsb
      refine ⟨_, r, hr, rfl, a2, a3, rfl, ?_⟩
      simp only [store_same, WINDOW.set_clear_fields, true_iff]
      exact Or.inr (Or.inl hcond)
    · rename_i hcond
      cases hsb
      refine ⟨_, r, hr, a1, a2, a3, a4, ?_⟩
      rw [a7]
      constructor
      · rintro (hx | hx)
        · exact Or.inl hx
        · exact Or.inr (Or.inr hx)
      · rintro (hx | hx | hx)
        · exact Or.inl hx
        · exact absurd hx hcond
        · exact Or.inr hx

/-- C14: when the window passed to `wrefresh` is the physical image itself
(`win == curscr`, not flagged as a pad), no merge is made: `doupdate` is entered
in the state of the call with nothing but the full-redraw flag of the physical
image changed (its grid, damage markers and cursor are those of the call), the
flag being set whatever it was.  The call completes and returns `OK`, and its
backend calls hold `PDC_clr_update` exactly once and no `PDC_transform_line`. -/
theorem wrefresh_curscr {T : Type} (be : Backend T) (s : State T) (c : Nat)
    (hc : s.curscr = some c) (hpad : isPad (s.mem c) = false) :
    wrefresh be (some c) s =
      (doupdate be { s with mem := store s.mem c ((s.mem c).set_clear true) }).map
        (fun r => (OK, r.2)) ∧
    (store s.mem c ((s.mem c).set_clear true) c)._clear = true ∧
    (∀ q, (store s.mem c ((s.mem c).set_clear true) q)._y = (s.mem q)._y ∧
      (store s.mem c ((s.mem c).set_clear true) q)._firstch = (s.mem q)._firstch ∧
      (store s.mem c ((s.mem c).set_clear true) q)._lastch = (s.mem q)._lastch ∧
      (store s.mem c ((s.mem c).set_clear true) q)._cury = (s.mem q)._cury ∧
      (store s.mem c ((s.mem c).set_clear true) q)._curx = (s.mem q)._curx) ∧
    ∃ s' pre post, wrefresh be (some c) s = some (OK, s') ∧
      s'.calls = s.calls ++ (pre ++ ([Call.clr_update] ++ post)) ∧
      (pre ++ ([Call.clr_update] ++ post)).count Call.clr_update = 1 ∧
      (∀ i b, Call.transform_line i b ∉ pre ++ ([Call.clr_update] ++ post)) ∧
      (∀ x ∈ pre, x = Call.reset_prog_mode) ∧
      (∀ x ∈ post, ∃ y x', x = Call.gotoxy y x') := by
  refine ⟨wrefresh_curscr_eq be s c hc hpad, by simp [store_same], ?_, ?_⟩
  · intro q
    by_cases hq : q = c
    · subst hq
      simp [store_same]
    · simp [store_ne _ _ _ _ hq]
  · obtain ⟨s', pre, post, h1, h2, h3, h4⟩ :=
      doupdate_clear_trace be { s with mem := store s.mem c ((s.mem c).set_clear true) } c hc
        (Or.inr (by simp [store_same]))
    obtain ⟨k1, k2⟩ := clear_trace_counts pre post h3 h4
    refine ⟨s', pre, post, ?_, h2, k1, k2, h3, h4⟩
    rw [wrefresh_curscr_eq be s c hc hpad, h1]
    rfl

/-- Instance of `wrefresh_curscr` on the session whose physical image carries the
span `(4, 7)` on row 2: `wrefresh(curscr)` returns `OK` after the single backend
call `PDC_clr_update`. -/
theorem wrefresh_curscr_witness :
    dirtyState.curscr = some 0 ∧
    wrefresh demoBackend (some 0) dirtyState =
      (doupdate demoBackend
        { dirtyState with mem := store dirtyState.mem 0 ((dirtyState.mem 0).set_clear true) }).map
        (fun r => (OK, r.2)) ∧
    (wrefresh demoBackend (some 0) dirtyState).map (fun r => (r.1, r.2.calls)) =
      some (OK, [Call.clr_update]) :=
  ⟨rfl, (wrefresh_curscr demoBackend dirtyState 0 rfl (by decide)).1, by decide⟩

/-- C15: for a non-null, non-pad window other than the physical image,
`wrefresh(win)` is `wnoutrefresh(win)` followed by `doupdate()` (same result,
same final state, same backend calls, and undefined on the same inputs), except
that the full-redraw flag of the physical image is set between the two when the
clear flag of the window was set before the call and its size is that of the
terminal; when one of the two conditions fails, `wrefresh` is the plain
composition. -/
theorem wrefresh_refines {T : Type} (be : Backend T) (s : State T) (p : Nat)
    (hpad : isPad (s.mem p) = false) (hne : some p ≠ s.curscr) :
    wrefresh be (some p) s = wrefresh_spec be p s ∧
    (¬ ((s.mem p)._clear = true ∧ (s.mem p)._maxy = s.SP.lines ∧
        (s.mem p)._maxx = s.SP.cols) →
      wrefresh be (some p) s =
        (wnoutrefresh (some p) s).bind (fun r =>
          (doupdate be r.2).map (fun r2 => (OK, r2.2)))) ∧
    (((s.mem p)._clear = true ∧ (s.mem p)._maxy = s.SP.lines ∧
        (s.mem p)._maxx = s.SP.cols) →
      wrefresh be (some p) s =
        (wnoutrefresh (some p) s).bind (fun r =>
          (r.2.curscr.map (fun c =>
            { r.2 with mem := store r.2.mem c ((r.2.mem c).set_clear true) })).bind (fun s1 =>
          (doupdate be s1).map (fun r2 => (OK, r2.2))))) := by
  have key : wrefresh be (some p) s = wrefresh_spec be p s := by
    unfold wrefresh wrefresh_spec
    simp only [hpad, Bool.false_eq_true, if_false, Option.bind_eq_bind, Option.pure_def]
    rw [if_neg hne]
    cases hw : wnoutrefresh (some p) s with
    | none => rfl
    | some r =>
      obtain ⟨rc, sa⟩ := r
      obtain ⟨_, _, f3, _, _, _⟩ := wnoutrefresh_frame s sa p rc hw
      obtain ⟨g1, g2, _⟩ := wnoutrefresh_geometry s sa p rc hw p
      simp only [Option.some_bind, g1, g2, f3]
      split
      · cases sa.curscr <;> rfl
      · rfl
  refine ⟨key, ?_, ?_⟩
  · intro hcond
    rw [key]
    unfold wrefresh_spec
    simp only [Option.bind_eq_bind, Option.pure_def, if_neg hcond]
    cases hw : wnoutrefresh (some p) s with
    | none => rfl
    | some r =>
      simp only [Option.some_bind]
      cases doupdate be r.2 <;> rfl
  · intro hcond
    rw [key]
    unfold wrefresh_spec
    simp only [Option.bind_eq_bind, Option.pure_def, if_pos hcond]
    cases hw : wnoutrefresh (some p) s with
    | none => rfl
    | some r =>
      simp only [Option.some_bind]
      cases r.2.curscr with
      | none => rfl
      | some c =>
        simp only [Option.map_some', Option.some_bind]
        cases doupdate be _ <;> rfl

/-- Instance of `wrefresh_refines` on the session of the examples: `wrefresh` of the
5 by 10 window is its merge followed by `doupdate`, with the backend calls
`PDC_transform_line(2)` and `PDC_gotoxy(3, 5)`. -/
theorem wrefresh_refines_witness :
    wrefresh demoBackend (some 1) demoState = wrefresh_spec demoBackend 1 demoState ∧
    wrefresh demoBackend (some 1) demoState =
      (wnoutrefresh (some 1) demoState).bind (fun r =>
        (doupdate demoBackend r.2).map (fun r2 => (OK, r2.2))) ∧
    (wrefresh demoBackend (some 1) demoState).map (fun r => (r.1, r.2.calls)) =
      some (OK, [Call.transform_line 2 false, Call.gotoxy 3 5]) :=
  ⟨(wrefresh_refines demoBackend demoState 1 (by decide) (by decide)).1,
   (wrefresh_refines demoBackend demoState 1 (by decide) (by decide)).2.1 (by decide),
   by decide⟩

/-! ## The accesses of `wnoutrefresh` stay in bounds -/

theorem spansValid_rd {w : WINDOW} (h : spansValid w) {i f l : Int} (hi0 : 0 ≤ i)
    (hi1 : i < w._maxy) (hf : rd w._firstch i = some f) (hne : f ≠ _NO_CHANGE)
    (hl : rd w._lastch i = some l) : 0 ≤ f ∧ f ≤ l ∧ l < w._maxx := by
  have h1 := h i.toNat (by omega)
  rw [getD_of_rd hf, getD_of_rd hl] at h1
  exact h1 hne

theorem allocated_of_exact {w : WINDOW} (h : w.exact) : w.allocated := by
  obtain ⟨h1, h2, h3, h4⟩ := h
  refine ⟨by omega, by omega, by simp only [List.length_map]; omega, ?_⟩
  intro n hn
  obtain ⟨row, hrow, rfl⟩ := List.mem_map.mp hn
  rw [h4 row hrow]

/-- C19: when the arrays of the window and of the physical image hold exactly
their `_maxy` rows of `_maxx` cells, the window lies within the physical image
and every changed window row has `0 ≤ first ≤ last < _maxx`, `wnoutrefresh`
runs to its end with every array access inside its array and returns `OK`.  For
each changed window row `i` with span `(f, l)`: the row copied from is row `i` of
the window with `0 ≤ f` and `l < _maxx`, the row copied to is physical row
`begy + i` in `[0, physical rows)`, the columns written are `begx + f ..
begx + l` in `[0, physical cols)`, and the length `l - f + 1` is positive. -/
theorem wnoutrefresh_in_bounds {T : Type} (s : State T) (p c : Nat) (hc : s.curscr = some c)
    (hpad : isPad (s.mem p) = false) (hw : (s.mem p).exact) (hcx : (s.mem c).exact)
    (hfit : fitsIn (s.mem p) (s.mem c)) (hsp : spansValid (s.mem p)) :
    (∃ s', wnoutrefresh (some p) s = some (OK, s')) ∧
    ∀ i f l : Int, 0 ≤ i → i < (s.mem p)._maxy →
      rd (s.mem p)._firstch i = some f → f ≠ _NO_CHANGE → rd (s.mem p)._lastch i = some l →
      0 ≤ f ∧ f ≤ l ∧ l < (s.mem p)._maxx ∧ 0 < l - f + 1 ∧
      0 ≤ (s.mem p)._begy + i ∧ (s.mem p)._begy + i < (s.mem c)._maxy ∧
      0 ≤ (s.mem p)._begx + f ∧ (s.mem p)._begx + l < (s.mem c)._maxx ∧
      ∃ dst src row, rd (s.mem c)._y ((s.mem p)._begy + i) = some dst ∧
        rd (s.mem p)._y i = some src ∧
        (dst.length : Int) = (s.mem c)._maxx ∧ (src.length : Int) = (s.mem p)._maxx ∧
        memcpy dst ((s.mem p)._begx + f) src f (l - f + 1) = some row := by
  refine ⟨wnoutrefresh_completes s p c hc hpad
    ⟨allocated_of_exact hw, allocated_of_exact hcx, hfit, hsp⟩, ?_⟩
  intro i f l hi0 hi1 hf hne hl
  obtain ⟨s1, s2, s3⟩ := spansValid_rd hsp hi0 hi1 hf hne hl
  obtain ⟨f1, f2, f3, f4⟩ := hfit
  obtain ⟨_, _, w3, w4⟩ := hw
  obtain ⟨_, _, c3, c4⟩ := hcx
  obtain ⟨dst, hdst⟩ := rd_isSome_of_bounds (s.mem c)._y ((s.mem p)._begy + i)
    (by omega) (by omega)
  obtain ⟨src, hsrc⟩ := rd_isSome_of_bounds (s.mem p)._y i hi0 (by omega)
  have hdl := c4 dst (mem_of_rd hdst)
  have hsl := w4 src (mem_of_rd hsrc)
  obtain ⟨row, hrow⟩ := memcpy_total dst src ((s.mem p)._begx + f) f (l - f + 1)
    ⟨by omega, by omega, by omega, by omega, by omega⟩
  exact ⟨s1, s2, s3, by omega, by omega, by omega, by omega, by omega,
    dst, src, row, hdst, hsrc, hdl, hsl, hrow⟩

/-- Instance of `wnoutrefresh_in_bounds` on the session of the examples: the merge of
the 5 by 10 window at origin `(2, 3)` completes, and its changed row 0 with span
`(1, 4)` is copied to the columns 4 to 7 of physical row 2. -/
theorem wnoutrefresh_in_bounds_witness :
    (∃ s', wnoutrefresh (some 1) demoState = some (OK, s')) ∧
    (0 ≤ (1 : Int) ∧ (1 : Int) ≤ 4 ∧ (4 : Int) < (demoState.mem 1)._maxx ∧
      (0 : Int) < 4 - 1 + 1 ∧
      0 ≤ (demoState.mem 1)._begy + 0 ∧
      (demoState.mem 1)._begy + 0 < (demoState.mem 0)._maxy ∧
      0 ≤ (demoState.mem 1)._begx + 1 ∧ (demoState.mem 1)._begx + 4 < (demoState.mem 0)._maxx ∧
      ∃ dst src row, rd (demoState.mem 0)._y ((demoState.mem 1)._begy + 0) = some dst ∧
        rd (demoState.mem 1)._y 0 = some src ∧
        (dst.length : Int) = (demoState.mem 0)._maxx ∧
        (src.length : Int) = (demoState.mem 1)._maxx ∧
        memcpy dst ((demoState.mem 1)._begx + 1) src 1 (4 - 1 + 1) = some row) :=
  ⟨(wnoutrefresh_in_bounds demoState 1 0 rfl (by decide) (by decide) (by decide) (by decide)
      (by decide)).1,
   (wnoutrefresh_in_bounds demoState 1 0 rfl (by decide) (by decide) (by decide) (by decide)
      (by decide)).2 0 1 4 (by decide) (by decide) (by decide) (by decide) (by decide)⟩

/-! ## Well-formed damage is kept by the merge -/

theorem getD_congr_rd {xs ys : List Int} {r : Int} (d : Int) (h0 : 0 ≤ r)
    (h : rd xs r = rd ys r) : xs.getD r.toNat d = ys.getD r.toNat d := by
  unfold rd at h
  rw [if_pos h0, if_pos h0] at h
  rw [List.getD_eq_getElem?_getD, List.getD_eq_getElem?_getD, h]

theorem wnoutrefresh_markers_clean {T : Type} (s s' : State T) (p : Nat)
    (halias : s.curscr = some p → 0 ≤ (s.mem p)._begy)
    (h : wnoutrefresh (some p) s = some (OK, s')) :
    ∀ i : Int, 0 ≤ i → i < (s.mem p)._maxy →
      rd (s'.mem p)._firstch i = some _NO_CHANGE ∧ rd (s'.mem p)._lastch i = some _NO_CHANGE := by
  rcases (wnoutrefresh_eq_some s s' p OK).mp h with ⟨_, hbad, _⟩ | ⟨_, _, m1, m2, h1, h2, rfl⟩
  · exact absurd hbad OK_ne_ERR
  · obtain ⟨hmark, _⟩ := wnoutrefresh_loop_markers _ _ _ _ _ _ _ _ halias h1
    obtain ⟨_, e2, e3⟩ := wnoutrefresh_tail_arrays _ _ _ _ _ _ h2 p
    intro i hi0 hi1
    show rd (m2 p)._firstch i = _ ∧ rd (m2 p)._lastch i = _
    rw [e2, e3]
    exact hmark i hi0 (by omega)

theorem wnoutrefresh_row_union {T : Type} (s s' : State T) (p c : Nat)
    (hc : s.curscr = some c) (hne : p ≠ c) (h : wnoutrefresh (some p) s = some (OK, s'))
    (r : Int) :
    (rd (s'.mem c)._firstch r = rd (s.mem c)._firstch r ∧
      rd (s'.mem c)._lastch r = rd (s.mem c)._lastch r ∧
      ((s.mem p)._begy ≤ r → r < (s.mem p)._begy + (s.mem p)._maxy →
        rd (s.mem p)._firstch (r - (s.mem p)._begy) = some _NO_CHANGE)) ∨
    (∃ f l cf cl, (s.mem p)._begy ≤ r ∧ r < (s.mem p)._begy + (s.mem p)._maxy ∧
      f ≠ _NO_CHANGE ∧
      rd (s.mem p)._firstch (r - (s.mem p)._begy) = some f ∧
      rd (s.mem p)._lastch (r - (s.mem p)._begy) = some l ∧
      rd (s.mem c)._firstch r = some cf ∧ rd (s.mem c)._lastch r = some cl ∧
      0 ≤ (s.mem p)._begx + f ∧ f ≤ l + 1 ∧
      rd (s'.mem c)._firstch r =
        some (if cf ≠ _NO_CHANGE then min cf (f + (s.mem p)._begx) else f + (s.mem p)._begx) ∧
      rd (s'.mem c)._lastch r = some (max cl (l + (s.mem p)._begx))) := by
  obtain ⟨W, C, hR, _, e2, e3, _⟩ := wnoutrefresh_merged s s' p c hc hne h
  obtain ⟨_, _, _, _, _, hin, hout⟩ := hR
  rw [e2, e3]
  by_cases hr : (s.mem p)._begy ≤ r ∧ r < (s.mem p)._begy + ((s.mem p)._maxy - 0).toNat
  · have hk := hin (r - (s.mem p)._begy) (by omega) (by omega)
    have hrr : (s.mem p)._begy + (r - (s.mem p)._begy - 0) = r := by omega
    rw [hrr] at hk
    rcases hk with ⟨k1, _, k3, k4⟩ | ⟨f, l, dst, src, row, cf, cl, k1, k2, k3, k4, k5, k6, k7, k8,
      _, k10, k11⟩
    · exact Or.inl ⟨k3, k4, fun _ _ => k1⟩
    · obtain ⟨b1, b2, _, _, _⟩ := memcpy_bounds k6
      exact Or.inr ⟨f, l, cf, cl, hr.1, by omega, k1, k2, k3, k7, k8, b2, by omega, k10, k11⟩
  · obtain ⟨_, o2, o3⟩ := hout r hr
    refine Or.inl ⟨o2, o3, ?_⟩
    intro h1 h2
    exfalso
    apply hr
    exact ⟨h1, by omega⟩

/-- C20: well-formed damage of the physical image is an invariant of the merge
of a window (other than the physical image itself).  If every physical row is
clean (both markers `_NO_CHANGE`) or has `0 ≤ first ≤ last < physical cols`, the
window lies within the physical image and each of its changed rows has
`0 ≤ first ≤ last < _maxx`, then after a `wnoutrefresh` that returns `OK` every
physical row is again clean or has `0 ≤ first ≤ last < physical cols`.  The
damage never shrinks and is never removed: each span present before is
contained in the span of its row after.  The call returns `OK` whenever the
arrays of both are allocated and the window is not a pad. -/
theorem wnoutrefresh_keeps_wf {T : Type} (s : State T) (p c : Nat) (hc : s.curscr = some c)
    (hne : p ≠ c) (hwf : damageWF (s.mem c)) (hfit : fitsIn (s.mem p) (s.mem c))
    (hsp : spansValid (s.mem p)) :
    (∀ s', wnoutrefresh (some p) s = some (OK, s') →
      damageWF (s'.mem c) ∧
      ∀ (r f l : Int), rd (s.mem c)._firstch r = some f → f ≠ _NO_CHANGE →
        rd (s.mem c)._lastch r = some l →
        ∃ f' l', rd (s'.mem c)._firstch r = some f' ∧ rd (s'.mem c)._lastch r = some l' ∧
          f' ≠ _NO_CHANGE ∧ f' ≤ f ∧ l ≤ l') ∧
    (isPad (s.mem p) = false → (s.mem p).allocated → (s.mem c).allocated →
      ∃ s', wnoutrefresh (some p) s = some (OK, s')) := by
  have hNC : _NO_CHANGE = -1 := rfl
  obtain ⟨f1, f2, f3, f4⟩ := hfit
  refine ⟨?_, fun hpad ha hb => wnoutrefresh_completes s p c hc hpad ⟨ha, hb, ⟨f1, f2, f3, f4⟩, hsp⟩⟩
  intro s' h
  obtain ⟨g1, g2, _⟩ := wnoutrefresh_geometry s s' p OK h c
  refine ⟨?_, ?_⟩
  · intro r hr
    rw [g1] at hr
    rw [g2]
    have hw := hwf r hr
    rcases wnoutrefresh_row_union s s' p c hc hne h (r : Int) with
      ⟨u1, u2, _⟩ | ⟨f, l, cf, cl, u1, u2, u3, u4, u5, u6, u7, _, _, u10, u11⟩
    · have e1 := getD_congr_rd _NO_CHANGE (by omega : (0 : Int) ≤ (r : Int)) u1
      have e2 := getD_congr_rd _NO_CHANGE (by omega : (0 : Int) ≤ (r : Int)) u2
      simp only [Int.toNat_ofNat] at e1 e2
      rw [e1, e2]
      exact hw
    · obtain ⟨v1, v2, v3⟩ := spansValid_rd hsp (by omega) (by omega) u4 u3 u5
      have e1 := getD_of_rd (d := _NO_CHANGE) u10
      have e2 := getD_of_rd (d := _NO_CHANGE) u11
      have e3 := getD_of_rd (d := _NO_CHANGE) u6
      have e4 := getD_of_rd (d := _NO_CHANGE) u7
      simp only [Int.toNat_ofNat] at e1 e2 e3 e4
      rw [e3, e4] at hw
      rw [e1, e2]
      right
      rw [hNC] at hw ⊢
      split_ifs with hcf
      · rcases hw with ⟨w1, _⟩ | ⟨w1, w2, w3⟩
        · exact absurd w1 hcf
        · refine ⟨?_, ?_, ?_⟩
          · exact le_min w1 (by omega)
          · exact le_trans (min_le_left _ _) (le_trans w2 (le_max_left _ _))
          · exact max_lt w3 (by omega)
      · have hcf' : cf = -1 := by
          by_contra hx
          exact hcf hx
        rcases hw with ⟨_, w2⟩ | ⟨w1, _, _⟩
        · refine ⟨by omega, ?_, ?_⟩
          · exact le_trans (by omega : f + (s.mem p)._begx ≤ l + (s.mem p)._begx)
              (le_max_right _ _)
          · exact max_lt (by omega) (by omega)
        · omega
  · intro r f l hf hfn hl
    obtain ⟨r0, r1⟩ := rd_eq_some_bounds hf
    rcases wnoutrefresh_row_union s s' p c hc hne h r with
      ⟨u1, u2, _⟩ | ⟨fw, lw, cf, cl, u1, u2, u3, u4, u5, u6, u7, _, _, u10, u11⟩
    · exact ⟨f, l, by rw [u1, hf], by rw [u2, hl], hfn, le_refl _, le_refl _⟩
    · rw [hf] at u6
      rw [hl] at u7
      cases u6
      cases u7
      obtain ⟨v1, v2, v3⟩ := spansValid_rd hsp (by omega) (by omega) u4 u3 u5
      have hw := hwf r.toNat (by omega)
      rw [getD_of_rd hf, getD_of_rd hl] at hw
      have hf0 : 0 ≤ f := by
        rcases hw with ⟨w1, _⟩ | ⟨w1, _, _⟩
        · exact absurd w1 hfn
        · exact w1
      rw [if_pos hfn] at u10
      refine ⟨_, _, u10, u11, ?_, min_le_left _ _, le_max_left _ _⟩
      rw [hNC]
      have := le_min hf0 (by omega : 0 ≤ fw + (s.mem p)._begx)
      omega

/-- Instance of `wnoutrefresh_keeps_wf`: the 3 by 20 window at origin `(1, 10)` with
the span `(2, 5)` on its row 1 is merged into the physical image whose row 2
carries the span `(4, 7)`; the damage stays well formed and row 2 grows to
`(4, 15)`, which contains `(4, 7)`. -/
theorem wnoutrefresh_keeps_wf_witness :
    (∃ s', wnoutrefresh (some 3) sideDirtyState = some (OK, s') ∧ damageWF (s'.mem 0) ∧
      ∃ f' l', rd (s'.mem 0)._firstch 2 = some f' ∧ rd (s'.mem 0)._lastch 2 = some l' ∧
        f' ≠ _NO_CHANGE ∧ f' ≤ 4 ∧ 7 ≤ l') ∧
    (wnoutrefresh (some 3) sideDirtyState).map
        (fun r => (rd (r.2.mem 0)._firstch 2, rd (r.2.mem 0)._lastch 2)) =
      some (some 4, some 15) := by
  obtain ⟨s', hs⟩ := (wnoutrefresh_keeps_wf sideDirtyState 3 0 rfl (by decide) (by decide)
    (by decide) (by decide)).2 (by decide) (by decide) (by decide)
  obtain ⟨h1, h2⟩ := (wnoutrefresh_keeps_wf sideDirtyState 3 0 rfl (by decide) (by decide)
    (by decide) (by decide)).1 s' hs
  exact ⟨⟨s', hs, h1, h2 2 4 7 (by decide) (by decide) (by decide)⟩, by decide⟩

/-! ## The damage of a merged row -/

/-- C1: for a non-pad window (other than the physical image itself) that lies
within the physical image, whose damage is well formed, and a window row `i`
whose first-changed marker `f` is not `_NO_CHANGE`, with span `(f, l)`, a
`wnoutrefresh` that returns `OK` sets the damage of physical row
`j = begy + i` as follows: if row `j` already had a span `(ef, el)` the result
is `(min ef (f + begx), max el (l + begx))`; if row `j` had no span (its first
marker was `_NO_CHANGE`) the result is exactly `(f + begx, l + begx)`.  The call
returns `OK` whenever the arrays of both are allocated, the spans of the window
are valid and the window is not a pad. -/
theorem wnoutrefresh_damage {T : Type} (s : State T) (p c : Nat) (hc : s.curscr = some c)
    (hne : p ≠ c) (hwf : damageWF (s.mem c)) (hfit : fitsIn (s.mem p) (s.mem c)) :
    (isPad (s.mem p) = false → (s.mem p).allocated → (s.mem c).allocated →
      spansValid (s.mem p) → ∃ s', wnoutrefresh (some p) s = some (OK, s')) ∧
    ∀ s' : State T, wnoutrefresh (some p) s = some (OK, s') →
    ∀ i f l : Int, 0 ≤ i → i < (s.mem p)._maxy →
    rd (s.mem p)._firstch i = some f → f ≠ _NO_CHANGE →
    rd (s.mem p)._lastch i = some l →
    ∃ ef el, rd (s.mem c)._firstch ((s.mem p)._begy + i) = some ef ∧
      rd (s.mem c)._lastch ((s.mem p)._begy + i) = some el ∧
      (ef ≠ _NO_CHANGE →
        rd (s'.mem c)._firstch ((s.mem p)._begy + i) = some (min ef (f + (s.mem p)._begx)) ∧
        rd (s'.mem c)._lastch ((s.mem p)._begy + i) = some (max el (l + (s.mem p)._begx))) ∧
      (ef = _NO_CHANGE →
        rd (s'.mem c)._firstch ((s.mem p)._begy + i) = some (f + (s.mem p)._begx) ∧
        rd (s'.mem c)._lastch ((s.mem p)._begy + i) = some (l + (s.mem p)._begx)) := by
  have hNC : _NO_CHANGE = -1 := rfl
  refine ⟨fun hpad ha hb hsp => wnoutrefresh_completes s p c hc hpad ⟨ha, hb, hfit, hsp⟩, ?_⟩
  obtain ⟨f1, f2, f3, f4⟩ := hfit
  intro s' h i f l hi0 hi1 hf hfn hl
  have hi : (s.mem p)._begy + i - (s.mem p)._begy = i := by omega
  rcases wnoutrefresh_row_union s s' p c hc hne h ((s.mem p)._begy + i) with
    ⟨_, _, u3⟩ | ⟨fw, lw, cf, cl, _, _, _, u4, u5, u6, u7, u8, u9, u10, u11⟩
  · have hx := u3 (by omega) (by omega)
    rw [hi, hf] at hx
    exact absurd (Option.some.inj hx) hfn
  · rw [hi, hf] at u4
    rw [hi, hl] at u5
    cases u4
    cases u5
    refine ⟨cf, cl, u6, u7, ?_, ?_⟩
    · intro hcf
      rw [if_pos hcf] at u10
      exact ⟨u10, u11⟩
    · intro hcf
      have hw := hwf ((s.mem p)._begy + i).toNat (by omega)
      rw [getD_of_rd u6, getD_of_rd u7] at hw
      have hcl : cl = -1 := by
        rw [hNC] at hw hcf
        rcases hw with ⟨_, w2⟩ | ⟨w1, _, _⟩
        · exact w2
        · omega
      rw [if_neg (fun hx => hx hcf)] at u10
      rw [hcl, max_eq_right (by omega)] at u11
      exact ⟨u10, u11⟩

/-- Instance of `wnoutrefresh_damage`: the 5 by 10 window at origin `(2, 3)` with row
0 span `(1, 4)`, merged into the clean 24 by 80 image, gives physical row 2 the
damage `(4, 7)`; merged into the image whose row 2 carries `(6, 20)`, it gives
`(min 6 4, max 20 7) = (4, 20)`. -/
theorem wnoutrefresh_damage_witness :
    (∃ s', wnoutrefresh (some 1) demoState = some (OK, s') ∧
      rd (s'.mem 0)._firstch 2 = some 4 ∧ rd (s'.mem 0)._lastch 2 = some 7) ∧
    (wnoutrefresh (some 1) wideDirtyState).map
        (fun r => (r.1, rd (r.2.mem 0)._firstch 2, rd (r.2.mem 0)._lastch 2)) =
      some (OK, some 4, some 20) := by
  have hthm := wnoutrefresh_damage demoState 1 0 rfl (by decide) (by decide) (by decide)
  obtain ⟨s', hs⟩ := hthm.1 (by decide) (by decide) (by decide) (by decide)
  obtain ⟨ef, el, hef, _, _, hclean⟩ :=
    hthm.2 s' hs 0 1 4 (by decide) (by decide) (by decide) (by decide) (by decide)
  have h1 : rd (demoState.mem 0)._firstch ((demoState.mem 1)._begy + 0) = some (-1) := by decide
  rw [h1] at hef
  have e1 := Option.some.inj hef
  subst e1
  exact ⟨⟨s', hs, hclean rfl⟩, by decide⟩

/-! ## The union of two merges -/

theorem wnoutrefresh_tail_others (p c : Nat) (begy begx : Int) (m m' : Mem)
    (h : wnoutrefresh_tail p (some c) begy begx m = some m') (q : Nat) (hp : q ≠ p)
    (hq : q ≠ c) : m' q = m q := by
  obtain ⟨m1, hm1, hcase⟩ := (wnoutrefresh_tail_eq_some p (some c) begy begx m m').mp h
  have e1 : m1 q = m q := by
    subst hm1
    split
    · exact store_ne _ _ _ _ hp
    · rfl
  rcases hcase with ⟨_, rfl⟩ | ⟨_, c', hc', rfl⟩
  · exact e1
  · cases hc'
    rw [store_ne _ _ _ _ hq]
    exact e1

theorem wnoutrefresh_others {T : Type} (s s' : State T) (p c : Nat) (rc : Int)
    (hc : s.curscr = some c) (hne : p ≠ c) (h : wnoutrefresh (some p) s = some (rc, s'))
    (q : Nat) (hp : q ≠ p) (hq : q ≠ c) : s'.mem q = s.mem q := by
  rcases (wnoutrefresh_eq_some s s' p rc).mp h with ⟨_, _, rfl⟩ | ⟨_, _, m1, m2, h1, h2, rfl⟩
  · rfl
  · rw [hc] at h1 h2
    obtain ⟨_, e1⟩ := wnoutrefresh_loop_merged p c hne _ _ _ _ _ _ h1
    show m2 q = _
    rw [wnoutrefresh_tail_others _ _ _ _ _ _ h2 q hp hq, e1 q hp hq]

theorem wnoutrefresh_lens {T : Type} (s s' : State T) (p : Nat) (rc : Int)
    (h : wnoutrefresh (some p) s = some (rc, s')) (q : Nat) :
    (s'.mem q).lens = (s.mem q).lens := by
  rcases (wnoutrefresh_eq_some s s' p rc).mp h with ⟨_, _, rfl⟩ | ⟨_, _, m1, m2, h1, h2, rfl⟩
  · rfl
  · have e1 := wnoutrefresh_loop_lens _ _ _ _ _ _ _ _ h1 q
    obtain ⟨a1, a2, a3⟩ := wnoutrefresh_tail_arrays _ _ _ _ _ _ h2 q
    show (m2 q).lens = _
    rw [← e1]
    simp only [WINDOW.lens, a1, a2, a3]

theorem wnoutrefresh_union_order {T : Type} (s sa sb : State T) (p1 p2 c : Nat)
    (j f1 l1 f2 l2 : Int) (hc : s.curscr = some c) (h1 : p1 ≠ c) (h2 : p2 ≠ c)
    (hj1 : (s.mem p1)._begy ≤ j ∧ j < (s.mem p1)._begy + (s.mem p1)._maxy)
    (hf1 : rd (s.mem p1)._firstch (j - (s.mem p1)._begy) = some f1) (hn1 : f1 ≠ _NO_CHANGE)
    (hl1 : rd (s.mem p1)._lastch (j - (s.mem p1)._begy) = some l1)
    (hj2 : (s.mem p2)._begy ≤ j ∧ j < (s.mem p2)._begy + (s.mem p2)._maxy)
    (hf2 : rd (s.mem p2)._firstch (j - (s.mem p2)._begy) = some f2) (hn2 : f2 ≠ _NO_CHANGE)
    (hl2 : rd (s.mem p2)._lastch (j - (s.mem p2)._begy) = some l2)
    (hcf : rd (s.mem c)._firstch j = some _NO_CHANGE)
    (hcl : rd (s.mem c)._lastch j = some _NO_CHANGE)
    (ha : wnoutrefresh (some p1) s = some (OK, sa))
    (hb : wnoutrefresh (some p2) sa = some (OK, sb)) :
    rd (sb.mem c)._firstch j =
      some (min (f1 + (s.mem p1)._begx) (f2 + (s.mem p2)._begx)) ∧
    rd (sb.mem c)._lastch j =
      some (max (l1 + (s.mem p1)._begx) (l2 + (s.mem p2)._begx)) := by
  have hNC : _NO_CHANGE = -1 := rfl
  have hca : sa.curscr = some c := (wnoutrefresh_frame s sa p1 OK ha).1.trans hc
  obtain ⟨g1, _, g3, g4, _⟩ := wnoutrefresh_geometry s sa p1 OK ha p2
  -- the first merge
  have first : rd (sa.mem c)._firstch j = some (f1 + (s.mem p1)._begx) ∧
      rd (sa.mem c)._lastch j = some (l1 + (s.mem p1)._begx) ∧
      0 ≤ f1 + (s.mem p1)._begx ∧ -1 ≤ l1 + (s.mem p1)._begx := by
    rcases wnoutrefresh_row_union s sa p1 c hc h1 ha j with
      ⟨_, _, u3⟩ | ⟨f, l, cf, cl, _, _, _, u4, u5, u6, u7, u8, u9, u10, u11⟩
    · have := u3 hj1.1 hj1.2
      rw [hf1] at this
      exact absurd (Option.some.inj this) hn1
    · rw [hf1] at u4
      rw [hl1] at u5
      rw [hcf] at u6
      rw [hcl] at u7
      cases u4
      cases u5
      cases u6
      cases u7
      rw [if_neg (fun hx => hx rfl)] at u10
      refine ⟨u10, ?_, by omega, by omega⟩
      rw [u11, hNC, max_eq_right (by omega)]
  obtain ⟨a1, a2, a3, a4⟩ := first
  -- the second merge
  rcases wnoutrefresh_row_union sa sb p2 c hca h2 hb j with
    ⟨u1, u2, u3⟩ | ⟨f, l, cf, cl, _, _, u3, u4, u5, u6, u7, u8, u9, u10, u11⟩
  · have hnc := u3 (by rw [g3]; exact hj2.1) (by rw [g3, g1]; exact hj2.2)
    rw [g3] at hnc
    by_cases h12 : p2 = p1
    · subst h12
      rw [hf1] at hf2
      rw [hl1] at hl2
      cases hf2
      cases hl2
      rw [u1, u2, a1, a2, min_self, max_self]
      exact ⟨rfl, rfl⟩
    · rw [wnoutrefresh_others s sa p1 c OK hc h1 ha p2 h12 h2, hf2] at hnc
      exact absurd (Option.some.inj hnc) hn2
  · rw [g3] at u4 u5
    rw [g4] at u10 u11
    by_cases h12 : p2 = p1
    · subst h12
      have hm := (wnoutrefresh_markers_clean s sa p2 (fun e => absurd (Option.some.inj
        (hc.symm.trans e)).symm h1) ha (j - (s.mem p2)._begy) (by omega) (by omega)).1
      rw [hm] at u4
      exact absurd (Option.some.inj u4).symm u3
    · rw [wnoutrefresh_others s sa p1 c OK hc h1 ha p2 h12 h2] at u4 u5
      rw [hf2] at u4
      rw [hl2] at u5
      rw [a1] at u6
      rw [a2] at u7
      cases u4
      cases u5
      cases u6
      cases u7
      rw [if_pos (by rw [hNC]; omega)] at u10
      exact ⟨u10, u11⟩

theorem mergeReady_after {T : Type} (s sa : State T) (p1 p2 c : Nat)
    (hc : s.curscr = some c) (h1 : p1 ≠ c) (h2 : p2 ≠ c) (h12 : p2 ≠ p1)
    (ha : wnoutrefresh (some p1) s = some (OK, sa))
    (hr : mergeReady (s.mem p2) (s.mem c)) :
    sa.curscr = some c ∧ isPad (sa.mem p2) = isPad (s.mem p2) ∧
    mergeReady (sa.mem p2) (sa.mem c) := by
  have hca : sa.curscr = some c := (wnoutrefresh_frame s sa p1 OK ha).1.trans hc
  have e2 := wnoutrefresh_others s sa p1 c OK hc h1 ha p2 h12 h2
  obtain ⟨g1, g2, _⟩ := wnoutrefresh_geometry s sa p1 OK ha c
  have hl := wnoutrefresh_lens s sa p1 OK ha c
  simp only [WINDOW.lens, Prod.mk.injEq] at hl
  obtain ⟨l1, l2, l3⟩ := hl
  obtain ⟨r1, r2, r3, r4⟩ := hr
  refine ⟨hca, by rw [e2], ?_⟩
  rw [e2]
  refine ⟨r1, ?_, ?_, r4⟩
  · unfold WINDOW.allocated at r2 ⊢
    rw [g1, g2, l1, l2, l3]
    exact r2
  · unfold fitsIn at r3 ⊢
    rw [g1, g2]
    exact r3

/-- C12: let two windows other than the physical image both carry a change on
physical row `j`, with spans `(f1, l1)` and `(f2, l2)` on their rows
`j - begy1` and `j - begy2`, and let physical row `j` be clean.  After both are
merged by calls of `wnoutrefresh` that return `OK`, the damage of physical row
`j` is the covering span `(min (f1 + begx1) (f2 + begx2), max (l1 + begx1)
(l2 + begx2))`, whichever window is merged first.  Both orders run to their end
and return `OK` when the windows are distinct non-pad windows that lie within
the physical image with allocated arrays and valid spans. -/
theorem wnoutrefresh_union {T : Type} (s : State T) (p1 p2 c : Nat)
    (j f1 l1 f2 l2 : Int) (hc : s.curscr = some c) (h1 : p1 ≠ c) (h2 : p2 ≠ c)
    (hj1 : (s.mem p1)._begy ≤ j ∧ j < (s.mem p1)._begy + (s.mem p1)._maxy)
    (hf1 : rd (s.mem p1)._firstch (j - (s.mem p1)._begy) = some f1) (hn1 : f1 ≠ _NO_CHANGE)
    (hl1 : rd (s.mem p1)._lastch (j - (s.mem p1)._begy) = some l1)
    (hj2 : (s.mem p2)._begy ≤ j ∧ j < (s.mem p2)._begy + (s.mem p2)._maxy)
    (hf2 : rd (s.mem p2)._firstch (j - (s.mem p2)._begy) = some f2) (hn2 : f2 ≠ _NO_CHANGE)
    (hl2 : rd (s.mem p2)._lastch (j - (s.mem p2)._begy) = some l2)
    (hcf : rd (s.mem c)._firstch j = some _NO_CHANGE)
    (hcl : rd (s.mem c)._lastch j = some _NO_CHANGE) :
    (∀ sa sb, wnoutrefresh (some p1) s = some (OK, sa) →
      wnoutrefresh (some p2) sa = some (OK, sb) →
      rd (sb.mem c)._firstch j =
        some (min (f1 + (s.mem p1)._begx) (f2 + (s.mem p2)._begx)) ∧
      rd (sb.mem c)._lastch j =
        some (max (l1 + (s.mem p1)._begx) (l2 + (s.mem p2)._begx))) ∧
    (∀ ta tb, wnoutrefresh (some p2) s = some (OK, ta) →
      wnoutrefresh (some p1) ta = some (OK, tb) →
      rd (tb.mem c)._firstch j =
        some (min (f1 + (s.mem p1)._begx) (f2 + (s.mem p2)._begx)) ∧
      rd (tb.mem c)._lastch j =
        some (max (l1 + (s.mem p1)._begx) (l2 + (s.mem p2)._begx))) ∧
    (p1 ≠ p2 → isPad (s.mem p1) = false → isPad (s.mem p2) = false →
      mergeReady (s.mem p1) (s.mem c) → mergeReady (s.mem p2) (s.mem c) →
      (∃ sa sb, wnoutrefresh (some p1) s = some (OK, sa) ∧
        wnoutrefresh (some p2) sa = some (OK, sb)) ∧
      (∃ ta tb, wnoutrefresh (some p2) s = some (OK, ta) ∧
        wnoutrefresh (some p1) ta = some (OK, tb))) := by
  refine ⟨?_, ?_, ?_⟩
  · intro sa sb ha hb
    exact wnoutrefresh_union_order s sa sb p1 p2 c j f1 l1 f2 l2 hc h1 h2 hj1 hf1 hn1 hl1
      hj2 hf2 hn2 hl2 hcf hcl ha hb
  · intro ta tb ha hb
    rw [min_comm, max_comm]
    exact wnoutrefresh_union_order s ta tb p2 p1 c j f2 l2 f1 l1 hc h2 h1 hj2 hf2 hn2 hl2
      hj1 hf1 hn1 hl1 hcf hcl ha hb
  · intro h12 hp1 hp2 hr1 hr2
    refine ⟨?_, ?_⟩
    · obtain ⟨sa, ha⟩ := wnoutrefresh_completes s p1 c hc hp1 hr1
      obtain ⟨k1, k2, k3⟩ := mergeReady_after s sa p1 p2 c hc h1 h2 (fun e => h12 e.symm) ha hr2
      obtain ⟨sb, hb⟩ := wnoutrefresh_completes sa p2 c k1 (k2.trans hp2) k3
      exact ⟨sa, sb, ha, hb⟩
    · obtain ⟨ta, ha⟩ := wnoutrefresh_completes s p2 c hc hp2 hr2
      obtain ⟨k1, k2, k3⟩ := mergeReady_after s ta p2 p1 c hc h2 h1 h12 ha hr1
      obtain ⟨tb, hb⟩ := wnoutrefresh_completes ta p1 c k1 (k2.trans hp1) k3
      exact ⟨ta, tb, ha, hb⟩

/-- Instance of `wnoutrefresh_union`: the 5 by 10 window at origin `(2, 3)` with
span `(1, 4)` on its row 0 and the 3 by 20 window at origin `(1, 10)` with span
`(2, 5)` on its row 1 are merged into the clean physical row 2; in both orders
the row ends with the span `(4, 15)`. -/
theorem wnoutrefresh_union_witness :
    (∃ sa sb, wnoutrefresh (some 1) twoWindowsState = some (OK, sa) ∧
      wnoutrefresh (some 3) sa = some (OK, sb) ∧
      rd (sb.mem 0)._firstch 2 =
        some (min (1 + (twoWindowsState.mem 1)._begx) (2 + (twoWindowsState.mem 3)._begx)) ∧
      rd (sb.mem 0)._lastch 2 =
        some (max (4 + (twoWindowsState.mem 1)._begx) (5 + (twoWindowsState.mem 3)._begx))) ∧
    min (1 + (twoWindowsState.mem 1)._begx) (2 + (twoWindowsState.mem 3)._begx) = 4 ∧
    max (4 + (twoWindowsState.mem 1)._begx) (5 + (twoWindowsState.mem 3)._begx) = 15 ∧
    ((wnoutrefresh (some 1) twoWindowsState).bind (fun r => wnoutrefresh (some 3) r.2)).map
        (fun r => (rd (r.2.mem 0)._firstch 2, rd (r.2.mem 0)._lastch 2)) =
      some (some 4, some 15) ∧
    ((wnoutrefresh (some 3) twoWindowsState).bind (fun r => wnoutrefresh (some 1) r.2)).map
        (fun r => (rd (r.2.mem 0)._firstch 2, rd (r.2.mem 0)._lastch 2)) =
      some (some 4, some 15) := by
  have h := wnoutrefresh_union twoWindowsState 1 3 0 2 1 4 2 5 rfl (by decide) (by decide)
    (by decide) (by decide) (by decide) (by decide) (by decide) (by decide) (by decide)
    (by decide) (by decide) (by decide)
  obtain ⟨sa, sb, ha, hb⟩ := (h.2.2 (by decide) (by decide) (by decide) (by decide)
    (by decide)).1
  exact ⟨⟨sa, sb, ha, hb, h.1 sa sb ha hb⟩, by decide, by decide, by decide, by decide⟩

/-! ## `doupdate` twice in a row -/

theorem doupdate_prologue_awake {T : Type} (be : Backend T) (s s1 : State T)
    (hi : ∀ (t : T) (sp : SCREEN), be.isendwin t sp = !sp.alive)
    (ha : ∀ (t : T) (sp : SCREEN), (be.reset_prog_mode t sp).2.alive = sp.alive)
    (h : doupdate_prologue be s = some s1) : s1.SP.alive = true := by
  unfold doupdate_prologue at h
  simp only [Option.bind_eq_bind, Option.pure_def, Option.bind_eq_some, Option.some.injEq] at h
  obtain ⟨s0, h0, rfl⟩ := h
  have key : s0.SP.alive = true := by
    split at h0
    · unfold doupdate_wakeup at h0
      simp only [Option.bind_eq_bind, Option.pure_def, Option.bind_eq_some,
        Option.some.injEq] at h0
      obtain ⟨c', _, rfl⟩ := h0
      rfl
    · rename_i hx
      simp only [Option.some.injEq] at h0
      subst h0
      rw [hi] at hx
      simpa using hx
  split
  · exact (ha _ _).trans key
  · exact key

theorem doupdate_prologue_idle {T : Type} (be : Backend T) (s : State T)
    (h : be.isendwin s.term s.SP = false) :
    doupdate_prologue be s = some (if s.SP.shell then call_reset_prog_mode be s else s) := by
  unfold doupdate_prologue
  simp only [h, Bool.false_eq_true, if_false, Option.bind_eq_bind, Option.pure_def,
    Option.some_bind]

theorem doupdate_loop_clean {T : Type} (be : Backend T) (c : Nat) :
    ∀ (n : Nat) (i : Int) (s : State T),
    (∀ k : Int, i ≤ k → k < i + n → rd (s.mem c)._firstch k = some _NO_CHANGE) →
    doupdate_loop be c n i s = some s := by
  intro n
  induction n with
  | zero =>
    intro i s _
    rfl
  | succ n ih =>
    intro i s h
    have hi := h i (le_refl _) (by push_cast; omega)
    simp only [doupdate_loop, Option.bind_eq_bind, hi, Option.some_bind, Option.pure_def]
    rw [if_neg (fun hx => hx rfl)]
    apply ih
    intro k hk0 hk1
    exact h k (by omega) (by push_cast; omega)

theorem doupdate_loop_consumed {T : Type} (be : Backend T) (c : Nat) (hb : be.consumes) :
    ∀ (n : Nat) (i : Int) (s s' : State T), doupdate_loop be c n i s = some s' →
    0 ≤ i → i + n ≤ (s.mem c)._firstch.length →
    (∀ k : Int, 0 ≤ k → k < i → rd (s.mem c)._firstch k = some _NO_CHANGE) →
    (s'.mem c)._clear = (s.mem c)._clear ∧
    (s'.mem c)._firstch.length = (s.mem c)._firstch.length ∧
    ∀ k : Int, 0 ≤ k → k < i + n → rd (s'.mem c)._firstch k = some _NO_CHANGE := by
  obtain ⟨_, _, hgeo, _, _, htl⟩ := hb
  intro n
  induction n with
  | zero =>
    intro i s s' h _ _ hpre
    simp only [doupdate_loop, Option.some.injEq] at h
    subst h
    refine ⟨rfl, rfl, ?_⟩
    intro k hk0 hk1
    exact hpre k hk0 (by simpa using hk1)
  | succ n ih =>
    intro i s s' h hi0 hlen hpre
    simp only [doupdate_loop, Option.bind_eq_bind, Option.pure_def, Option.bind_eq_some] at h
    obtain ⟨f, hf, h⟩ := h
    obtain ⟨t1, t2, t3, t4⟩ := htl i s.term (s.mem c)
    have hmem := (call_transform_line_spec be c i s).2.2.2.2.1
    have hret := (call_transform_line_spec be c i s).2.2.2.2.2.1
    have hlen' : ((call_transform_line be c i s).2.mem c)._firstch.length =
        (s.mem c)._firstch.length := by
      rw [hmem]
      exact hgeo.1 _ _ _
    have hbelow : ∀ k : Int, 0 ≤ k → k < i + 1 →
        rd ((call_transform_line be c i s).2.mem c)._firstch k = some _NO_CHANGE := by
      intro k hk0 hk1
      rw [hmem]
      by_cases hki : k = i
      · subst hki
        exact t2 f hf
      · exact t3 k (hpre k hk0 (by omega))
    split at h
    · split at h
      · rename_i hstop
        simp only [Option.some.injEq] at h
        subst h
        refine ⟨by rw [hmem]; exact t1, hlen', ?_⟩
        intro k hk0 hk1
        by_cases hki : k < i + 1
        · exact hbelow k hk0 hki
        · rw [hmem]
          rw [hret] at hstop
          exact t4 hstop k (by omega) (by push_cast at hk1 hlen; omega)
      · obtain ⟨e1, e2, e3⟩ := ih (i + 1) _ s' h (by omega)
          (by rw [hlen']; push_cast at hlen; omega) hbelow
        refine ⟨e1.trans (by rw [hmem]; exact t1), e2.trans hlen', ?_⟩
        intro k hk0 hk1
        exact e3 k hk0 (by push_cast at hk1; omega)
    · rename_i hfn
      have hfe : f = _NO_CHANGE := by
        by_contra hx
        exact hfn hx
      subst hfe
      obtain ⟨e1, e2, e3⟩ := ih (i + 1) s s' h (by omega) (by push_cast at hlen; omega)
        (by
          intro k hk0 hk1
          by_cases hki : k = i
          · subst hki
            exact hf
          · exact hpre k hk0 (by omega))
      refine ⟨e1, e2, ?_⟩
      intro k hk0 hk1
      exact e3 k hk0 (by push_cast at hk1; omega)

theorem doupdate_cursor_session {T : Type} (be : Backend T) (c : Nat) (s : State T) :
    (doupdate_cursor be c s).SP.alive = s.SP.alive ∧
    (doupdate_cursor be c s).SP.lines = s.SP.lines ∧
    (doupdate_cursor be c s).SP.shell = s.SP.shell := by
  unfold doupdate_cursor
  split
  · exact ⟨rfl, rfl, rfl⟩
  · exact ⟨rfl, rfl, rfl⟩

theorem idle_prologue_spec {T : Type} (be : Backend T) (s : State T) (hb : be.consumes) :
    (if s.SP.shell then call_reset_prog_mode be s else s).mem = s.mem ∧
    (if s.SP.shell then call_reset_prog_mode be s else s).curscr = s.curscr ∧
    (if s.SP.shell then call_reset_prog_mode be s else s).SP.lines = s.SP.lines ∧
    (if s.SP.shell then call_reset_prog_mode be s else s).SP.cursrow = s.SP.cursrow ∧
    (if s.SP.shell then call_reset_prog_mode be s else s).SP.curscol = s.SP.curscol ∧
    ∃ pre, (if s.SP.shell then call_reset_prog_mode be s else s).calls = s.calls ++ pre ∧
      ∀ x ∈ pre, x = Call.reset_prog_mode := by
  obtain ⟨_, _, hgeo, hcur, _, _⟩ := hb
  split
  · exact ⟨rfl, rfl, hgeo.2 _ _, (hcur.1 _ _).1, (hcur.1 _ _).2, [Call.reset_prog_mode], rfl,
      fun x hx => by simpa using hx⟩
  · exact ⟨rfl, rfl, rfl, rfl, rfl, [], by simp, fun x hx => by simp at hx⟩

theorem doupdate_settled {T : Type} (be : Backend T) (s s1 : State T) (rc : Int)
    (hb : be.consumes)
    (hlines : ∀ c, s.curscr = some c → s.SP.lines ≤ (s.mem c)._firstch.length)
    (h1 : doupdate be s = some (rc, s1)) :
    s1.curscr = s.curscr ∧ be.isendwin s1.term s1.SP = false ∧
    (s1.curscr = none → rc = ERR) ∧
    ∀ c, s1.curscr = some c → rc = OK ∧ (s1.mem c)._clear = false ∧
      (∀ k : Int, 0 ≤ k → k < s1.SP.lines → rd (s1.mem c)._firstch k = some _NO_CHANGE) ∧
      s1.SP.cursrow = (s1.mem c)._cury ∧ s1.SP.curscol = (s1.mem c)._curx := by
  obtain ⟨sp, hp, hcase⟩ := (doupdate_eq_some be s s1 rc).mp h1
  have hawake := doupdate_prologue_awake be s sp hb.1 hb.2.1 hp
  obtain ⟨p1, _, _, _, _⟩ := doupdate_prologue_spec be s sp hp
  obtain ⟨pl1, pl2⟩ := doupdate_prologue_lines be s sp hb.2.2.1.2 hp
  rcases hcase with ⟨hnone, hrc, rfl⟩ | ⟨c, s2, hc, hflush, hrc, rfl⟩
  · refine ⟨p1, by rw [hb.1, hawake]; rfl, fun _ => hrc, ?_⟩
    intro c hc
    rw [hnone] at hc
    cases hc
  · obtain ⟨q1, q2, _, _, q5, q6⟩ := doupdate_cursor_spec be c s2
    obtain ⟨r1, r2, r3⟩ := doupdate_cursor_session be c s2
    have hlen : sp.SP.lines ≤ (sp.mem c)._firstch.length := by
      rw [pl1, pl2 c]
      exact hlines c (p1.symm.trans hc)
    have hs2 : s2.curscr = sp.curscr ∧ s2.SP = sp.SP ∧ (s2.mem c)._clear = false ∧
        ∀ k : Int, 0 ≤ k → k < sp.SP.lines → rd (s2.mem c)._firstch k = some _NO_CHANGE := by
      unfold doupdate_flush at hflush
      split at hflush
      · simp only [Option.some.injEq] at hflush
        subst hflush
        obtain ⟨c1, c2, c3⟩ := hb.2.2.2.2.1 sp.term (sp.mem c)
        refine ⟨rfl, rfl, ?_, ?_⟩
        · show (store sp.mem c (be.PDC_clr_update sp.term (sp.mem c)).2 c)._clear = false
          rw [store_same]
          exact c1
        · intro k hk0 hk1
          show rd (store sp.mem c (be.PDC_clr_update sp.term (sp.mem c)).2 c)._firstch k = _
          rw [store_same]
          obtain ⟨v, hv⟩ := rd_isSome_of_bounds (be.PDC_clr_update sp.term (sp.mem c)).2._firstch
            k hk0 (by rw [c2]; omega)
          rw [hv, c3 v (mem_of_rd hv)]
      · rename_i hfl
        obtain ⟨l1, _, l3, _⟩ := doupdate_loop_spec be c _ _ _ _ hflush
        obtain ⟨e1, _, e3⟩ := doupdate_loop_consumed be c hb _ _ _ _ hflush (le_refl _)
          (by omega) (fun k hk0 hk1 => by omega)
        refine ⟨l1, l3, ?_, ?_⟩
        · rw [e1]
          simpa using hfl
        · intro k hk0 hk1
          exact e3 k hk0 (by omega)
    obtain ⟨a1, a2, a3, a4⟩ := hs2
    refine ⟨(q2.trans a1).trans p1, ?_, ?_, ?_⟩
    · rw [hb.1, r1, a2, hawake]
      rfl
    · intro hn
      rw [q2, a1, hc] at hn
      cases hn
    · intro c' hc'
      rw [q2, a1, hc] at hc'
      cases hc'
      rw [q1, r2, a2]
      exact ⟨hrc, a3, a4, q5, q6⟩

theorem doupdate_of_settled {T : Type} (be : Backend T) (s : State T) (hb : be.consumes)
    (hidle : be.isendwin s.term s.SP = false)
    (hclean : ∀ c, s.curscr = some c → (s.mem c)._clear = false ∧
      (∀ k : Int, 0 ≤ k → k < s.SP.lines → rd (s.mem c)._firstch k = some _NO_CHANGE) ∧
      s.SP.cursrow = (s.mem c)._cury ∧ s.SP.curscol = (s.mem c)._curx) :
    doupdate be s = some (if s.curscr = none then ERR else OK,
      if s.SP.shell then call_reset_prog_mode be s else s) := by
  obtain ⟨i1, i2, i3, i4, i5, _⟩ := idle_prologue_spec be s hb
  apply (doupdate_eq_some be s _ _).mpr
  refine ⟨_, doupdate_prologue_idle be s hidle, ?_⟩
  cases hcur : s.curscr with
  | none =>
    left
    exact ⟨i2.trans hcur, by simp, rfl⟩
  | some c =>
    right
    obtain ⟨k1, k2, k3, k4⟩ := hclean c hcur
    have hflush : doupdate_flush be c (if s.SP.shell then call_reset_prog_mode be s else s) =
        some (if s.SP.shell then call_reset_prog_mode be s else s) := by
      unfold doupdate_flush
      rw [i1, if_neg (by rw [k1]; simp)]
      apply doupdate_loop_clean
      intro k hk0 hk1
      rw [i1]
      exact k2 k hk0 (by rw [i3] at hk1; omega)
    have hstay : ∀ s0 : State T, s0.mem = s.mem → s0.SP.cursrow = s.SP.cursrow →
        s0.SP.curscol = s.SP.curscol → doupdate_cursor be c s0 = s0 := by
      intro s0 e1 e4 e5
      unfold doupdate_cursor
      rw [if_neg]
      rw [e1, e4, e5]
      rintro (hx | hx)
      · exact hx k3
      · exact hx k4
    exact ⟨c, _, i2.trans hcur, hflush, by simp, (hstay _ i1 i4 i5).symm⟩

/-- C16: with a backend that consumes the damage it flushes (the contract of
`Backend.consumes`), `doupdate` is idempotent.  After a `doupdate` that returned,
the full-redraw flag of the physical image is clear and no row of the screen
carries damage; a second `doupdate` right after it returns the same value and
makes no full redraw, no line transform and no cursor move: the only backend
calls it can make are those of `reset_prog_mode` in shell mode, and outside
shell mode it leaves the whole state as it was. -/
theorem doupdate_idempotent {T : Type} (be : Backend T) (s s1 : State T) (rc : Int)
    (hb : be.consumes)
    (hlines : ∀ c, s.curscr = some c → s.SP.lines ≤ (s.mem c)._firstch.length)
    (h1 : doupdate be s = some (rc, s1)) :
    (∀ c, s.curscr = some c → (s1.mem c)._clear = false ∧
      ∀ k : Int, 0 ≤ k → k < s1.SP.lines → ¬ damaged (s1.mem c) k) ∧
    (∃ s2 pre, doupdate be s1 = some (rc, s2) ∧ s2.calls = s1.calls ++ pre ∧
      (∀ x ∈ pre, x = Call.reset_prog_mode) ∧ Call.clr_update ∉ pre ∧
      (∀ i b, Call.transform_line i b ∉ pre) ∧ (∀ y x, Call.gotoxy y x ∉ pre)) ∧
    (s1.SP.shell = false → doupdate be s1 = some (rc, s1)) := by
  obtain ⟨d1, d2, d3, d4⟩ := doupdate_settled be s s1 rc hb hlines h1
  have hrun := doupdate_of_settled be s1 hb d2 (fun c hc => (d4 c hc).2)
  have hrc : (if s1.curscr = none then ERR else OK) = rc := by
    cases hcur : s1.curscr with
    | none => simpa using (d3 hcur).symm
    | some c => simpa using (d4 c hcur).1.symm
  rw [hrc] at hrun
  refine ⟨?_, ?_, ?_⟩
  · intro c hc
    obtain ⟨_, e2, e3, _⟩ := d4 c (d1.trans hc)
    exact ⟨e2, fun k hk0 hk1 => not_damaged_of_rd (e3 k hk0 hk1)⟩
  · obtain ⟨_, _, _, _, _, pre, p1, p2⟩ := idle_prologue_spec be s1 hb
    refine ⟨_, pre, hrun, p1, p2, ?_, ?_, ?_⟩
    · intro hx
      have := p2 _ hx
      cases this
    · intro i b hx
      have := p2 _ hx
      cases this
    · intro y x hx
      have := p2 _ hx
      cases this
  · intro hsh
    rw [hrun, hsh]
    rfl

theorem demoBackend_consumes : demoBackend.consumes := by
  refine ⟨fun _ _ => rfl, fun _ _ => rfl, demoBackend_keepsGeometry, demoBackend_keepsCursor,
    ?_, ?_⟩
  · intro t w
    refine ⟨rfl, ?_, ?_⟩
    · show (w._firstch.map (fun _ => _NO_CHANGE)).length = _
      simp
    · intro x hx
      have hx' : x ∈ w._firstch.map (fun _ => _NO_CHANGE) := hx
      obtain ⟨_, _, e⟩ := List.mem_map.mp hx'
      exact e.symm
  · intro i t w
    by_cases hi : 0 ≤ i
    · have hw : (demoBackend.PDC_transform_line i t w).2.2 =
          { w with _firstch := w._firstch.set i.toNat _NO_CHANGE
                   _lastch := w._lastch.set i.toNat _NO_CHANGE } := by
        show (if 0 ≤ i then _ else w) = _
        rw [if_pos hi]
      refine ⟨by rw [hw], ?_, ?_, ?_⟩
      · intro f hf
        rw [hw]
        show rd (w._firstch.set i.toNat _NO_CHANGE) i = _
        rw [rd_set_of_rd hf, if_pos rfl]
      · intro k hk
        rw [hw]
        show rd (w._firstch.set i.toNat _NO_CHANGE) k = _
        obtain ⟨k0, k1⟩ := rd_eq_some_bounds hk
        by_cases hil : i.toNat < w._firstch.length
        · rw [rd_set _ _ _ _ hi hil]
          split
          · rfl
          · exact hk
        · rw [List.set_eq_of_length_le (by omega)]
          exact hk
      · intro hx
        cases hx
    · have hw : (demoBackend.PDC_transform_line i t w).2.2 = w := by
        show (if 0 ≤ i then _ else w) = _
        rw [if_neg hi]
      refine ⟨by rw [hw], ?_, ?_, ?_⟩
      · intro f hf
        exact absurd (rd_eq_some_bounds hf).1 hi
      · intro k hk
        rw [hw]
        exact hk
      · intro hx
        cases hx

/-- Instance of `doupdate_idempotent` on the image with the damaged rows 2 and 5:
the first `doupdate` transforms both rows, the second returns `OK` again and
makes no backend call. -/
theorem doupdate_idempotent_witness :
    ∃ s1, doupdate demoBackend twoRowsState = some (OK, s1) ∧
      s1.calls = [Call.transform_line 2 false, Call.transform_line 5 false] ∧
      doupdate demoBackend s1 = some (OK, s1) := by
  obtain ⟨s1, hs⟩ := exists_of_map_fst
    (by decide : (doupdate demoBackend twoRowsState).map Prod.fst = some OK)
  have hcalls : (doupdate demoBackend twoRowsState).map (fun r => r.2.calls) =
      some [Call.transform_line 2 false, Call.transform_line 5 false] := by decide
  have hshell : (doupdate demoBackend twoRowsState).map (fun r => r.2.SP.shell) =
      some false := by decide
  rw [hs] at hcalls hshell
  exact ⟨s1, hs, Option.some.inj hcalls,
    (doupdate_idempotent demoBackend twoRowsState s1 OK demoBackend_consumes
      (fun c hc => by cases hc; decide) hs).2.2 (Option.some.inj hshell)⟩

end PDCurses
